import Mathlib

/-!
# go-cfclient: paging, polling, push, single resources and builds

A shallow embedding of the list operations of `client/app.go` and
`client/space.go` with the pieces of package `client` they call, of the poller,
of the push operation of `operation/push.go`, of the get operations on single
resources, and of `CreateBuild` of `client/build.go`.

Conventions of the embedding

* A Go pointer to an options struct is an `Option`: `none` is `nil`. An
  operation that writes through the pointer returns the value of the struct
  after the call next to its results.
* The HTTP transport is an external collaborator. It is a function from the
  requests made so far and the current request to the decoded response or an
  error; every `get` appends its request to that history, so the history is the
  observable trace of a run.
* A request is the endpoint together with the options value whose
  `ToQueryString` forms the query part of the path.
* `(x, nil)` and `(nil, err)` results are `Except.ok x` and `Except.error err`.
* A `for` loop without bound takes a fuel argument; `none` as result means the
  fuel ran out before the loop returned.
* The push operation carries a trace of the invocations it makes of the
  client, each with its arguments and what it returned.
* An index expression on a slice ends the call in a panic when the index is
  out of range.
-/

namespace CfClient

/-! ## Data model -/

/-- Modelled from the spec: the error taxonomy of section 7; Go's `error`
values themselves are opaque in the sources. -/
inductive Error where
  | TransportError (msg : String)
  | MalformedPaginationLink
  | NotFound
  | AmbiguousResult
  | OperationFailed (reason : String)
  | PollTimeout
  | Cancelled
  deriving DecidableEq, Repr

/-- The fields of `resource.App` the list operations carry along
(`resource/apps.go`); timestamps, lifecycle, links and metadata are not read
by any operation below. -/
structure App where
  GUID : String
  Name : String
  State : String
  deriving DecidableEq, Repr

/-- The `resource.Space` record, by the fields the sources read
(`space.GUID`, `space.Name`). -/
structure Space where
  GUID : String
  Name : String
  deriving DecidableEq, Repr

/-- The `resource.Organization` record, by the fields the sources read. -/
structure Organization where
  GUID : String
  Name : String
  deriving DecidableEq, Repr

/-- Modelled from the spec: `resource.Pagination` is not among the sources.
The spec's pagination metadata: total results, total pages, an optional
next-page link and an optional previous-page link. -/
structure Pagination where
  TotalResults : Nat
  TotalPages : Nat
  Next : Option String
  Previous : Option String
  deriving DecidableEq, Repr

/-- Modelled from the spec: `ListOptions` is not among the sources. The
paging controls of a list-options object: page number, page size, ordering. -/
structure ListOptions where
  Page : Int
  PerPage : Int
  OrderBy : String
  deriving DecidableEq, Repr

/-- The `Filter` type, by its use in the sources
(`appOpts.Names.Values = []string{appName}`): a list of values. -/
structure Filter where
  Values : List String
  deriving DecidableEq, Repr

/-- The `resource.AppIncludeType` constants the sources name. The declaration
is not among the sources; `AppIncludeNone` is taken as the zero value, which
matters nowhere below because every list call assigns `Include` before use. -/
inductive AppIncludeType where
  | AppIncludeNone
  | AppIncludeSpace
  | AppIncludeSpaceOrganization
  deriving DecidableEq, Repr

/-- The `resource.SpaceIncludeType` constants the sources name. -/
inductive SpaceIncludeType where
  | SpaceIncludeNone
  | SpaceIncludeOrganization
  deriving DecidableEq, Repr

/-- AppListOptions list filters (`client/app.go`, lines 12 to 24). The embedded
`*ListOptions` is taken as present, as `NewAppListOptions` builds it. -/
structure AppListOptions where
  ListOptions : CfClient.ListOptions
  GUIDs : Filter
  Names : Filter
  OrganizationGUIDs : Filter
  SpaceGUIDs : Filter
  Stacks : Filter
  LifecycleType : String
  Include : AppIncludeType
  deriving DecidableEq, Repr

/-- SpaceListOptions list filters (`client/space.go`, lines 13 to 22). -/
structure SpaceListOptions where
  ListOptions : CfClient.ListOptions
  GUIDs : Filter
  Names : Filter
  OrganizationGUIDs : Filter
  Include : SpaceIncludeType
  deriving DecidableEq, Repr

/-- NewAppListOptions creates new options to pass to list. `NewListOptions`
is not among the sources and the spec fixes no paging defaults, so its value
is the parameter `newListOptions`. -/
def NewAppListOptions (newListOptions : ListOptions) : AppListOptions :=
  { ListOptions := newListOptions
    GUIDs := ⟨[]⟩
    Names := ⟨[]⟩
    OrganizationGUIDs := ⟨[]⟩
    SpaceGUIDs := ⟨[]⟩
    Stacks := ⟨[]⟩
    LifecycleType := ""
    Include := AppIncludeType.AppIncludeNone }

/-- NewSpaceListOptions creates new options to pass to list. -/
def NewSpaceListOptions (newListOptions : ListOptions) : SpaceListOptions :=
  { ListOptions := newListOptions
    GUIDs := ⟨[]⟩
    Names := ⟨[]⟩
    OrganizationGUIDs := ⟨[]⟩
    Include := SpaceIncludeType.SpaceIncludeNone }

/-- The included parents of an app list response, by their use in the sources
(`res.Included.Spaces`, `res.Included.Organizations`). -/
structure AppIncluded where
  Spaces : List Space
  Organizations : List Organization
  deriving DecidableEq, Repr

/-- The decoded app list response (`resource.AppList`): pagination, resources
and, as `client/app.go` reads it, the included parents. -/
structure AppList where
  Pagination : CfClient.Pagination
  Resources : List App
  Included : AppIncluded
  deriving DecidableEq, Repr

/-- The included parents of a space list response
(`res.Included.Organizations`). -/
structure SpaceIncluded where
  Organizations : List Organization
  deriving DecidableEq, Repr

/-- The decoded space list response (`resource.SpaceList`). -/
structure SpaceList where
  Pagination : CfClient.Pagination
  Resources : List Space
  Included : SpaceIncluded
  deriving DecidableEq, Repr

/-- A Go slice. The list operations are methods named `List`, so inside their
declarations the slice type goes by this name. -/
abbrev Slice (α : Type) : Type := List α

/-! ## Transport -/

/-- A GET request of a list operation: the endpoint and the options value the
query string is encoded from. -/
structure Request (O : Type) where
  path : String
  query : O
  deriving DecidableEq, Repr

/-- The requests made so far, oldest first. -/
abbrev History (O : Type) := List (Request O)

/-- The shared client, by the one method the list operations call:
`get(path, &res)`. The answer may depend on the requests made before. -/
structure Client (O R : Type) where
  get : History O → Request O → Except Error R

/-- The declaration `type AppClient commonClient`: a handle on the shared
client. -/
structure AppClient where
  client : Client AppListOptions AppList

/-- The declaration `type SpaceClient commonClient`. -/
structure SpaceClient where
  client : Client SpaceListOptions SpaceList

/-! ## Pager -/

/-- Modelled from the spec: the options interface the pager works on; all the
pager needs of an options type is to assign its page number. -/
class ListOptioner (O : Type) where
  SetPage : O → Int → O

instance : ListOptioner AppListOptions where
  SetPage o n := { o with ListOptions := { o.ListOptions with Page := n } }

instance : ListOptioner SpaceListOptions where
  SetPage o n := { o with ListOptions := { o.ListOptions with Page := n } }

/-- Modelled from the spec: the `Pager` type is not among the sources. A
short-lived wrapper around one pagination snapshot. -/
structure Pager where
  pagination : Pagination
  deriving DecidableEq, Repr

/-- Modelled from the spec: `NewPager` wraps the pagination of a response. -/
def NewPager (pagination : Pagination) : Pager := ⟨pagination⟩

/-- Modelled from the spec: `hasNextPage` is true iff the wrapped snapshot's
next-page link is non-empty; an absent link and a blank one are both empty. -/
def Pager.HasNextPage (p : Pager) : Bool :=
  match p.pagination.Next with
  | none => false
  | some href => decide (href ≠ "")

/-- Modelled from the spec: part of the link parsing of `advance`. Splits a
character list at every occurrence of `sep`. -/
def splitOn (sep : Char) : List Char → List (List Char)
  | [] => [[]]
  | c :: cs =>
    if c = sep then [] :: splitOn sep cs
    else
      match splitOn sep cs with
      | [] => [[c]]
      | seg :: segs => (c :: seg) :: segs

/-- Modelled from the spec: part of the link parsing of `advance`. The query
part of a link: what follows the first `?`. -/
def queryOf (link : List Char) : List Char :=
  (link.dropWhile (fun c => c ≠ '?')).drop 1

/-- Modelled from the spec: part of the link parsing of `advance`. A
`key=value` item of a query, split at its first `=`. -/
def keyValue (item : List Char) : List Char × List Char :=
  (item.takeWhile (fun c => c ≠ '='), (item.dropWhile (fun c => c ≠ '=')).drop 1)

/-- Modelled from the spec: part of the link parsing of `advance`. The value
of the first item of the link's query whose key is `key`. -/
def queryParam (key : String) (link : String) : Option (List Char) :=
  (((splitOn '&' (queryOf link.toList)).map keyValue).find?
    (fun kv => kv.1 = key.toList)).map Prod.snd

/-- Modelled from the spec: part of the link parsing of `advance`. One step of
the decimal parse: the number read so far with one more digit, `none` once a
character is not a digit. -/
def parseDigit (acc : Option Nat) (c : Char) : Option Nat :=
  match acc with
  | none => none
  | some n => if c.isDigit then some (n * 10 + (c.toNat - 48)) else none

/-- Modelled from the spec: part of the link parsing of `advance`. The number
a list of decimal digits denotes, `none` when the list is empty or holds
another character. -/
def parseNat (ds : List Char) : Option Nat :=
  if ds = [] then none else ds.foldl parseDigit (some 0)

/-- Modelled from the spec: part of the link parsing of `advance`. The
integer a text denotes: decimal digits after an optional sign. -/
def parseInt (s : List Char) : Option Int :=
  match s with
  | '-' :: ds => (parseNat ds).map (fun n => - (n : Int))
  | '+' :: ds => (parseNat ds).map (fun n => (n : Int))
  | ds => (parseNat ds).map (fun n => (n : Int))

/-- Modelled from the spec: `advance` (`NextPage` in the sources, which call
it but do not hold it). It parses the `page` query parameter of the next-page
link as an integer, fails with `MalformedPaginationLink` if the parameter is
absent or not numeric, and otherwise assigns the options' page, leaving every
other field as it is. Without a next page it does nothing. -/
def Pager.NextPage {O : Type} [ListOptioner O] (p : Pager) (opts : O) : Except Error O :=
  match p.pagination.Next with
  | none => .ok opts
  | some href =>
    if href = "" then .ok opts
    else
      match queryParam "page" href with
      | none => .error Error.MalformedPaginationLink
      | some v =>
        match parseInt v with
        | none => .error Error.MalformedPaginationLink
        | some n => .ok (ListOptioner.SetPage opts n)

/-- The statement `pager.NextPage(opts)` of the list-all loops: the options
after the call. The loops take nothing back from the call, so when the call
fails the options are as before and the loop goes on. -/
def Pager.afterNextPage {O : Type} [ListOptioner O] (p : Pager) (opts : O) : O :=
  match p.NextPage opts with
  | .ok o => o
  | .error _ => opts

/-! ## Generic helpers of package client -/

/-- The single-page list function handed to `AutoPage` and `Single`
(`func(opts) ([]R, *Pager, error)`), in state-passing form: from the world
and the options pointer to the page, the world after the call and the value
of the options the call worked on. -/
abbrev ListFunc (W O R : Type) := W → Option O → Except Error (List R × Pager) × W × O

/-- Modelled from the spec: the loop of `AutoPage`, which is not among the
sources. Call the fetch with the current options; on an error abort with that
error; append the returned elements to the accumulator; if the pager has a
next page, advance the options and repeat, otherwise return the accumulator.
The advance is the same statement as in the hand-written loops of the
sources. -/
def AutoPage.loop {W O R : Type} [ListOptioner O] (list : ListFunc W O R) :
    Nat → W → O → List R → Option (Except Error (List R)) × W × O
  | 0, w, opts, _ => (none, w, opts)
  | fuel + 1, w, opts, all =>
    match list w (some opts) with
    | (.error err, w1, o1) => (some (.error err), w1, o1)
    | (.ok (page, pager), w1, o1) =>
      if !pager.HasNextPage then (some (.ok (all ++ page)), w1, o1)
      else AutoPage.loop list fuel w1 (pager.afterNextPage o1) (all ++ page)

/-- Modelled from the spec: `AutoPage(opts, list)`, the generic list-all
driver. The callers in the sources substitute the default options for `nil`
before the call (step 1 of the spec's algorithm), so the options are present
here. -/
def AutoPage {W O R : Type} [ListOptioner O] (list : ListFunc W O R) (fuel : Nat) (w : W)
    (opts : O) : Option (Except Error (List R)) × W × O :=
  AutoPage.loop list fuel w opts []

/-- Modelled from the spec: `Single(opts, list)`, which is not among the
sources. One call of the plain list function; `NotFound` for no result, the
element for exactly one, `AmbiguousResult` for more than one. -/
def Single {W O R : Type} (list : ListFunc W O R) (w : W) (opts : Option O) :
    Except Error R × W × O :=
  match list w opts with
  | (.error err, w1, o1) => (.error err, w1, o1)
  | (.ok (rs, _), w1, o1) =>
    match rs with
    | [] => (.error Error.NotFound, w1, o1)
    | [r] => (.ok r, w1, o1)
    | _ :: _ :: _ => (.error Error.AmbiguousResult, w1, o1)

/-! ## AppClient (`client/app.go`) -/

/-- List pages all the apps the user has access to. -/
def AppClient.List (c : AppClient) (newListOptions : ListOptions)
    (w : History AppListOptions) (opts : Option AppListOptions) :
    Except Error (Slice App × Pager) × History AppListOptions × AppListOptions :=
  let opts := match opts with
    | none => NewAppListOptions newListOptions
    | some o => o
  let opts := { opts with Include := AppIncludeType.AppIncludeNone }
  let req : Request AppListOptions := ⟨"/v3/apps", opts⟩
  match c.client.get w req with
  | .error err => (.error err, w ++ [req], opts)
  | .ok res => (.ok (res.Resources, NewPager res.Pagination), w ++ [req], opts)

/-- ListAll retrieves all apps the user has access to. -/
def AppClient.ListAll (c : AppClient) (newListOptions : ListOptions) (fuel : Nat)
    (w : History AppListOptions) (opts : Option AppListOptions) :
    Option (Except Error (Slice App)) × History AppListOptions × AppListOptions :=
  let opts := match opts with
    | none => NewAppListOptions newListOptions
    | some o => o
  AutoPage (fun w1 o => c.List newListOptions w1 o) fuel w opts

/-- ListIncludeSpaces page all apps the user has access to and include the
associated spaces. -/
def AppClient.ListIncludeSpaces (c : AppClient) (newListOptions : ListOptions)
    (w : History AppListOptions) (opts : Option AppListOptions) :
    Except Error (Slice App × Slice Space × Pager) × History AppListOptions × AppListOptions :=
  let opts := match opts with
    | none => NewAppListOptions newListOptions
    | some o => o
  let opts := { opts with Include := AppIncludeType.AppIncludeSpace }
  let req : Request AppListOptions := ⟨"/v3/apps", opts⟩
  match c.client.get w req with
  | .error err => (.error err, w ++ [req], opts)
  | .ok res =>
    (.ok (res.Resources, res.Included.Spaces, NewPager res.Pagination), w ++ [req], opts)

/-- The `for` loop of `ListIncludeSpacesAll` (lines 154 to 165), with the
accumulators `all` and `allSpaces`. -/
def AppClient.ListIncludeSpacesAll.loop (c : AppClient) (newListOptions : ListOptions) :
    Nat → History AppListOptions → AppListOptions → Slice App → Slice Space →
      Option (Except Error (Slice App × Slice Space)) × History AppListOptions × AppListOptions
  | 0, w, opts, _, _ => (none, w, opts)
  | fuel + 1, w, opts, all, allSpaces =>
    match c.ListIncludeSpaces newListOptions w (some opts) with
    | (.error err, w1, o1) => (some (.error err), w1, o1)
    | (.ok (page, spaces, pager), w1, o1) =>
      if !pager.HasNextPage then (some (.ok (all ++ page, allSpaces ++ spaces)), w1, o1)
      else
        AppClient.ListIncludeSpacesAll.loop c newListOptions fuel w1 (pager.afterNextPage o1)
          (all ++ page) (allSpaces ++ spaces)

/-- ListIncludeSpacesAll retrieves all apps the user has access to and include
the associated spaces. -/
def AppClient.ListIncludeSpacesAll (c : AppClient) (newListOptions : ListOptions) (fuel : Nat)
    (w : History AppListOptions) (opts : Option AppListOptions) :
    Option (Except Error (Slice App × Slice Space)) × History AppListOptions × AppListOptions :=
  let opts := match opts with
    | none => NewAppListOptions newListOptions
    | some o => o
  AppClient.ListIncludeSpacesAll.loop c newListOptions fuel w opts [] []

/-- ListIncludeSpacesAndOrgs page all apps the user has access to and include
the associated spaces and orgs. -/
def AppClient.ListIncludeSpacesAndOrgs (c : AppClient) (newListOptions : ListOptions)
    (w : History AppListOptions) (opts : Option AppListOptions) :
    Except Error (Slice App × Slice Space × Slice Organization × Pager) ×
      History AppListOptions × AppListOptions :=
  let opts := match opts with
    | none => NewAppListOptions newListOptions
    | some o => o
  let opts := { opts with Include := AppIncludeType.AppIncludeSpaceOrganization }
  let req : Request AppListOptions := ⟨"/v3/apps", opts⟩
  match c.client.get w req with
  | .error err => (.error err, w ++ [req], opts)
  | .ok res =>
    (.ok (res.Resources, res.Included.Spaces, res.Included.Organizations,
      NewPager res.Pagination), w ++ [req], opts)

/-- The `for` loop of `ListIncludeSpacesAndOrgsAll` (lines 194 to 206), with
the accumulators `all`, `allSpaces` and `allOrgs`. -/
def AppClient.ListIncludeSpacesAndOrgsAll.loop (c : AppClient) (newListOptions : ListOptions) :
    Nat → History AppListOptions → AppListOptions →
      Slice App → Slice Space → Slice Organization →
      Option (Except Error (Slice App × Slice Space × Slice Organization)) ×
        History AppListOptions × AppListOptions
  | 0, w, opts, _, _, _ => (none, w, opts)
  | fuel + 1, w, opts, all, allSpaces, allOrgs =>
    match c.ListIncludeSpacesAndOrgs newListOptions w (some opts) with
    | (.error err, w1, o1) => (some (.error err), w1, o1)
    | (.ok (page, spaces, orgs, pager), w1, o1) =>
      if !pager.HasNextPage then
        (some (.ok (all ++ page, allSpaces ++ spaces, allOrgs ++ orgs)), w1, o1)
      else
        AppClient.ListIncludeSpacesAndOrgsAll.loop c newListOptions fuel w1 (pager.afterNextPage o1)
          (all ++ page) (allSpaces ++ spaces) (allOrgs ++ orgs)

/-- ListIncludeSpacesAndOrgsAll retrieves all apps the user has access to and
include the associated spaces and orgs. -/
def AppClient.ListIncludeSpacesAndOrgsAll (c : AppClient) (newListOptions : ListOptions)
    (fuel : Nat) (w : History AppListOptions) (opts : Option AppListOptions) :
    Option (Except Error (Slice App × Slice Space × Slice Organization)) ×
      History AppListOptions × AppListOptions :=
  let opts := match opts with
    | none => NewAppListOptions newListOptions
    | some o => o
  AppClient.ListIncludeSpacesAndOrgsAll.loop c newListOptions fuel w opts [] [] []

/-! ## SpaceClient (`client/space.go`) -/

/-- List pages all spaces the user has access to. -/
def SpaceClient.List (c : SpaceClient) (newListOptions : ListOptions)
    (w : History SpaceListOptions) (opts : Option SpaceListOptions) :
    Except Error (Slice Space × Pager) × History SpaceListOptions × SpaceListOptions :=
  let opts := match opts with
    | none => NewSpaceListOptions newListOptions
    | some o => o
  let opts := { opts with Include := SpaceIncludeType.SpaceIncludeNone }
  let req : Request SpaceListOptions := ⟨"/v3/spaces", opts⟩
  match c.client.get w req with
  | .error err => (.error err, w ++ [req], opts)
  | .ok res => (.ok (res.Resources, NewPager res.Pagination), w ++ [req], opts)

/-- ListAll retrieves all spaces the user has access to. -/
def SpaceClient.ListAll (c : SpaceClient) (newListOptions : ListOptions) (fuel : Nat)
    (w : History SpaceListOptions) (opts : Option SpaceListOptions) :
    Option (Except Error (Slice Space)) × History SpaceListOptions × SpaceListOptions :=
  let opts := match opts with
    | none => NewSpaceListOptions newListOptions
    | some o => o
  AutoPage (fun w1 o => c.List newListOptions w1 o) fuel w opts

/-- ListIncludeOrgs page all spaces the user has access to and include the
parent orgs. -/
def SpaceClient.ListIncludeOrgs (c : SpaceClient) (newListOptions : ListOptions)
    (w : History SpaceListOptions) (opts : Option SpaceListOptions) :
    Except Error (Slice Space × Slice Organization × Pager) ×
      History SpaceListOptions × SpaceListOptions :=
  let opts := match opts with
    | none => NewSpaceListOptions newListOptions
    | some o => o
  let opts := { opts with Include := SpaceIncludeType.SpaceIncludeOrganization }
  let req : Request SpaceListOptions := ⟨"/v3/spaces", opts⟩
  match c.client.get w req with
  | .error err => (.error err, w ++ [req], opts)
  | .ok res =>
    (.ok (res.Resources, res.Included.Organizations, NewPager res.Pagination),
      w ++ [req], opts)

/-- The `for` loop of `ListIncludeOrgsAll` (lines 146 to 157), with the
accumulators `all` and `allOrgs`. -/
def SpaceClient.ListIncludeOrgsAll.loop (c : SpaceClient) (newListOptions : ListOptions) :
    Nat → History SpaceListOptions → SpaceListOptions → Slice Space → Slice Organization →
      Option (Except Error (Slice Space × Slice Organization)) ×
        History SpaceListOptions × SpaceListOptions
  | 0, w, opts, _, _ => (none, w, opts)
  | fuel + 1, w, opts, all, allOrgs =>
    match c.ListIncludeOrgs newListOptions w (some opts) with
    | (.error err, w1, o1) => (some (.error err), w1, o1)
    | (.ok (page, orgs, pager), w1, o1) =>
      if !pager.HasNextPage then (some (.ok (all ++ page, allOrgs ++ orgs)), w1, o1)
      else
        SpaceClient.ListIncludeOrgsAll.loop c newListOptions fuel w1 (pager.afterNextPage o1)
          (all ++ page) (allOrgs ++ orgs)

/-- ListIncludeOrgsAll retrieves all spaces the user has access to and include
the parent orgs. -/
def SpaceClient.ListIncludeOrgsAll (c : SpaceClient) (newListOptions : ListOptions) (fuel : Nat)
    (w : History SpaceListOptions) (opts : Option SpaceListOptions) :
    Option (Except Error (Slice Space × Slice Organization)) ×
      History SpaceListOptions × SpaceListOptions :=
  let opts := match opts with
    | none => NewSpaceListOptions newListOptions
    | some o => o
  SpaceClient.ListIncludeOrgsAll.loop c newListOptions fuel w opts [] []

/-- Single returns a single space matching the options or an error if not
exactly 1 match. -/
def SpaceClient.Single (c : SpaceClient) (newListOptions : ListOptions)
    (w : History SpaceListOptions) (opts : Option SpaceListOptions) :
    Except Error Space × History SpaceListOptions × SpaceListOptions :=
  CfClient.Single (fun w1 o => c.List newListOptions w1 o) w opts

/-! ## Query encoder -/

/-- Modelled from the spec: the value of a tagged options field as the query
encoder sees it: a multi-valued filter, a text or enum value, or a number. -/
inductive FieldValue where
  | filter (values : List String)
  | text (s : String)
  | number (n : Int)
  deriving DecidableEq, Repr

/-- Modelled from the spec: the encoded value of a field, `none` when the
field is elided: a filter without values, an empty text, a zero number.
The values of a filter are joined by commas. -/
def FieldValue.render : FieldValue → Option String
  | .filter [] => none
  | .filter (v :: vs) => some (String.intercalate "," (v :: vs))
  | .text s => if s = "" then none else some s
  | .number n => if n = 0 then none else some (toString n)

/-- Modelled from the spec: `ListOptions.ToQueryString(o)`, the query encoder,
which is not among the sources. It goes through the tagged fields of `o` in
their declared order and keeps, under its tagged name, every field that is not
elided. -/
def ListOptions.ToQueryString (_ : ListOptions) (tagged : List (String × FieldValue)) :
    List (String × String) :=
  tagged.filterMap (fun kv => (FieldValue.render kv.2).map (fun v => (kv.1, v)))

/-- Modelled from the spec: the canonical `key=value&...` string of the
encoded fields. -/
def encodeQuery (values : List (String × String)) : String :=
  String.intercalate "&" (values.map (fun kv => kv.1 ++ "=" ++ kv.2))

/-- Modelled from the spec: the tagged fields of the paging controls; the
spec's link example names `page` and `per_page`, the ordering goes under the
API's `order_by`. -/
def ListOptions.tagged (o : ListOptions) : List (String × FieldValue) :=
  [("page", .number o.Page), ("per_page", .number o.PerPage), ("order_by", .text o.OrderBy)]

/-- The tagged fields of `AppListOptions` in declared order, with the `qs`
tags of `client/app.go`, lines 13 to 24. The wire names of the include values
are not among the sources: `includeName` supplies them. -/
def AppListOptions.tagged (includeName : AppIncludeType → String) (o : AppListOptions) :
    List (String × FieldValue) :=
  o.ListOptions.tagged ++
    [("guids", .filter o.GUIDs.Values),
     ("names", .filter o.Names.Values),
     ("organization_guids", .filter o.OrganizationGUIDs.Values),
     ("space_guids", .filter o.SpaceGUIDs.Values),
     ("stacks", .filter o.Stacks.Values),
     ("lifecycle_type", .text o.LifecycleType),
     ("include", .text (includeName o.Include))]

/-- The method `AppListOptions.ToQueryString` (`client/app.go`, line 33):
`o.ListOptions.ToQueryString(o)`. -/
def AppListOptions.ToQueryString (includeName : AppIncludeType → String) (o : AppListOptions) :
    List (String × String) :=
  o.ListOptions.ToQueryString (AppListOptions.tagged includeName o)

/-- The tagged fields of `SpaceListOptions` in declared order, with the `qs`
tags of `client/space.go`, lines 14 to 22; `Include` carries no tag there. -/
def SpaceListOptions.tagged (o : SpaceListOptions) : List (String × FieldValue) :=
  o.ListOptions.tagged ++
    [("guids", .filter o.GUIDs.Values),
     ("names", .filter o.Names.Values),
     ("organization_guids", .filter o.OrganizationGUIDs.Values)]

/-- The method `SpaceListOptions.ToQueryString` (`client/space.go`, line 31). -/
def SpaceListOptions.ToQueryString (o : SpaceListOptions) : List (String × String) :=
  o.ListOptions.ToQueryString (SpaceListOptions.tagged o)

/-! ## Runs of a list-all loop -/

/-- A page fetch as a list-all loop makes it: from the world and the options
to the content of the page with its pager, the world after the fetch and the
options after it. -/
abbrev Fetch (W O A : Type) := W → O → Except Error (A × Pager) × W × O

/-- The common shape of the list-all loops, over any page content `A` with the
accumulation `app`. -/
def pageLoop {W O A : Type} [ListOptioner O] (fetch : Fetch W O A) (app : A → A → A) :
    Nat → W → O → A → Option (Except Error A) × W × O
  | 0, w, opts, _ => (none, w, opts)
  | fuel + 1, w, opts, acc =>
    match fetch w opts with
    | (.error err, w1, o1) => (some (.error err), w1, o1)
    | (.ok (a, pager), w1, o1) =>
      if !pager.HasNextPage then (some (.ok (app acc a)), w1, o1)
      else pageLoop fetch app fuel w1 (pager.afterNextPage o1) (app acc a)

/-- The fetch of `AutoPage`: the list function on the present options. -/
def AutoPage.fetch {W O R : Type} (list : ListFunc W O R) : Fetch W O (List R) :=
  fun w o => list w (some o)

/-- The fetch of `ListIncludeSpacesAll`: `c.ListIncludeSpaces(opts)`, the page
being the apps with their included spaces. -/
def AppClient.fetchIncludeSpaces (c : AppClient) (newListOptions : ListOptions) :
    Fetch (History AppListOptions) AppListOptions (Slice App × Slice Space) :=
  fun w o =>
    match c.ListIncludeSpaces newListOptions w (some o) with
    | (.error err, w1, o1) => (.error err, w1, o1)
    | (.ok (page, spaces, pager), w1, o1) => (.ok ((page, spaces), pager), w1, o1)

/-- The fetch of `ListIncludeSpacesAndOrgsAll`: `c.ListIncludeSpacesAndOrgs(opts)`,
the page being the apps with their included spaces and organizations. -/
def AppClient.fetchIncludeSpacesAndOrgs (c : AppClient) (newListOptions : ListOptions) :
    Fetch (History AppListOptions) AppListOptions
      (Slice App × Slice Space × Slice Organization) :=
  fun w o =>
    match c.ListIncludeSpacesAndOrgs newListOptions w (some o) with
    | (.error err, w1, o1) => (.error err, w1, o1)
    | (.ok (page, spaces, orgs, pager), w1, o1) => (.ok ((page, spaces, orgs), pager), w1, o1)

/-- The fetch of `ListIncludeOrgsAll`: `c.ListIncludeOrgs(ctx, opts)`, the page
being the spaces with their included organizations. -/
def SpaceClient.fetchIncludeOrgs (c : SpaceClient) (newListOptions : ListOptions) :
    Fetch (History SpaceListOptions) SpaceListOptions (Slice Space × Slice Organization) :=
  fun w o =>
    match c.ListIncludeOrgs newListOptions w (some o) with
    | (.error err, w1, o1) => (.error err, w1, o1)
    | (.ok (page, orgs, pager), w1, o1) => (.ok ((page, orgs), pager), w1, o1)

/-- Accumulation of pages that carry two lists. -/
def append2 {α β : Type} (x y : List α × List β) : List α × List β :=
  (x.1 ++ y.1, x.2 ++ y.2)

/-- Accumulation of pages that carry three lists. -/
def append3 {α β γ : Type} (x y : List α × List β × List γ) : List α × List β × List γ :=
  (x.1 ++ y.1, x.2.1 ++ y.2.1, x.2.2 ++ y.2.2)

/-- The opening of a run: from world `w` and options `o` the successive
fetches succeed with the contents `pages`, each reporting a next page, and the
loop stands at world `w1` with the advanced options `o1`. -/
def Fetched {W O A : Type} [ListOptioner O] (fetch : Fetch W O A) :
    List A → W → O → W → O → Prop
  | [], w, o, w1, o1 => w1 = w ∧ o1 = o
  | a :: rest, w, o, w1, o1 =>
    ∃ pager wm om, fetch w o = (.ok (a, pager), wm, om) ∧ pager.HasNextPage = true ∧
      Fetched fetch rest wm (pager.afterNextPage om) w1 o1

/-- A complete run over the `N` pages of a collection: every page but the last
is served with a next page, the last one without, and the run ends at world
`w2` and options `o2`. A collection of no pages (`N = 0`) answers the one
fetch with an empty page that has no next page. -/
def ServesPages {W O R : Type} [ListOptioner O] (fetch : Fetch W O (List R)) :
    List (List R) → W → O → W → O → Prop
  | [], w, o, w2, o2 =>
    ∃ pager, fetch w o = (.ok ([], pager), w2, o2) ∧ pager.HasNextPage = false
  | [p], w, o, w2, o2 =>
    ∃ pager, fetch w o = (.ok (p, pager), w2, o2) ∧ pager.HasNextPage = false
  | p :: q :: rest, w, o, w2, o2 =>
    ∃ pager wm om, fetch w o = (.ok (p, pager), wm, om) ∧ pager.HasNextPage = true ∧
      ServesPages fetch (q :: rest) wm (pager.afterNextPage om) w2 o2

/-- The filter fields of app list options. -/
def AppListOptions.filters (o : AppListOptions) :
    Filter × Filter × Filter × Filter × Filter × String :=
  (o.GUIDs, o.Names, o.OrganizationGUIDs, o.SpaceGUIDs, o.Stacks, o.LifecycleType)

/-! ## Sample servers -/

/-- A sample value of `NewListOptions()`: first page, fifty per page. -/
def samplePaging : ListOptions := ⟨1, 50, ""⟩

/-- Four sample apps. -/
def sampleApps : List App :=
  [⟨"app-1", "one", "STARTED"⟩, ⟨"app-2", "two", "STARTED"⟩,
   ⟨"app-3", "three", "STOPPED"⟩, ⟨"app-4", "four", "STARTED"⟩]

/-- The first page of the sample collection: two apps, one included space, one
included organization, and a link to page 2. -/
def samplePage1 : AppList :=
  { Pagination := ⟨4, 2, some "https://api.example.org/v3/apps?page=2&per_page=2", none⟩
    Resources := sampleApps.take 2
    Included := ⟨[⟨"space-1", "dev"⟩], [⟨"org-1", "acme"⟩]⟩ }

/-- The second and last page of the sample collection: two apps, one included
space, no included organization, no next page. -/
def samplePage2 : AppList :=
  { Pagination := ⟨4, 2, none, some "https://api.example.org/v3/apps?page=1&per_page=2"⟩
    Resources := sampleApps.drop 2
    Included := ⟨[⟨"space-2", "prod"⟩], []⟩ }

/-- A server that holds the sample collection in two pages. -/
def pagedServer : AppClient :=
  { client :=
      { get := fun _ req =>
          if req.query.ListOptions.Page = 1 then .ok samplePage1 else .ok samplePage2 } }

/-- A server that serves the first page of the sample collection and fails on
every other request. -/
def failingServer : AppClient :=
  { client :=
      { get := fun _ req =>
          if req.query.ListOptions.Page = 1 then .ok samplePage1
          else .error (Error.TransportError "connection reset") } }

/-- A server whose every answer links to page 1 as the next page. -/
def stuckServer : AppClient :=
  { client :=
      { get := fun _ _ =>
          .ok { Pagination := ⟨4, 2, some "https://api.example.org/v3/apps?page=1&per_page=2", none⟩
                Resources := sampleApps.take 2
                Included := ⟨[], []⟩ } } }

/-- A space server that answers every request with the given spaces on a
single page. -/
def spaceServer (spaces : List Space) : SpaceClient :=
  { client :=
      { get := fun _ _ =>
          .ok { Pagination := ⟨spaces.length, 1, none, none⟩
                Resources := spaces
                Included := ⟨[]⟩ } } }

/-! ## Poller -/

/-- Modelled from the spec: the poller's parameters (section 4.5); the poll
functions (`PollStaged`, `PollReady`, `PollComplete`) are called by
`operation/push.go` and are not among the sources. Times are whole
milliseconds of a logical clock. The spec leaves open whether the first check
is made at once or after one interval: `immediate` says which. -/
structure PollConfig (S : Type) where
  successStates : List S
  failureStates : List S
  interval : Nat
  timeout : Nat
  immediate : Bool

/-- Modelled from the spec: what one read of the poll target gives: its state
and its failure reason. -/
structure Observation (S : Type) where
  state : S
  reason : String

/-- Modelled from the spec: the surroundings of one poll: what the `n`-th call
of `fetchCurrentStateFn` returns, how long that call takes, and the time at
which the caller raises the cancellation signal, if it does. -/
structure PollEnv (S : Type) where
  fetch : Nat → Observation S
  readTime : Nat → Nat
  cancelAt : Option Nat

/-- Modelled from the spec: the poller's progress: the state reads made, the
time spent waiting between ticks, and the time elapsed in all. -/
structure PollState where
  reads : Nat
  waited : Nat
  elapsed : Nat
  deriving DecidableEq, Repr

/-- Modelled from the spec: a poll starts with nothing read and no time
gone. -/
def PollState.start : PollState := ⟨0, 0, 0⟩

/-- Modelled from the spec: the wait that opens a tick: one interval, except
before the first read of a poller that checks at once. -/
def PollState.tick {S : Type} (cfg : PollConfig S) (st : PollState) : PollState :=
  let wait := if cfg.immediate && st.reads == 0 then 0 else cfg.interval
  { st with waited := st.waited + wait, elapsed := st.elapsed + wait }

/-- Modelled from the spec: the progress after the next read. -/
def PollState.afterRead {S : Type} (env : PollEnv S) (st : PollState) : PollState :=
  { st with reads := st.reads + 1, elapsed := st.elapsed + env.readTime st.reads }

/-- Modelled from the spec: whether the cancellation signal is up at time
`now`. -/
def PollEnv.cancelled {S : Type} (env : PollEnv S) (now : Nat) : Bool :=
  match env.cancelAt with
  | none => false
  | some t => decide (t ≤ now)

/-- Modelled from the spec: the poll loop of section 4.5. On each tick, after
the wait: abort with `Cancelled` if the cancellation signal is up; fail with
`PollTimeout` if the elapsed time exceeds the timeout; otherwise read the
state, fail with `OperationFailed` if it is a failure state, return success
if it is a success state, and stay pending otherwise. The result is the error
(`none` for success) with the progress made; `none` means the fuel ran out. -/
def poll {S : Type} [DecidableEq S] (cfg : PollConfig S) (env : PollEnv S) :
    Nat → PollState → Option (Option Error × PollState)
  | 0, _ => none
  | fuel + 1, st =>
    let st1 := st.tick cfg
    if env.cancelled st1.elapsed then some (some Error.Cancelled, st1)
    else if cfg.timeout < st1.elapsed then some (some Error.PollTimeout, st1)
    else
      let obs := env.fetch st1.reads
      let st2 := st1.afterRead env
      if obs.state ∈ cfg.failureStates then some (some (Error.OperationFailed obs.reason), st2)
      else if obs.state ∈ cfg.successStates then some (none, st2)
      else poll cfg env fuel st2

/-- Modelled from the spec: the progress after `k` reads that all left the
poll pending. -/
def stateAfter {S : Type} (cfg : PollConfig S) (env : PollEnv S) : Nat → PollState
  | 0 => PollState.start
  | k + 1 => ((stateAfter cfg env k).tick cfg).afterRead env

/-- The time the first `k` reads take together. -/
def readTimes {S : Type} (env : PollEnv S) : Nat → Nat
  | 0 => 0
  | k + 1 => readTimes env k + env.readTime k

/-- The time waited before the `k`-th read is made (`k` at least 1): one
interval per read, less one for a poller that checks at once. -/
def waits {S : Type} (cfg : PollConfig S) (k : Nat) : Nat :=
  if cfg.immediate then (k - 1) * cfg.interval else k * cfg.interval

/-- The states of the spec's poll examples. -/
inductive SampleState where
  | Pending
  | Staged
  | Failed
  deriving DecidableEq, Repr

/-- A poll for `Staged` that fails on `Failed`, with the interval of one
second and the timeout of two and a half seconds of the spec's example. -/
def samplePoll (immediate : Bool) : PollConfig SampleState :=
  { successStates := [SampleState.Staged]
    failureStates := [SampleState.Failed]
    interval := 1000
    timeout := 2500
    immediate := immediate }

/-- Surroundings in which the reads give the listed states, then `Pending`
for ever; no read takes time and nobody cancels. -/
def scripted (states : List SampleState) : PollEnv SampleState :=
  { fetch := fun n => ⟨states.getD n SampleState.Pending, "staging failed"⟩
    readTime := fun _ => 0
    cancelAt := none }

/-! ## Push (`operation/push.go`) -/

/-- The options of `Organizations.ListAll`, by the fields `operation/push.go`
sets (`opts.Names.Values`); the declaration is not among the sources. -/
structure OrgListOptions where
  ListOptions : CfClient.ListOptions
  Names : Filter
  deriving DecidableEq, Repr

/-- The constructor `client.NewOrgListOptions`, which is not among the sources:
like `NewAppListOptions` and `NewSpaceListOptions`, options without filters. -/
def NewOrgListOptions (newListOptions : ListOptions) : OrgListOptions :=
  { ListOptions := newListOptions, Names := ⟨[]⟩ }

/-- The options of `Droplets.ListForPackageAll`, by the fields
`operation/push.go` sets (`opts.States.Values`). -/
structure DropletPackageListOptions where
  ListOptions : CfClient.ListOptions
  States : Filter
  deriving DecidableEq, Repr

/-- The constructor `client.NewDropletPackageListOptions`, which is not among
the sources: options without filters. -/
def NewDropletPackageListOptions (newListOptions : ListOptions) : DropletPackageListOptions :=
  { ListOptions := newListOptions, States := ⟨[]⟩ }

/-- The buildpack data of a lifecycle (`resource/apps.go`, lines 71 to 74). -/
structure BuildpackLifecycle where
  Buildpacks : List String
  Stack : String
  deriving DecidableEq, Repr

/-- The lifecycle of an app or build (`resource/apps.go`, lines 66 to 69); the
field `Type` goes by `Type_` here. -/
structure Lifecycle where
  Type_ : String
  BuildpackData : BuildpackLifecycle
  deriving DecidableEq, Repr

/-- The docker part of an app manifest (`operation/manifest.go`, lines 12 to
15). -/
structure AppManifestDocker where
  Image : String
  Username : String
  deriving DecidableEq, Repr

/-- A route of an app manifest (`operation/manifest.go`, lines 29 to 31). -/
structure AppManifestRoutes where
  Route : String
  deriving DecidableEq, Repr

/-- The app manifest (`operation/manifest.go`, lines 7 to 27). -/
structure AppManifest where
  Name : String
  Buildpacks : List String
  Command : String
  DiskQuota : String
  Docker : AppManifestDocker
  Env : List (String × String)
  HealthCheckType : String
  HealthCheckHTTPEndpoint : String
  Instances : Int
  LogRateLimit : String
  Memory : String
  NoRoute : Bool
  Routes : List AppManifestRoutes
  Services : List String
  Stack : String
  Timeout : Int
  deriving DecidableEq, Repr

/-- The manifest with an applications array (`operation/manifest.go`, lines 3
to 5). -/
structure Manifest where
  Applications : List AppManifest
  deriving DecidableEq, Repr

/-- The `resource.Package` record, by the field the sources read. -/
structure Package where
  GUID : String
  deriving DecidableEq, Repr

/-- The request `resource.NewPackageCreate(appGUID)` builds; the declaration is
not among the sources, the request is known by the app it is made for. -/
structure PackageCreate where
  AppGUID : String
  deriving DecidableEq, Repr

/-- The constructor `resource.NewPackageCreate`. -/
def NewPackageCreate (appGUID : String) : PackageCreate := ⟨appGUID⟩

/-- The `resource.Build` record, by the field the sources read. -/
structure Build where
  GUID : String
  deriving DecidableEq, Repr

/-- The request `resource.NewBuildCreate(packageGUID)` builds, with the
`Lifecycle` field `operation/push.go` assigns; the declaration is not among
the sources. -/
structure BuildCreate where
  PackageGUID : String
  Lifecycle : Option CfClient.Lifecycle
  deriving DecidableEq, Repr

/-- The constructor `resource.NewBuildCreate`. -/
def NewBuildCreate (packageGUID : String) : BuildCreate := ⟨packageGUID, none⟩

/-- The `resource.Droplet` record, by the field the sources read. -/
structure Droplet where
  GUID : String
  deriving DecidableEq, Repr

/-- The errors `operation/push.go` and `client/build.go` return: a
collaborator's error as it came, a collaborator's error wrapped with a context
(`fmt.Errorf("<context>: %w", err)`, `errors.Wrap(err, "<context>")`), or a
message made by `fmt.Errorf` without `%w`. -/
inductive OpError where
  | bare (err : Error)
  | wrapped (context : String) (err : Error)
  | message (text : String)
  deriving DecidableEq, Repr

/-- The result of `errors.Unwrap`: the wrapped error, if the error wraps
one. -/
def OpError.Unwrap : OpError → Option Error
  | .wrapped _ err => some err
  | _ => none

/-- The context an error carries in front of its cause, if it carries one. -/
def OpError.context : OpError → Option String
  | .wrapped context _ => some context
  | _ => none

/-- The operations of the client that `operation/push.go` invokes, with their
arguments. -/
inductive Call where
  | OrganizationsListAll (opts : OrgListOptions)
  | SpacesListAll (opts : SpaceListOptions)
  | ManifestsApplyManifest (spaceGUID : String) (manifest : String)
  | JobsPollComplete (jobGUID : String)
  | ApplicationsListAll (opts : AppListOptions)
  | PackagesCreate (r : PackageCreate)
  | PackagesUploadBits (guid : String) (zipFile : String)
  | PackagesPollReady (guid : String)
  | BuildsCreate (r : BuildCreate)
  | BuildsPollStaged (guid : String)
  | DropletsListForPackageAll (packageGUID : String) (opts : DropletPackageListOptions)
  | DropletsSetCurrentAssociationForApp (appGUID : String) (dropletGUID : String)
  | ApplicationsStart (guid : String)
  deriving DecidableEq, Repr

/-- The place of an operation in the push pipeline, from 1 (list orgs) to 13
(start the app). -/
def Call.step : Call → Nat
  | .OrganizationsListAll _ => 1
  | .SpacesListAll _ => 2
  | .ManifestsApplyManifest _ _ => 3
  | .JobsPollComplete _ => 4
  | .ApplicationsListAll _ => 5
  | .PackagesCreate _ => 6
  | .PackagesUploadBits _ _ => 7
  | .PackagesPollReady _ => 8
  | .BuildsCreate _ => 9
  | .BuildsPollStaged _ => 10
  | .DropletsListForPackageAll _ _ => 11
  | .DropletsSetCurrentAssociationForApp _ _ => 12
  | .ApplicationsStart _ => 13

/-- How an invocation ended: with an error, or with a result, of which the
GUIDs are kept (of the listed or created resources, or of the job). -/
inductive Outcome where
  | failed (err : Error)
  | returned (guids : List String)
  deriving DecidableEq, Repr

/-- One invocation of a client operation in a run of push. -/
structure Event where
  call : Call
  outcome : Outcome
  deriving DecidableEq, Repr

/-- The invocations made so far in a run, oldest first. -/
abbrev Trace := List Event

/-- Whether an invocation lets the pipeline go on: it returned without error
and, for a lookup, listed exactly one resource. -/
def Event.good (ev : Event) : Bool :=
  match ev.outcome with
  | .failed _ => false
  | .returned guids =>
    match ev.call with
    | .OrganizationsListAll _ => guids.length == 1
    | .SpacesListAll _ => guids.length == 1
    | .ApplicationsListAll _ => guids.length == 1
    | .DropletsListForPackageAll _ _ => guids.length == 1
    | _ => true

/-- The `*client.Client` of the push operation, an external collaborator, by
the operations `operation/push.go` invokes. Each answers from the invocations
made before it in the run and its arguments; an operation that returns only an
`error` answers `none` for `nil`. -/
structure OperationClient where
  OrganizationsListAll : Trace → OrgListOptions → Except Error (List Organization)
  SpacesListAll : Trace → SpaceListOptions → Except Error (List Space)
  ManifestsApplyManifest : Trace → String → String → Except Error String
  JobsPollComplete : Trace → String → Option Error
  ApplicationsListAll : Trace → AppListOptions → Except Error (List App)
  PackagesCreate : Trace → PackageCreate → Except Error Package
  PackagesUploadBits : Trace → String → String → Option Error
  PackagesPollReady : Trace → String → Option Error
  BuildsCreate : Trace → BuildCreate → Except Error Build
  BuildsPollStaged : Trace → String → Option Error
  DropletsListForPackageAll :
    Trace → String → DropletPackageListOptions → Except Error (List Droplet)
  DropletsSetCurrentAssociationForApp : Trace → String → String → Option Error
  ApplicationsStart : Trace → String → Except Error App

/-- What `operation/push.go` uses of its imports besides the client's
operations, none of it among the sources: the value of
`client.NewListOptions()`, the text of `resource.DropletStateStaged`, and
`yaml.Marshal` on a manifest. -/
structure Library where
  NewListOptions : ListOptions
  DropletStateStaged : String
  yamlMarshal : Manifest → Except Error String

/-- AppPushOperation can be used to push buildpack apps. -/
structure AppPushOperation where
  orgName : String
  spaceName : String
  client : OperationClient

/-- NewAppPushOperation creates a new AppPushOperation. -/
def NewAppPushOperation (client : OperationClient) (orgName spaceName : String) :
    AppPushOperation :=
  { orgName := orgName, spaceName := spaceName, client := client }

/-- The method `findOrg` (lines 160 to 171). -/
def AppPushOperation.findOrg (p : AppPushOperation) (lib : Library) (t : Trace) :
    Except OpError Organization × Trace :=
  let opts := NewOrgListOptions lib.NewListOptions
  let opts := { opts with Names := ⟨[p.orgName]⟩ }
  match p.client.OrganizationsListAll t opts with
  | .error err =>
    (.error (.wrapped ("could not find org " ++ p.orgName) err),
      t ++ [⟨.OrganizationsListAll opts, .failed err⟩])
  | .ok orgs =>
    let t1 := t ++ [⟨.OrganizationsListAll opts, .returned (orgs.map (fun o => o.GUID))⟩]
    if h : orgs.length ≠ 1 then
      (.error (.message ("expected to find one org named " ++ p.orgName ++ ", but found "
        ++ toString orgs.length)), t1)
    else (.ok (orgs.get ⟨0, by omega⟩), t1)

/-- The method `findSpace` (lines 173 to 185). -/
def AppPushOperation.findSpace (p : AppPushOperation) (lib : Library) (t : Trace)
    (orgGUID : String) : Except OpError Space × Trace :=
  let opts := NewSpaceListOptions lib.NewListOptions
  let opts := { opts with Names := ⟨[p.spaceName]⟩ }
  let opts := { opts with OrganizationGUIDs := ⟨[orgGUID]⟩ }
  match p.client.SpacesListAll t opts with
  | .error err =>
    (.error (.wrapped ("could not find space " ++ p.spaceName) err),
      t ++ [⟨.SpacesListAll opts, .failed err⟩])
  | .ok spaces =>
    let t1 := t ++ [⟨.SpacesListAll opts, .returned (spaces.map (fun s => s.GUID))⟩]
    if h : spaces.length ≠ 1 then
      (.error (.message ("expected to find one space named " ++ p.spaceName ++ ", but found "
        ++ toString spaces.length)), t1)
    else (.ok (spaces.get ⟨0, by omega⟩), t1)

/-- The method `applySpaceManifest` (lines 76 to 95). -/
def AppPushOperation.applySpaceManifest (p : AppPushOperation) (lib : Library) (t : Trace)
    (space : Space) (manifest : AppManifest) : Option OpError × Trace :=
  let multiAppsManifest : Manifest := { Applications := [manifest] }
  match lib.yamlMarshal multiAppsManifest with
  | .error err => (some (.wrapped "error marshalling application manifest" err), t)
  | .ok manifestBytes =>
    match p.client.ManifestsApplyManifest t space.GUID manifestBytes with
    | .error err =>
      (some (.wrapped ("error applying application manifest to space " ++ space.Name) err),
        t ++ [⟨.ManifestsApplyManifest space.GUID manifestBytes, .failed err⟩])
    | .ok jobGUID =>
      let t1 := t ++ [⟨.ManifestsApplyManifest space.GUID manifestBytes, .returned [jobGUID]⟩]
      match p.client.JobsPollComplete t1 jobGUID with
      | some err =>
        (some (.wrapped ("error waiting for application manifest to finish applying to space "
          ++ space.Name) err), t1 ++ [⟨.JobsPollComplete jobGUID, .failed err⟩])
      | none => (none, t1 ++ [⟨.JobsPollComplete jobGUID, .returned []⟩])

/-- The method `findApp` (lines 97 to 110). -/
def AppPushOperation.findApp (p : AppPushOperation) (lib : Library) (t : Trace)
    (appName : String) (space : Space) : Except OpError App × Trace :=
  let appOpts := NewAppListOptions lib.NewListOptions
  let appOpts := { appOpts with Names := ⟨[appName]⟩ }
  let appOpts := { appOpts with SpaceGUIDs := ⟨[space.GUID]⟩ }
  match p.client.ApplicationsListAll t appOpts with
  | .error err => (.error (.bare err), t ++ [⟨.ApplicationsListAll appOpts, .failed err⟩])
  | .ok apps =>
    let t1 := t ++ [⟨.ApplicationsListAll appOpts, .returned (apps.map (fun a => a.GUID))⟩]
    if h : apps.length ≠ 1 then
      (.error (.message ("expected to find one application named " ++ appName ++ " in space "
        ++ space.Name ++ ", but found " ++ toString apps.length)), t1)
    else (.ok (apps.get ⟨0, by omega⟩), t1)

/-- The method `uploadPackage` (lines 112 to 128). -/
def AppPushOperation.uploadPackage (p : AppPushOperation) (t : Trace) (app : App)
    (zipFile : String) : Except OpError Package × Trace :=
  let newPkg := NewPackageCreate app.GUID
  match p.client.PackagesCreate t newPkg with
  | .error err =>
    (.error (.wrapped ("error creating package for app " ++ app.Name) err),
      t ++ [⟨.PackagesCreate newPkg, .failed err⟩])
  | .ok pkg =>
    let t1 := t ++ [⟨.PackagesCreate newPkg, .returned [pkg.GUID]⟩]
    match p.client.PackagesUploadBits t1 pkg.GUID zipFile with
    | some err =>
      (.error (.wrapped ("error uploading package bits for app " ++ app.Name) err),
        t1 ++ [⟨.PackagesUploadBits pkg.GUID zipFile, .failed err⟩])
    | none =>
      let t2 := t1 ++ [⟨.PackagesUploadBits pkg.GUID zipFile, .returned []⟩]
      match p.client.PackagesPollReady t2 pkg.GUID with
      | some err =>
        (.error (.wrapped ("error while waiting for package to process for app " ++ app.Name)
          err), t2 ++ [⟨.PackagesPollReady pkg.GUID, .failed err⟩])
      | none => (.ok pkg, t2 ++ [⟨.PackagesPollReady pkg.GUID, .returned []⟩])

/-- The method `buildDroplet` (lines 130 to 158). -/
def AppPushOperation.buildDroplet (p : AppPushOperation) (lib : Library) (t : Trace)
    (pkg : Package) (manifest : AppManifest) : Except OpError Droplet × Trace :=
  let newBuild := NewBuildCreate pkg.GUID
  let newBuild := { newBuild with
    Lifecycle := some
      { Type_ := "buildpack"
        BuildpackData := { Buildpacks := manifest.Buildpacks, Stack := manifest.Stack } } }
  match p.client.BuildsCreate t newBuild with
  | .error err =>
    (.error (.wrapped ("error creating build from package for app " ++ manifest.Name) err),
      t ++ [⟨.BuildsCreate newBuild, .failed err⟩])
  | .ok build =>
    let t1 := t ++ [⟨.BuildsCreate newBuild, .returned [build.GUID]⟩]
    match p.client.BuildsPollStaged t1 build.GUID with
    | some err =>
      (.error (.wrapped ("error while waiting for app " ++ manifest.Name ++ " package to build")
        err), t1 ++ [⟨.BuildsPollStaged build.GUID, .failed err⟩])
    | none =>
      let t2 := t1 ++ [⟨.BuildsPollStaged build.GUID, .returned []⟩]
      let opts := NewDropletPackageListOptions lib.NewListOptions
      let opts := { opts with States := ⟨[lib.DropletStateStaged]⟩ }
      match p.client.DropletsListForPackageAll t2 pkg.GUID opts with
      | .error err =>
        (.error (.wrapped ("error finding droplet for app " ++ manifest.Name) err),
          t2 ++ [⟨.DropletsListForPackageAll pkg.GUID opts, .failed err⟩])
      | .ok droplets =>
        let t3 := t2 ++ [⟨.DropletsListForPackageAll pkg.GUID opts,
          .returned (droplets.map (fun d => d.GUID))⟩]
        if h : droplets.length ≠ 1 then
          (.error (.message ("expected one droplet, but found " ++ toString droplets.length)),
            t3)
        else (.ok (droplets.get ⟨0, by omega⟩), t3)

/-- The method `pushApp` pushes an application (lines 47 to 74). -/
def AppPushOperation.pushApp (p : AppPushOperation) (lib : Library) (t : Trace)
    (space : Space) (manifest : AppManifest) (zipFile : String) :
    Except OpError App × Trace :=
  match p.applySpaceManifest lib t space manifest with
  | (some err, t1) => (.error err, t1)
  | (none, t1) =>
    match p.findApp lib t1 manifest.Name space with
    | (.error err, t2) => (.error err, t2)
    | (.ok app, t2) =>
      match p.uploadPackage t2 app zipFile with
      | (.error err, t3) => (.error err, t3)
      | (.ok pkg, t3) =>
        match p.buildDroplet lib t3 pkg manifest with
        | (.error err, t4) => (.error err, t4)
        | (.ok droplet, t4) =>
          match p.client.DropletsSetCurrentAssociationForApp t4 app.GUID droplet.GUID with
          | some err =>
            (.error (.bare err),
              t4 ++ [⟨.DropletsSetCurrentAssociationForApp app.GUID droplet.GUID, .failed err⟩])
          | none =>
            let t5 := t4 ++
              [⟨.DropletsSetCurrentAssociationForApp app.GUID droplet.GUID, .returned []⟩]
            match p.client.ApplicationsStart t5 app.GUID with
            | .error err =>
              (.error (.bare err), t5 ++ [⟨.ApplicationsStart app.GUID, .failed err⟩])
            | .ok started =>
              (.ok started, t5 ++ [⟨.ApplicationsStart app.GUID, .returned [started.GUID]⟩])

/-- Push creates or updates an application using the specified manifest and
zipped source files (lines 28 to 39). A run starts with no invocation made. -/
def AppPushOperation.Push (p : AppPushOperation) (lib : Library) (appManifest : AppManifest)
    (zipFile : String) : Except OpError App × Trace :=
  match p.findOrg lib [] with
  | (.error err, t1) => (.error err, t1)
  | (.ok org, t1) =>
    match p.findSpace lib t1 org.GUID with
    | (.error err, t2) => (.error err, t2)
    | (.ok space, t2) => p.pushApp lib t2 space appManifest zipFile
/-- The options `findOrg` lists with: no filter but the org name. -/
def AppPushOperation.orgOptions (p : AppPushOperation) (lib : Library) : OrgListOptions :=
  { NewOrgListOptions lib.NewListOptions with Names := ⟨[p.orgName]⟩ }

/-- The options `findSpace` lists with: no filter but the space name and the
org GUID. -/
def AppPushOperation.spaceOptions (p : AppPushOperation) (lib : Library) (orgGUID : String) :
    SpaceListOptions :=
  { NewSpaceListOptions lib.NewListOptions with
    Names := ⟨[p.spaceName]⟩, OrganizationGUIDs := ⟨[orgGUID]⟩ }

/-- The options `findApp` lists with: no filter but the app name and the space
GUID. -/
def appOptions (lib : Library) (appName spaceGUID : String) : AppListOptions :=
  { NewAppListOptions lib.NewListOptions with
    Names := ⟨[appName]⟩, SpaceGUIDs := ⟨[spaceGUID]⟩ }

/-- The options `buildDroplet` lists with: no filter but the staged state. -/
def stagedOptions (lib : Library) : DropletPackageListOptions :=
  { NewDropletPackageListOptions lib.NewListOptions with
    States := ⟨[lib.DropletStateStaged]⟩ }

/-- The build `buildDroplet` asks for: from the package, with the buildpack
lifecycle of the manifest. -/
def buildRequest (packageGUID : String) (manifest : AppManifest) : BuildCreate :=
  { PackageGUID := packageGUID
    Lifecycle := some
      { Type_ := "buildpack"
        BuildpackData := { Buildpacks := manifest.Buildpacks, Stack := manifest.Stack } } }
/-! ## Sample push collaborators -/

/-- A client on which every operation succeeds and every lookup finds one
resource. -/
def sampleClient : OperationClient :=
  { OrganizationsListAll := fun _ _ => .ok [⟨"org-1", "acme"⟩]
    SpacesListAll := fun _ _ => .ok [⟨"space-1", "dev"⟩]
    ManifestsApplyManifest := fun _ _ _ => .ok "job-1"
    JobsPollComplete := fun _ _ => none
    ApplicationsListAll := fun _ _ => .ok [⟨"app-1", "one", "STOPPED"⟩]
    PackagesCreate := fun _ _ => .ok ⟨"pkg-1"⟩
    PackagesUploadBits := fun _ _ _ => none
    PackagesPollReady := fun _ _ => none
    BuildsCreate := fun _ _ => .ok ⟨"build-1"⟩
    BuildsPollStaged := fun _ _ => none
    DropletsListForPackageAll := fun _ _ _ => .ok [⟨"droplet-1"⟩]
    DropletsSetCurrentAssociationForApp := fun _ _ _ => none
    ApplicationsStart := fun _ guid => .ok ⟨guid, "one", "STARTED"⟩ }

/-- Sample imports: the sample paging defaults, a text for the staged state,
and a marshaller that lists the names of the applications. -/
def sampleLibrary : Library :=
  { NewListOptions := samplePaging
    DropletStateStaged := "STAGED"
    yamlMarshal := fun m => .ok ("applications: " ++ String.intercalate "," (m.Applications.map
      (fun a => a.Name))) }

/-- A sample manifest for the app `one`, which also names a docker image. -/
def sampleManifest : AppManifest :=
  { Name := "one"
    Buildpacks := ["go_buildpack"]
    Command := ""
    DiskQuota := ""
    Docker := ⟨"registry.example.org/one", ""⟩
    Env := []
    HealthCheckType := ""
    HealthCheckHTTPEndpoint := ""
    Instances := 1
    LogRateLimit := ""
    Memory := ""
    NoRoute := false
    Routes := []
    Services := []
    Stack := "cflinuxfs4"
    Timeout := 0 }

/-- The sample push operation, for org `acme` and space `dev`. -/
def samplePush (client : OperationClient) : AppPushOperation :=
  NewAppPushOperation client "acme" "dev"

/-- The error the failing sample operations return. -/
def sampleFailure : Error := Error.TransportError "connection reset"

/-- The values the client's operations return in a run of push that goes all
the way: the org and the space found, the marshalled manifest, the job of its
application, the app found, the package and the build created, the staged
droplet, and the app as started. -/
structure PushValues where
  org : Organization
  space : Space
  manifestBytes : String
  jobGUID : String
  app : App
  pkg : Package
  build : Build
  droplet : Droplet
  started : App
  deriving DecidableEq, Repr

/-- Values to stand in for those a run that stops early never gets. -/
def PushValues.blank : PushValues :=
  { org := ⟨"", ""⟩
    space := ⟨"", ""⟩
    manifestBytes := ""
    jobGUID := ""
    app := ⟨"", "", ""⟩
    pkg := ⟨""⟩
    build := ⟨""⟩
    droplet := ⟨""⟩
    started := ⟨"", "", ""⟩ }

/-- The thirteen invocations of a run of push in which every operation
succeeds and every lookup finds one resource, in the order they are made, each
with its arguments and what it returned: list orgs by name, list spaces by
name within the org, apply the manifest, poll the manifest job, list apps by
name within the space, create the package, upload the bits, poll the package,
create the build, poll the build, list the staged droplets of the package, set
the app's current droplet, start the app. -/
def AppPushOperation.pipeline (p : AppPushOperation) (lib : Library) (manifest : AppManifest)
    (zipFile : String) (v : PushValues) : Trace :=
  [⟨.OrganizationsListAll (p.orgOptions lib), .returned [v.org.GUID]⟩,
   ⟨.SpacesListAll (p.spaceOptions lib v.org.GUID), .returned [v.space.GUID]⟩,
   ⟨.ManifestsApplyManifest v.space.GUID v.manifestBytes, .returned [v.jobGUID]⟩,
   ⟨.JobsPollComplete v.jobGUID, .returned []⟩,
   ⟨.ApplicationsListAll (appOptions lib manifest.Name v.space.GUID), .returned [v.app.GUID]⟩,
   ⟨.PackagesCreate (NewPackageCreate v.app.GUID), .returned [v.pkg.GUID]⟩,
   ⟨.PackagesUploadBits v.pkg.GUID zipFile, .returned []⟩,
   ⟨.PackagesPollReady v.pkg.GUID, .returned []⟩,
   ⟨.BuildsCreate (buildRequest v.pkg.GUID manifest), .returned [v.build.GUID]⟩,
   ⟨.BuildsPollStaged v.build.GUID, .returned []⟩,
   ⟨.DropletsListForPackageAll v.pkg.GUID (stagedOptions lib), .returned [v.droplet.GUID]⟩,
   ⟨.DropletsSetCurrentAssociationForApp v.app.GUID v.droplet.GUID, .returned []⟩,
   ⟨.ApplicationsStart v.app.GUID, .returned [v.started.GUID]⟩]

/-- The operation at place `k` of the pipeline (counted from 0), with the
arguments it has in a run with the values `v`. -/
def AppPushOperation.callAt (p : AppPushOperation) (lib : Library) (manifest : AppManifest)
    (zipFile : String) (v : PushValues) (k : Nat) : Call :=
  ((p.pipeline lib manifest zipFile v).getD k ⟨.ApplicationsStart "", .returned []⟩).call

/-- The sample client with the operation of place `k` of the pipeline failing
with the sample error; with `k` outside 1 to 13 it is the sample client. -/
def failingAt (k : Nat) : OperationClient :=
  { OrganizationsListAll := fun t o =>
      if k = 1 then .error sampleFailure else sampleClient.OrganizationsListAll t o
    SpacesListAll := fun t o =>
      if k = 2 then .error sampleFailure else sampleClient.SpacesListAll t o
    ManifestsApplyManifest := fun t g m =>
      if k = 3 then .error sampleFailure else sampleClient.ManifestsApplyManifest t g m
    JobsPollComplete := fun t g =>
      if k = 4 then some sampleFailure else sampleClient.JobsPollComplete t g
    ApplicationsListAll := fun t o =>
      if k = 5 then .error sampleFailure else sampleClient.ApplicationsListAll t o
    PackagesCreate := fun t r =>
      if k = 6 then .error sampleFailure else sampleClient.PackagesCreate t r
    PackagesUploadBits := fun t g z =>
      if k = 7 then some sampleFailure else sampleClient.PackagesUploadBits t g z
    PackagesPollReady := fun t g =>
      if k = 8 then some sampleFailure else sampleClient.PackagesPollReady t g
    BuildsCreate := fun t r =>
      if k = 9 then .error sampleFailure else sampleClient.BuildsCreate t r
    BuildsPollStaged := fun t g =>
      if k = 10 then some sampleFailure else sampleClient.BuildsPollStaged t g
    DropletsListForPackageAll := fun t g o =>
      if k = 11 then .error sampleFailure else sampleClient.DropletsListForPackageAll t g o
    DropletsSetCurrentAssociationForApp := fun t a d =>
      if k = 12 then some sampleFailure
      else sampleClient.DropletsSetCurrentAssociationForApp t a d
    ApplicationsStart := fun t g =>
      if k = 13 then .error sampleFailure else sampleClient.ApplicationsStart t g }

/-- The sample client with the four lookups listing what is given. -/
def listingClient (orgs : List Organization) (spaces : List Space) (apps : List App)
    (droplets : List Droplet) : OperationClient :=
  { sampleClient with
    OrganizationsListAll := fun _ _ => .ok orgs
    SpacesListAll := fun _ _ => .ok spaces
    ApplicationsListAll := fun _ _ => .ok apps
    DropletsListForPackageAll := fun _ _ _ => .ok droplets }

/-! ## Single resources (`client/app.go`, `client/space.go`) -/

/-- The `resource.Relationship` record, by the field the sources read
(`relation.Data.GUID`). -/
structure Relationship where
  GUID : String
  deriving DecidableEq, Repr

/-- The `resource.ToOneRelationship` record as `client/space.go` uses it: its
`Data` is a pointer (`Data: &resource.Relationship{...}`,
`relation.Data == nil`). -/
structure ToOneRelationship where
  Data : Option Relationship
  deriving DecidableEq, Repr

/-- The `resource.AppWithIncluded` record, by its use in the sources
(`app.App`, `app.Included.Spaces[0]`, `app.Included.Organizations[0]`). -/
structure AppWithIncluded where
  App : CfClient.App
  Included : AppIncluded
  deriving DecidableEq, Repr

/-- The `resource.SpaceWithIncluded` record, by its use in the sources
(`space.Space`, `space.Included.Organizations[0]`). -/
structure SpaceWithIncluded where
  Space : CfClient.Space
  Included : SpaceIncluded
  deriving DecidableEq, Repr

/-- An argument of `path.Format`: a text, or one of the include constants. -/
inductive PathArg where
  | text (s : String)
  | appInclude (i : AppIncludeType)
  | spaceInclude (i : SpaceIncludeType)
  deriving DecidableEq, Repr

/-- A path as the sources hand it to `path.Format`, which is not among the
sources: the format and its arguments. -/
structure Path where
  format : String
  args : List PathArg
  deriving DecidableEq, Repr

/-- The shared client, by the method `get(ctx, path, &result)` on a single
resource: the decoded body, or an error. -/
structure ResourceGet (R : Type) where
  get : Path → Except Error R

/-- How a call of a Go function ends: it returns its values, it returns an
error, or it panics at run time. -/
inductive Ending (α : Type) where
  | returned (x : α)
  | failed (err : Error)
  | panicked (reason : String)
  deriving DecidableEq, Repr

/-- GetAssignedIsoSegment gets the space's assigned isolation segment, if any
(`client/space.go`, lines 73 to 84). The result is the pair of the string and
the error, `none` for `nil`. -/
def SpaceClient.GetAssignedIsoSegment (client : ResourceGet ToOneRelationship)
    (guid : String) : String × Option Error :=
  match client.get ⟨"/v3/spaces/%s/relationships/isolation_segment", [.text guid]⟩ with
  | .error err => ("", some err)
  | .ok relation =>
    match relation.Data with
    | none => ("", none)
    | some data => (data.GUID, none)

/-- GetIncludeSpace allows callers to fetch an app and include the parent
space (`client/app.go`, lines 63 to 71). The index expression `Spaces[0]`
panics on an empty slice. -/
def AppClient.GetIncludeSpace (client : ResourceGet AppWithIncluded) (guid : String) :
    Ending (App × Space) :=
  match client.get ⟨"/v3/apps/%s?include=%s",
      [.text guid, .appInclude AppIncludeType.AppIncludeSpace]⟩ with
  | .error err => .failed err
  | .ok app =>
    match app.Included.Spaces with
    | [] => .panicked "index out of range [0] with length 0"
    | space :: _ => .returned (app.App, space)

/-- GetIncludeSpaceAndOrg allows callers to fetch an app and include the parent
space and org (`client/app.go`, lines 73 to 81). The operands of the `return`
are evaluated from left to right. -/
def AppClient.GetIncludeSpaceAndOrg (client : ResourceGet AppWithIncluded) (guid : String) :
    Ending (App × Space × Organization) :=
  match client.get ⟨"/v3/apps/%s?include=%s",
      [.text guid, .appInclude AppIncludeType.AppIncludeSpaceOrganization]⟩ with
  | .error err => .failed err
  | .ok app =>
    match app.Included.Spaces with
    | [] => .panicked "index out of range [0] with length 0"
    | space :: _ =>
      match app.Included.Organizations with
      | [] => .panicked "index out of range [0] with length 0"
      | org :: _ => .returned (app.App, space, org)

/-- GetIncludeOrg allows callers to fetch a space and include the parent org
(`client/space.go`, lines 86 to 94). -/
def SpaceClient.GetIncludeOrg (client : ResourceGet SpaceWithIncluded) (guid : String) :
    Ending (Space × Organization) :=
  match client.get ⟨"/v3/spaces/%s?include=%s",
      [.text guid, .spaceInclude SpaceIncludeType.SpaceIncludeOrganization]⟩ with
  | .error err => .failed err
  | .ok space =>
    match space.Included.Organizations with
    | [] => .panicked "index out of range [0] with length 0"
    | org :: _ => .returned (space.Space, org)

/-- A sample getter: it answers every path with the given decoded body. -/
def answering {R : Type} (body : R) : ResourceGet R := ⟨fun _ => .ok body⟩

/-- A sample getter: it fails on every path with the sample error. -/
def refusing (R : Type) : ResourceGet R := ⟨fun _ => .error sampleFailure⟩

/-! ## Builds (`client/build.go`) -/

/-- A value of a request body of `client/build.go`, a `map[string]interface{}`:
a string, a `*resource.Lifecycle`, a `*resource.Metadata`, or a map again. The
declaration of `resource.Metadata` is not among the sources; it is the type
parameter `M`. -/
inductive Value (M : Type) where
  | str (s : String)
  | lifecycle (l : Lifecycle)
  | metadata (m : M)
  | obj (fields : List (String × Value M))

/-- A Go map with string keys, as the list of its entries; no key occurs
twice. -/
abbrev Params (M : Type) := List (String × Value M)

/-- The assignment `m[k] = v` on a map: the entry of `k` is replaced, or
added. -/
def setKey {M : Type} (m : Params M) (k : String) (v : Value M) : Params M :=
  m.filter (fun kv => kv.1 != k) ++ [(k, v)]

/-- The request of `client/build.go`, by what `CreateBuild` gives it: the
method and the path of `NewRequest`, and the body `req.obj`. -/
structure HttpRequest (M : Type) where
  method : String
  url : String
  obj : Option (Params M)

/-- The response of `DoRequest`, by what `CreateBuild` reads of it. -/
structure HttpResponse where
  StatusCode : Int
  Body : String
  deriving DecidableEq, Repr

/-- The constant `http.StatusCreated` of the standard library. -/
def StatusCreated : Int := 201

/-- What a run of `CreateBuild` does to the world outside: the request it
sends, the body it decodes, the body it closes. -/
inductive Effect (M : Type) where
  | DoRequest (req : HttpRequest M)
  | Decode (body : String)
  | Close (body : String)

/-- The `*Client` of `client/build.go`, by its collaborators: `DoRequest`,
which sends a request and answers with a response or an error, and the JSON
decoder of a build. Its `NewRequest` is the function below. -/
structure BuildClient (M : Type) where
  DoRequest : HttpRequest M → Except Error HttpResponse
  decodeBuild : String → Except Error Build

/-- The method `NewRequest(method, path)`: a request without body. -/
def BuildClient.NewRequest {M : Type} (_ : BuildClient M) (method path : String) :
    HttpRequest M :=
  ⟨method, path, none⟩

/-- The method `CreateBuild` (`client/build.go`, lines 27 to 58), with the
effects of the run next to its result. `errors.Wrap(err, text)` is the wrapped
error with `text` as its context; the deferred `resp.Body.Close()` runs when
the function returns. -/
def BuildClient.CreateBuild {M : Type} (c : BuildClient M) (packageGUID : String)
    (lifecycle : Option Lifecycle) (metadata : Option M) :
    Except OpError Build × List (Effect M) :=
  let req := c.NewRequest "POST" "/v3/builds"
  let params : Params M := [("package", .obj [("guid", .str packageGUID)])]
  let params := match lifecycle with
    | some l => setKey params "lifecycle" (.lifecycle l)
    | none => params
  let params := match metadata with
    | some m => setKey params "metadata" (.metadata m)
    | none => params
  let req := { req with obj := some params }
  match c.DoRequest req with
  | .error err => (.error (.wrapped "Error while creating v3 build" err), [.DoRequest req])
  | .ok resp =>
    if resp.StatusCode ≠ StatusCreated then
      (.error (.message ("Error creating v3 build, response code: "
        ++ toString resp.StatusCode)), [.DoRequest req, .Close resp.Body])
    else
      match c.decodeBuild resp.Body with
      | .error err =>
        (.error (.wrapped "Error reading  Build JSON" err),
          [.DoRequest req, .Decode resp.Body, .Close resp.Body])
      | .ok build => (.ok build, [.DoRequest req, .Decode resp.Body, .Close resp.Body])

/-- The request a run of `CreateBuild` sent first, if it sent one. -/
def sentRequest {M : Type} (effects : List (Effect M)) : Option (HttpRequest M) :=
  match effects with
  | .DoRequest req :: _ => some req
  | _ => none

/-- Whether a run decoded a body. -/
def decoded {M : Type} (effects : List (Effect M)) : Bool :=
  effects.any (fun e => match e with
    | .Decode _ => true
    | _ => false)

/-- The keys of a map. -/
def keys {M : Type} (m : Params M) : List String := m.map Prod.fst

/-- A sample build server: it answers every request with the given status and
the body `build-1`, which decodes to the build of that GUID; any other body
does not decode. -/
def buildServer (status : Int) : BuildClient Unit :=
  { DoRequest := fun _ => .ok ⟨status, "build-1"⟩
    decodeBuild := fun body => if body = "build-1" then .ok ⟨"build-1"⟩ else .error sampleFailure }

/-- The body `CreateBuild` builds before it sends the request (lines 29 to
39). -/
def createBuildParams {M : Type} (packageGUID : String) (lifecycle : Option Lifecycle)
    (metadata : Option M) : Params M :=
  let params : Params M := [("package", .obj [("guid", .str packageGUID)])]
  let params := match lifecycle with
    | some l => setKey params "lifecycle" (.lifecycle l)
    | none => params
  match metadata with
  | some m => setKey params "metadata" (.metadata m)
  | none => params

/-- The request `CreateBuild` sends. -/
def createBuildRequest {M : Type} (packageGUID : String) (lifecycle : Option Lifecycle)
    (metadata : Option M) : HttpRequest M :=
  ⟨"POST", "/v3/builds", some (createBuildParams packageGUID lifecycle metadata)⟩

/-! ## The loops and their common shape -/

theorem autoPage_loop_eq_pageLoop {W O R : Type} [ListOptioner O] (list : ListFunc W O R)
    (fuel : Nat) (w : W) (o : O) (all : List R) :
    AutoPage.loop list fuel w o all
      = pageLoop (AutoPage.fetch list) (fun a b => a ++ b) fuel w o all := by
  induction fuel generalizing w o all with
  | zero => rfl
  | succ n ih =>
    rcases h : list w (some o) with ⟨(err | ⟨page, pager⟩), w1, o1⟩
    · simp [AutoPage.loop, pageLoop, AutoPage.fetch, h]
    · by_cases hn : pager.HasNextPage = true
      · simp [AutoPage.loop, pageLoop, AutoPage.fetch, h, hn, ih]
      · simp [AutoPage.loop, pageLoop, AutoPage.fetch, h, hn]

theorem includeSpacesAll_loop_eq_pageLoop (c : AppClient) (d : ListOptions)
    (fuel : Nat) (w : History AppListOptions) (o : AppListOptions)
    (all : List App) (allSpaces : List Space) :
    AppClient.ListIncludeSpacesAll.loop c d fuel w o all allSpaces
      = pageLoop (c.fetchIncludeSpaces d) append2 fuel w o (all, allSpaces) := by
  induction fuel generalizing w o all allSpaces with
  | zero => rfl
  | succ n ih =>
    rcases h : c.ListIncludeSpaces d w (some o) with ⟨(err | ⟨page, spaces, pager⟩), w1, o1⟩
    · simp [AppClient.ListIncludeSpacesAll.loop, pageLoop, AppClient.fetchIncludeSpaces, h]
    · by_cases hn : pager.HasNextPage = true
      · simp [AppClient.ListIncludeSpacesAll.loop, pageLoop, AppClient.fetchIncludeSpaces, h,
          hn, ih, append2]
      · simp [AppClient.ListIncludeSpacesAll.loop, pageLoop, AppClient.fetchIncludeSpaces, h,
          hn, append2]

theorem includeSpacesAndOrgsAll_loop_eq_pageLoop (c : AppClient)
    (d : ListOptions) (fuel : Nat) (w : History AppListOptions) (o : AppListOptions)
    (all : List App) (allSpaces : List Space) (allOrgs : List Organization) :
    AppClient.ListIncludeSpacesAndOrgsAll.loop c d fuel w o all allSpaces allOrgs
      = pageLoop (c.fetchIncludeSpacesAndOrgs d) append3 fuel w o (all, allSpaces, allOrgs) := by
  induction fuel generalizing w o all allSpaces allOrgs with
  | zero => rfl
  | succ n ih =>
    rcases h : c.ListIncludeSpacesAndOrgs d w (some o) with
      ⟨(err | ⟨page, spaces, orgs, pager⟩), w1, o1⟩
    · simp [AppClient.ListIncludeSpacesAndOrgsAll.loop, pageLoop,
        AppClient.fetchIncludeSpacesAndOrgs, h]
    · by_cases hn : pager.HasNextPage = true
      · simp [AppClient.ListIncludeSpacesAndOrgsAll.loop, pageLoop,
          AppClient.fetchIncludeSpacesAndOrgs, h, hn, ih, append3]
      · simp [AppClient.ListIncludeSpacesAndOrgsAll.loop, pageLoop,
          AppClient.fetchIncludeSpacesAndOrgs, h, hn, append3]

theorem includeOrgsAll_loop_eq_pageLoop (c : SpaceClient) (d : ListOptions)
    (fuel : Nat) (w : History SpaceListOptions) (o : SpaceListOptions)
    (all : List Space) (allOrgs : List Organization) :
    SpaceClient.ListIncludeOrgsAll.loop c d fuel w o all allOrgs
      = pageLoop (c.fetchIncludeOrgs d) append2 fuel w o (all, allOrgs) := by
  induction fuel generalizing w o all allOrgs with
  | zero => rfl
  | succ n ih =>
    rcases h : c.ListIncludeOrgs d w (some o) with ⟨(err | ⟨page, orgs, pager⟩), w1, o1⟩
    · simp [SpaceClient.ListIncludeOrgsAll.loop, pageLoop, SpaceClient.fetchIncludeOrgs, h]
    · by_cases hn : pager.HasNextPage = true
      · simp [SpaceClient.ListIncludeOrgsAll.loop, pageLoop, SpaceClient.fetchIncludeOrgs, h,
          hn, ih, append2]
      · simp [SpaceClient.ListIncludeOrgsAll.loop, pageLoop, SpaceClient.fetchIncludeOrgs, h,
          hn, append2]

/-! ## Runs -/

/-- After the opening of a run the loop stands where the opening left it, with
the fetched pages accumulated. -/
theorem pageLoop_fetched {W O A : Type} [ListOptioner O] (fetch : Fetch W O A)
    (app : A → A → A) (pages : List A) (w : W) (o : O) (w1 : W) (o1 : O)
    (h : Fetched fetch pages w o w1 o1) (n : Nat) (acc : A) :
    pageLoop fetch app (pages.length + n) w o acc
      = pageLoop fetch app n w1 o1 (pages.foldl app acc) := by
  induction pages generalizing w o acc with
  | nil =>
    obtain ⟨hw, ho⟩ := h
    subst hw ho
    simp
  | cons a rest ih =>
    obtain ⟨pager, wm, om, hf, hn, hrest⟩ := h
    have hlen : (a :: rest).length + n = (rest.length + n) + 1 := by
      simp only [List.length_cons]; omega
    rw [hlen, pageLoop]
    simp only [hf, hn, Bool.not_true, Bool.false_eq_true, if_false]
    exact ih wm (pager.afterNextPage om) hrest (app acc a)

/-- A fetch that fails after the opening of a run ends the loop with its
error, at the world the failing fetch left. -/
theorem pageLoop_error {W O A : Type} [ListOptioner O] (fetch : Fetch W O A)
    (app : A → A → A) (pages : List A) (w : W) (o : O) (w1 : W) (o1 : O)
    (h : Fetched fetch pages w o w1 o1) (e : Error) (w2 : W) (o2 : O)
    (hfail : fetch w1 o1 = (.error e, w2, o2)) (fuel : Nat) (hfuel : pages.length < fuel)
    (acc : A) :
    pageLoop fetch app fuel w o acc = (some (.error e), w2, o2) := by
  obtain ⟨n, rfl⟩ : ∃ n, fuel = pages.length + (n + 1) := ⟨fuel - pages.length - 1, by omega⟩
  rw [pageLoop_fetched fetch app pages w o w1 o1 h, pageLoop]
  simp only [hfail]

/-- A fetch without next page after the opening of a run ends the loop with
all pages accumulated. -/
theorem pageLoop_last {W O A : Type} [ListOptioner O] (fetch : Fetch W O A)
    (app : A → A → A) (pages : List A) (w : W) (o : O) (w1 : W) (o1 : O)
    (h : Fetched fetch pages w o w1 o1) (a : A) (pager : Pager) (w2 : W) (o2 : O)
    (hlast : fetch w1 o1 = (.ok (a, pager), w2, o2)) (hend : pager.HasNextPage = false)
    (fuel : Nat) (hfuel : pages.length < fuel) (acc : A) :
    pageLoop fetch app fuel w o acc = (some (.ok (app (pages.foldl app acc) a)), w2, o2) := by
  obtain ⟨n, rfl⟩ : ∃ n, fuel = pages.length + (n + 1) := ⟨fuel - pages.length - 1, by omega⟩
  rw [pageLoop_fetched fetch app pages w o w1 o1 h, pageLoop]
  simp only [hlast, hend, Bool.not_false, if_true]

theorem foldl_append2 {α β : Type} (pages : List (List α × List β)) (acc : List α × List β) :
    pages.foldl append2 acc
      = (acc.1 ++ (pages.map Prod.fst).flatten, acc.2 ++ (pages.map Prod.snd).flatten) := by
  induction pages generalizing acc with
  | nil => simp
  | cons p rest ih => simp [ih, append2, List.append_assoc]

theorem foldl_append3 {α β γ : Type} (pages : List (List α × List β × List γ))
    (acc : List α × List β × List γ) :
    pages.foldl append3 acc
      = (acc.1 ++ (pages.map (fun p => p.1)).flatten,
         acc.2.1 ++ (pages.map (fun p => p.2.1)).flatten,
         acc.2.2 ++ (pages.map (fun p => p.2.2)).flatten) := by
  induction pages generalizing acc with
  | nil => simp
  | cons p rest ih => simp [ih, append3, List.append_assoc]

/-- A complete run over the pages of a collection ends the loop of `AutoPage`
with the pages concatenated after the accumulator. -/
theorem pageLoop_serves {W O R : Type} [ListOptioner O] (fetch : Fetch W O (List R))
    (pages : List (List R)) (w : W) (o : O) (w2 : W) (o2 : O)
    (h : ServesPages fetch pages w o w2 o2) (fuel : Nat) (hfuel : pages.length ≤ fuel)
    (hpos : 0 < fuel) (acc : List R) :
    pageLoop fetch (fun a b => a ++ b) fuel w o acc
      = (some (.ok (acc ++ pages.flatten)), w2, o2) := by
  induction pages generalizing w o fuel acc with
  | nil =>
    obtain ⟨pager, hf, hend⟩ := h
    obtain ⟨n, rfl⟩ : ∃ n, fuel = n + 1 := ⟨fuel - 1, by omega⟩
    rw [pageLoop]
    simp [hf, hend]
  | cons p rest ih =>
    obtain ⟨n, rfl⟩ : ∃ n, fuel = n + 1 := ⟨fuel - 1, by omega⟩
    cases rest with
    | nil =>
      obtain ⟨pager, hf, hend⟩ := h
      rw [pageLoop]
      simp [hf, hend]
    | cons q rest =>
      obtain ⟨pager, wm, om, hf, hn, hrest⟩ := h
      rw [pageLoop]
      simp only [hf, hn, Bool.not_true, Bool.false_eq_true, if_false]
      rw [ih wm (pager.afterNextPage om) hrest n (by simpa using hfuel) (by simp at hfuel; omega)]
      simp [List.append_assoc]

/-- Every page fetch of `ListIncludeSpaces` adds its one request to the
history. -/
theorem listIncludeSpaces_history (c : AppClient) (d : ListOptions)
    (w : History AppListOptions) (opts : Option AppListOptions) :
    (c.ListIncludeSpaces d w opts).2.1.length = w.length + 1 := by
  unfold AppClient.ListIncludeSpaces
  cases opts <;> dsimp only <;> split <;> simp

/-- Every page fetch of `ListIncludeSpacesAndOrgs` adds its one request to the
history. -/
theorem listIncludeSpacesAndOrgs_history (c : AppClient) (d : ListOptions)
    (w : History AppListOptions) (opts : Option AppListOptions) :
    (c.ListIncludeSpacesAndOrgs d w opts).2.1.length = w.length + 1 := by
  unfold AppClient.ListIncludeSpacesAndOrgs
  cases opts <;> dsimp only <;> split <;> simp

/-- Every page fetch of `ListIncludeOrgs` adds its one request to the
history. -/
theorem listIncludeOrgs_history (c : SpaceClient) (d : ListOptions)
    (w : History SpaceListOptions) (opts : Option SpaceListOptions) :
    (c.ListIncludeOrgs d w opts).2.1.length = w.length + 1 := by
  unfold SpaceClient.ListIncludeOrgs
  cases opts <;> dsimp only <;> split <;> simp

/-- The opening of a run makes one request per page, when every fetch makes
one. -/
theorem fetched_history {O A : Type} [ListOptioner O] (fetch : Fetch (History O) O A)
    (hone : ∀ w o, (fetch w o).2.1.length = w.length + 1)
    (pages : List A) (w : History O) (o : O) (w1 : History O) (o1 : O)
    (h : Fetched fetch pages w o w1 o1) : w1.length = w.length + pages.length := by
  induction pages generalizing w o with
  | nil => obtain ⟨hw, _⟩ := h; simp [hw]
  | cons a rest ih =>
    obtain ⟨pager, wm, om, hf, _, hrest⟩ := h
    have h1 := hone w o
    rw [hf] at h1
    have h2 := ih wm (pager.afterNextPage om) hrest
    simp only [List.length_cons] at *
    omega

theorem fetchIncludeSpaces_history (c : AppClient) (d : ListOptions)
    (w : History AppListOptions) (o : AppListOptions) :
    (c.fetchIncludeSpaces d w o).2.1.length = w.length + 1 := by
  have h := listIncludeSpaces_history c d w (some o)
  unfold AppClient.fetchIncludeSpaces
  split <;> simp_all

theorem fetchIncludeSpacesAndOrgs_history (c : AppClient) (d : ListOptions)
    (w : History AppListOptions) (o : AppListOptions) :
    (c.fetchIncludeSpacesAndOrgs d w o).2.1.length = w.length + 1 := by
  have h := listIncludeSpacesAndOrgs_history c d w (some o)
  unfold AppClient.fetchIncludeSpacesAndOrgs
  split <;> simp_all

theorem fetchIncludeOrgs_history (c : SpaceClient) (d : ListOptions)
    (w : History SpaceListOptions) (o : SpaceListOptions) :
    (c.fetchIncludeOrgs d w o).2.1.length = w.length + 1 := by
  have h := listIncludeOrgs_history c d w (some o)
  unfold SpaceClient.fetchIncludeOrgs
  split <;> simp_all

/-! ## The claims -/

/-- C1: `AutoPage`, as `AppClient.ListAll` uses it, over the `N` pages of a
collection returns without error the pages' elements in page order and, within
a page, in within-page order; the length of the result is the sum of the page
sizes. This holds for every `N`, and for `N = 0` the result is empty. Fuel of
at least `N`, and at least one, is enough for the loop to return. -/
theorem listAll_returns_pages_in_order (c : AppClient) (newListOptions : ListOptions)
    (w : History AppListOptions) (opts : Option AppListOptions) (pages : List (List App))
    (w2 : History AppListOptions) (o2 : AppListOptions)
    (h : ServesPages (AutoPage.fetch (fun w1 o => c.List newListOptions w1 o)) pages w
      (opts.getD (NewAppListOptions newListOptions)) w2 o2)
    (fuel : Nat) (hfuel : pages.length ≤ fuel) (hpos : 0 < fuel) :
    c.ListAll newListOptions fuel w opts = (some (.ok pages.flatten), w2, o2) ∧
      pages.flatten.length = (pages.map List.length).sum ∧
      (pages = [] → c.ListAll newListOptions fuel w opts = (some (.ok []), w2, o2)) := by
  have key : c.ListAll newListOptions fuel w opts = (some (.ok pages.flatten), w2, o2) := by
    have hrun := pageLoop_serves _ pages w _ w2 o2 h fuel hfuel hpos []
    cases opts with
    | none =>
      simpa [AppClient.ListAll, AutoPage, autoPage_loop_eq_pageLoop] using hrun
    | some o =>
      simpa [AppClient.ListAll, AutoPage, autoPage_loop_eq_pageLoop] using hrun
  refine ⟨key, ?_, ?_⟩
  · simp [List.length_flatten]
  · intro hp
    rw [key, hp]
    rfl

/-- C1, on the sample collection of two pages of two apps, listed with no
options: the four apps come back in order. -/
theorem listAll_returns_pages_in_order_witness :
    pagedServer.ListAll samplePaging 2 [] none
      = (some (.ok sampleApps), (pagedServer.ListAll samplePaging 2 [] none).2.1,
          (pagedServer.ListAll samplePaging 2 [] none).2.2) ∧
      sampleApps.length = 2 + 2 :=
  have h := listAll_returns_pages_in_order pagedServer samplePaging [] none
    [sampleApps.take 2, sampleApps.drop 2]
    (pagedServer.ListAll samplePaging 2 [] none).2.1
    (pagedServer.ListAll samplePaging 2 [] none).2.2
    ⟨NewPager samplePage1.Pagination, _, _, rfl, rfl, NewPager samplePage2.Pagination, rfl, rfl⟩
    2 (by decide) (by decide)
  ⟨h.1, h.2.1⟩

/-- C2: the list-all operations are all or nothing. For every `k`, when the
first `k` page fetches succeed (each reporting a next page) and fetch `k + 1`
fails with error `e`, then `AutoPage`, `ListIncludeSpacesAll`,
`ListIncludeSpacesAndOrgsAll` and `ListIncludeOrgsAll` return `e` and no list
at all, and they stop at the world the failing fetch left: no further fetch is
made, the hand-written loops having made exactly `k + 1` requests. -/
theorem listAll_all_or_nothing :
    (∀ (W O R : Type) [ListOptioner O] (list : ListFunc W O R) (pages : List (List R))
        (w : W) (o : O) (w1 : W) (o1 : O) (e : Error) (w2 : W) (o2 : O) (fuel : Nat),
        Fetched (AutoPage.fetch list) pages w o w1 o1 →
        list w1 (some o1) = (.error e, w2, o2) →
        pages.length < fuel →
        AutoPage list fuel w o = (some (.error e), w2, o2)) ∧
    (∀ (c : AppClient) (d : ListOptions) (pages : List (List App × List Space))
        (w : History AppListOptions) (o : AppListOptions)
        (w1 : History AppListOptions) (o1 : AppListOptions) (e : Error)
        (w2 : History AppListOptions) (o2 : AppListOptions) (fuel : Nat),
        Fetched (c.fetchIncludeSpaces d) pages w o w1 o1 →
        c.ListIncludeSpaces d w1 (some o1) = (.error e, w2, o2) →
        pages.length < fuel →
        c.ListIncludeSpacesAll d fuel w (some o) = (some (.error e), w2, o2) ∧
          w2.length = w.length + (pages.length + 1)) ∧
    (∀ (c : AppClient) (d : ListOptions)
        (pages : List (List App × List Space × List Organization))
        (w : History AppListOptions) (o : AppListOptions)
        (w1 : History AppListOptions) (o1 : AppListOptions) (e : Error)
        (w2 : History AppListOptions) (o2 : AppListOptions) (fuel : Nat),
        Fetched (c.fetchIncludeSpacesAndOrgs d) pages w o w1 o1 →
        c.ListIncludeSpacesAndOrgs d w1 (some o1) = (.error e, w2, o2) →
        pages.length < fuel →
        c.ListIncludeSpacesAndOrgsAll d fuel w (some o) = (some (.error e), w2, o2) ∧
          w2.length = w.length + (pages.length + 1)) ∧
    (∀ (c : SpaceClient) (d : ListOptions) (pages : List (List Space × List Organization))
        (w : History SpaceListOptions) (o : SpaceListOptions)
        (w1 : History SpaceListOptions) (o1 : SpaceListOptions) (e : Error)
        (w2 : History SpaceListOptions) (o2 : SpaceListOptions) (fuel : Nat),
        Fetched (c.fetchIncludeOrgs d) pages w o w1 o1 →
        c.ListIncludeOrgs d w1 (some o1) = (.error e, w2, o2) →
        pages.length < fuel →
        c.ListIncludeOrgsAll d fuel w (some o) = (some (.error e), w2, o2) ∧
          w2.length = w.length + (pages.length + 1)) := by
  refine ⟨?_, ?_, ?_, ?_⟩
  · intro W O R _ list pages w o w1 o1 e w2 o2 fuel hrun hfail hfuel
    rw [AutoPage, autoPage_loop_eq_pageLoop]
    exact pageLoop_error _ _ pages w o w1 o1 hrun e w2 o2 hfail fuel hfuel []
  · intro c d pages w o w1 o1 e w2 o2 fuel hrun hfail hfuel
    have hf : c.fetchIncludeSpaces d w1 o1 = (.error e, w2, o2) := by
      simp [AppClient.fetchIncludeSpaces, hfail]
    constructor
    · simp only [AppClient.ListIncludeSpacesAll, includeSpacesAll_loop_eq_pageLoop]
      exact pageLoop_error _ _ pages w o w1 o1 hrun e w2 o2 hf fuel hfuel ([], [])
    · have h1 := fetched_history _ (fetchIncludeSpaces_history c d) pages w o w1 o1 hrun
      have h2 := listIncludeSpaces_history c d w1 (some o1)
      rw [hfail] at h2
      simp only at h2
      omega
  · intro c d pages w o w1 o1 e w2 o2 fuel hrun hfail hfuel
    have hf : c.fetchIncludeSpacesAndOrgs d w1 o1 = (.error e, w2, o2) := by
      simp [AppClient.fetchIncludeSpacesAndOrgs, hfail]
    constructor
    · simp only [AppClient.ListIncludeSpacesAndOrgsAll, includeSpacesAndOrgsAll_loop_eq_pageLoop]
      exact pageLoop_error _ _ pages w o w1 o1 hrun e w2 o2 hf fuel hfuel ([], [], [])
    · have h1 := fetched_history _ (fetchIncludeSpacesAndOrgs_history c d) pages w o w1 o1 hrun
      have h2 := listIncludeSpacesAndOrgs_history c d w1 (some o1)
      rw [hfail] at h2
      simp only at h2
      omega
  · intro c d pages w o w1 o1 e w2 o2 fuel hrun hfail hfuel
    have hf : c.fetchIncludeOrgs d w1 o1 = (.error e, w2, o2) := by
      simp [SpaceClient.fetchIncludeOrgs, hfail]
    constructor
    · simp only [SpaceClient.ListIncludeOrgsAll, includeOrgsAll_loop_eq_pageLoop]
      exact pageLoop_error _ _ pages w o w1 o1 hrun e w2 o2 hf fuel hfuel ([], [])
    · have h1 := fetched_history _ (fetchIncludeOrgs_history c d) pages w o w1 o1 hrun
      have h2 := listIncludeOrgs_history c d w1 (some o1)
      rw [hfail] at h2
      simp only at h2
      omega

/-- C2, on the server that serves page 1 and fails on page 2: after one good
page `ListIncludeSpacesAll` returns the transport error, having made two
requests. -/
theorem listAll_all_or_nothing_witness :
    (failingServer.ListIncludeSpacesAll samplePaging 5 [] (some (NewAppListOptions samplePaging))).1
        = some (.error (Error.TransportError "connection reset")) ∧
      (failingServer.ListIncludeSpacesAll samplePaging 5 []
        (some (NewAppListOptions samplePaging))).2.1.length = 2 :=
  have h := listAll_all_or_nothing.2.1 failingServer samplePaging
    [(sampleApps.take 2, [⟨"space-1", "dev"⟩])] [] (NewAppListOptions samplePaging)
    (failingServer.ListIncludeSpaces samplePaging [] (some (NewAppListOptions samplePaging))).2.1
    (ListOptioner.SetPage (failingServer.ListIncludeSpaces samplePaging []
      (some (NewAppListOptions samplePaging))).2.2 2)
    (Error.TransportError "connection reset")
    (failingServer.ListIncludeSpacesAll samplePaging 5 [] (some (NewAppListOptions samplePaging))).2.1
    (failingServer.ListIncludeSpacesAll samplePaging 5 [] (some (NewAppListOptions samplePaging))).2.2
    5 ⟨NewPager samplePage1.Pagination, _, _, rfl, rfl, rfl, rfl⟩ rfl (by decide)
  ⟨congrArg Prod.fst h.1, h.2⟩

/-- C3: for every finite run of successfully fetched pages that ends at the
first page whose pager reports no next page, `ListIncludeSpacesAndOrgsAll`
returns three lists: the pages' resources, the pages' included spaces and the
pages' included organizations, each concatenated in page order. A page without
spaces or without organizations adds nothing to that list and leaves the
others as they are. -/
theorem listIncludeSpacesAndOrgsAll_concatenates (c : AppClient) (d : ListOptions)
    (pages : List (List App × List Space × List Organization))
    (last : List App × List Space × List Organization) (pager : Pager)
    (w : History AppListOptions) (o : AppListOptions)
    (w1 : History AppListOptions) (o1 : AppListOptions)
    (w2 : History AppListOptions) (o2 : AppListOptions) (fuel : Nat)
    (hrun : Fetched (c.fetchIncludeSpacesAndOrgs d) pages w o w1 o1)
    (hlast : c.ListIncludeSpacesAndOrgs d w1 (some o1)
      = (.ok (last.1, last.2.1, last.2.2, pager), w2, o2))
    (hend : pager.HasNextPage = false) (hfuel : pages.length < fuel) :
    c.ListIncludeSpacesAndOrgsAll d fuel w (some o)
      = (some (.ok (((pages ++ [last]).map (fun p => p.1)).flatten,
          ((pages ++ [last]).map (fun p => p.2.1)).flatten,
          ((pages ++ [last]).map (fun p => p.2.2)).flatten)), w2, o2) := by
  have hf : c.fetchIncludeSpacesAndOrgs d w1 o1 = (.ok (last, pager), w2, o2) := by
    simp [AppClient.fetchIncludeSpacesAndOrgs, hlast]
  simp only [AppClient.ListIncludeSpacesAndOrgsAll, includeSpacesAndOrgsAll_loop_eq_pageLoop]
  rw [pageLoop_last _ append3 pages w o w1 o1 hrun last pager w2 o2 hf hend fuel hfuel,
    foldl_append3]
  simp [append3]

/-- C3, on the sample collection: page 1 includes a space and an organization,
page 2 a space and no organization. -/
theorem listIncludeSpacesAndOrgsAll_concatenates_witness :
    (pagedServer.ListIncludeSpacesAndOrgsAll samplePaging 2 []
        (some (NewAppListOptions samplePaging))).1
      = some (.ok (sampleApps, [⟨"space-1", "dev"⟩, ⟨"space-2", "prod"⟩], [⟨"org-1", "acme"⟩])) :=
  congrArg Prod.fst
    (listIncludeSpacesAndOrgsAll_concatenates pagedServer samplePaging
      [(sampleApps.take 2, [⟨"space-1", "dev"⟩], [⟨"org-1", "acme"⟩])]
      (sampleApps.drop 2, [⟨"space-2", "prod"⟩], []) (NewPager samplePage2.Pagination)
      [] (NewAppListOptions samplePaging)
      (pagedServer.ListIncludeSpacesAndOrgs samplePaging []
        (some (NewAppListOptions samplePaging))).2.1
      (ListOptioner.SetPage (pagedServer.ListIncludeSpacesAndOrgs samplePaging []
        (some (NewAppListOptions samplePaging))).2.2 2)
      (pagedServer.ListIncludeSpacesAndOrgsAll samplePaging 2 []
        (some (NewAppListOptions samplePaging))).2.1
      (pagedServer.ListIncludeSpacesAndOrgsAll samplePaging 2 []
        (some (NewAppListOptions samplePaging))).2.2
      2 ⟨NewPager samplePage1.Pagination, _, _, rfl, rfl, rfl, rfl⟩ rfl rfl (by decide))

/-- C4: with no options (`nil`) a list-all operation works on a fresh default
options value: against every server, from every history and with every fuel,
`AppClient.ListAll(nil)`, `ListIncludeSpacesAll(nil)` and
`SpaceClient.ListAll(nil)` give exactly what the same call gives on
`NewAppListOptions()`, respectively `NewSpaceListOptions()`. -/
theorem listAll_nil_is_default :
    (∀ (c : AppClient) (d : ListOptions) (fuel : Nat) (w : History AppListOptions),
        c.ListAll d fuel w none = c.ListAll d fuel w (some (NewAppListOptions d))) ∧
    (∀ (c : AppClient) (d : ListOptions) (fuel : Nat) (w : History AppListOptions),
        c.ListIncludeSpacesAll d fuel w none
          = c.ListIncludeSpacesAll d fuel w (some (NewAppListOptions d))) ∧
    (∀ (c : SpaceClient) (d : ListOptions) (fuel : Nat) (w : History SpaceListOptions),
        c.ListAll d fuel w none = c.ListAll d fuel w (some (NewSpaceListOptions d))) ∧
    (∀ (c : AppClient) (d : ListOptions) (w : History AppListOptions),
        c.List d w none = c.List d w (some (NewAppListOptions d))) ∧
    (∀ (c : SpaceClient) (d : ListOptions) (w : History SpaceListOptions),
        c.List d w none = c.List d w (some (NewSpaceListOptions d))) :=
  ⟨fun _ _ _ _ => rfl, fun _ _ _ _ => rfl, fun _ _ _ _ => rfl, fun _ _ _ => rfl,
    fun _ _ _ => rfl⟩

/-! ## Termination -/

/-- What a successful fetch of `ListIncludeSpacesAll` is made of. -/
theorem fetchIncludeSpaces_ok (c : AppClient) (d : ListOptions) (w : History AppListOptions)
    (o : AppListOptions) (a : List App × List Space) (pager : Pager)
    (w1 : History AppListOptions) (o1 : AppListOptions)
    (h : c.fetchIncludeSpaces d w o = (.ok (a, pager), w1, o1)) :
    o1 = { o with Include := AppIncludeType.AppIncludeSpace } ∧
      w1 = w ++ [⟨"/v3/apps", o1⟩] ∧
      ∃ res, c.client.get w ⟨"/v3/apps", o1⟩ = .ok res ∧ pager = NewPager res.Pagination ∧
        a = (res.Resources, res.Included.Spaces) := by
  unfold AppClient.fetchIncludeSpaces AppClient.ListIncludeSpaces at h
  dsimp only at h
  split at h
  · simp at h
  · rename_i page spaces pg w1 o1 heq
    split at heq
    · simp at heq
    · rename_i res hget
      simp only [Prod.mk.injEq, Except.ok.injEq] at heq h
      obtain ⟨⟨hp, hs, hpg⟩, hw, ho⟩ := heq
      obtain ⟨⟨ha, hpg2⟩, hw2, ho2⟩ := h
      subst ho2 hw2 hpg2 ha ho hw hpg hs hp
      exact ⟨rfl, rfl, res, hget, rfl, rfl⟩

/-- What a successful fetch of `ListIncludeOrgsAll` is made of. -/
theorem fetchIncludeOrgs_ok (c : SpaceClient) (d : ListOptions) (w : History SpaceListOptions)
    (o : SpaceListOptions) (a : List Space × List Organization) (pager : Pager)
    (w1 : History SpaceListOptions) (o1 : SpaceListOptions)
    (h : c.fetchIncludeOrgs d w o = (.ok (a, pager), w1, o1)) :
    o1 = { o with Include := SpaceIncludeType.SpaceIncludeOrganization } ∧
      w1 = w ++ [⟨"/v3/spaces", o1⟩] ∧
      ∃ res, c.client.get w ⟨"/v3/spaces", o1⟩ = .ok res ∧ pager = NewPager res.Pagination ∧
        a = (res.Resources, res.Included.Organizations) := by
  unfold SpaceClient.fetchIncludeOrgs SpaceClient.ListIncludeOrgs at h
  dsimp only at h
  split at h
  · simp at h
  · rename_i page orgs pg w1 o1 heq
    split at heq
    · simp at heq
    · rename_i res hget
      simp only [Prod.mk.injEq, Except.ok.injEq] at heq h
      obtain ⟨⟨hp, hs, hpg⟩, hw, ho⟩ := heq
      obtain ⟨⟨ha, hpg2⟩, hw2, ho2⟩ := h
      subst ho2 hw2 hpg2 ha ho hw hpg hs hp
      exact ⟨rfl, rfl, res, hget, rfl, rfl⟩

/-- A loop whose every advance moves the page number up, and never beyond
`total`, returns once the fuel exceeds the distance to `total`; it makes at
most one request per page on the way. -/
theorem pageLoop_stops {O A : Type} [ListOptioner O] (fetch : Fetch (History O) O A)
    (app : A → A → A) (page : O → Int) (total : Int)
    (hone : ∀ w o, (fetch w o).2.1.length = w.length + 1)
    (hstep : ∀ w o a pager w1 o1, fetch w o = (.ok (a, pager), w1, o1) →
      pager.HasNextPage = true →
      page o < page (pager.afterNextPage o1) ∧ page (pager.afterNextPage o1) ≤ total)
    (fuel : Nat) (w : History O) (o : O) (acc : A) (hfuel : (total - page o).toNat < fuel) :
    (pageLoop fetch app fuel w o acc).1 ≠ none ∧
      (pageLoop fetch app fuel w o acc).2.1.length
        ≤ w.length + ((total - page o).toNat + 1) := by
  induction fuel generalizing w o acc with
  | zero => omega
  | succ n ih =>
    have h1 := hone w o
    rcases hf : fetch w o with ⟨(err | ⟨a, pager⟩), w1, o1⟩
    · rw [hf] at h1
      simp only at h1
      simp only [pageLoop, hf]
      exact ⟨by simp, by omega⟩
    · rw [hf] at h1
      simp only at h1
      by_cases hn : pager.HasNextPage = true
      · obtain ⟨hlt, hle⟩ := hstep w o a pager w1 o1 hf hn
        have hrec := ih w1 (pager.afterNextPage o1) (app acc a) (by omega)
        simp only [pageLoop, hf, hn, Bool.not_true, Bool.false_eq_true, if_false]
        refine ⟨hrec.1, ?_⟩
        have := hrec.2
        omega
      · have hn2 : pager.HasNextPage = false := by simpa using hn
        simp only [pageLoop, hf, hn2, Bool.not_false, if_true]
        exact ⟨by simp, by omega⟩

/-- Against the stuck server the loop of `ListIncludeSpacesAll` uses up any
fuel. -/
theorem stuckServer_uses_fuel (d : ListOptions) (fuel : Nat) (w : History AppListOptions)
    (o : AppListOptions) (acc : List App × List Space) :
    (pageLoop (stuckServer.fetchIncludeSpaces d) append2 fuel w o acc).1 = none := by
  induction fuel generalizing w o acc with
  | zero => rfl
  | succ n ih =>
    rw [pageLoop]
    exact ih _ _ _

/-- The first sample page links to page 2. -/
theorem samplePage1_afterNextPage (o : AppListOptions) :
    (NewPager samplePage1.Pagination).afterNextPage o = ListOptioner.SetPage o 2 := rfl

/-- The paged server only ever links from page 1 to page 2. -/
theorem pagedServer_advances (h : History AppListOptions) (req : Request AppListOptions)
    (res : AppList) (hget : pagedServer.client.get h req = .ok res)
    (hnext : (NewPager res.Pagination).HasNextPage = true) :
    req.query.ListOptions.Page
        < ((NewPager res.Pagination).afterNextPage req.query).ListOptions.Page ∧
      ((NewPager res.Pagination).afterNextPage req.query).ListOptions.Page ≤ 2 := by
  unfold pagedServer at hget
  dsimp only at hget
  split at hget
  · rename_i hp
    simp only [Except.ok.injEq] at hget
    subst hget
    rw [samplePage1_afterNextPage]
    simp [ListOptioner.SetPage, hp]
  · simp only [Except.ok.injEq] at hget
    subst hget
    exact absurd hnext (by decide)

/-- A loop whose every advance moves the page number up, and never beyond
`total`, has a complete run: at most `total` minus the starting page fetches
that report a next page, and then a fetch that fails or reports none. -/
theorem fetched_run_exists {W O A : Type} [ListOptioner O] (fetch : Fetch W O A)
    (page : O → Int) (total : Int)
    (hstep : ∀ w o a pager w1 o1, fetch w o = (.ok (a, pager), w1, o1) →
      pager.HasNextPage = true →
      page o < page (pager.afterNextPage o1) ∧ page (pager.afterNextPage o1) ≤ total)
    (m : Nat) (w : W) (o : O) (hm : (total - page o).toNat ≤ m) :
    ∃ pages w1 o1, Fetched fetch pages w o w1 o1 ∧ pages.length ≤ m ∧
      ((∃ e w2 o2, fetch w1 o1 = (.error e, w2, o2)) ∨
        (∃ a pager w2 o2, fetch w1 o1 = (.ok (a, pager), w2, o2) ∧
          pager.HasNextPage = false)) := by
  induction m generalizing w o with
  | zero =>
    refine ⟨[], w, o, ⟨rfl, rfl⟩, Nat.le_refl _, ?_⟩
    rcases hf : fetch w o with ⟨(err | ⟨a, pager⟩), w1, o1⟩
    · exact Or.inl ⟨err, w1, o1, rfl⟩
    · by_cases hn : pager.HasNextPage = true
      · obtain ⟨hlt, hle⟩ := hstep w o a pager w1 o1 hf hn
        omega
      · exact Or.inr ⟨a, pager, w1, o1, rfl, by simpa using hn⟩
  | succ n ih =>
    rcases hf : fetch w o with ⟨(err | ⟨a, pager⟩), w1, o1⟩
    · exact ⟨[], w, o, ⟨rfl, rfl⟩, Nat.zero_le _, Or.inl ⟨err, w1, o1, hf⟩⟩
    · by_cases hn : pager.HasNextPage = true
      · obtain ⟨hlt, hle⟩ := hstep w o a pager w1 o1 hf hn
        obtain ⟨pages, w2, o2, hrun, hlen, hend⟩ := ih w1 (pager.afterNextPage o1) (by omega)
        exact ⟨a :: pages, w2, o2, ⟨pager, w1, o1, hf, hn, hrun⟩,
          by simpa using hlen, hend⟩
      · exact ⟨[], w, o, ⟨rfl, rfl⟩, Nat.zero_le _,
          Or.inr ⟨a, pager, w1, o1, hf, by simpa using hn⟩⟩

/-- The links of a well-behaved app server, seen from the loop of
`ListIncludeSpacesAll`. -/
theorem includeSpaces_step (c : AppClient) (d : ListOptions) (total : Int)
    (hserver : ∀ h req res, c.client.get h req = .ok res →
      (NewPager res.Pagination).HasNextPage = true →
      req.query.ListOptions.Page
          < ((NewPager res.Pagination).afterNextPage req.query).ListOptions.Page ∧
        ((NewPager res.Pagination).afterNextPage req.query).ListOptions.Page ≤ total)
    (w : History AppListOptions) (o : AppListOptions) (a : List App × List Space)
    (pager : Pager) (w1 : History AppListOptions) (o1 : AppListOptions)
    (hf : c.fetchIncludeSpaces d w o = (.ok (a, pager), w1, o1))
    (hn : pager.HasNextPage = true) :
    o.ListOptions.Page < (pager.afterNextPage o1).ListOptions.Page ∧
      (pager.afterNextPage o1).ListOptions.Page ≤ total := by
  obtain ⟨ho1, _, res, hget, hpg, _⟩ := fetchIncludeSpaces_ok c d w o a pager w1 o1 hf
  have hs := hserver w ⟨"/v3/apps", o1⟩ res hget (hpg ▸ hn)
  have hpage : o1.ListOptions.Page = o.ListOptions.Page := by rw [ho1]
  rw [hpg]
  simpa only [hpage] using hs

/-- The links of a well-behaved space server, seen from the loop of
`ListIncludeOrgsAll`. -/
theorem includeOrgs_step (c : SpaceClient) (d : ListOptions) (total : Int)
    (hserver : ∀ h req res, c.client.get h req = .ok res →
      (NewPager res.Pagination).HasNextPage = true →
      req.query.ListOptions.Page
          < ((NewPager res.Pagination).afterNextPage req.query).ListOptions.Page ∧
        ((NewPager res.Pagination).afterNextPage req.query).ListOptions.Page ≤ total)
    (w : History SpaceListOptions) (o : SpaceListOptions) (a : List Space × List Organization)
    (pager : Pager) (w1 : History SpaceListOptions) (o1 : SpaceListOptions)
    (hf : c.fetchIncludeOrgs d w o = (.ok (a, pager), w1, o1))
    (hn : pager.HasNextPage = true) :
    o.ListOptions.Page < (pager.afterNextPage o1).ListOptions.Page ∧
      (pager.afterNextPage o1).ListOptions.Page ≤ total := by
  obtain ⟨ho1, _, res, hget, hpg, _⟩ := fetchIncludeOrgs_ok c d w o a pager w1 o1 hf
  have hs := hserver w ⟨"/v3/spaces", o1⟩ res hget (hpg ▸ hn)
  have hpage : o1.ListOptions.Page = o.ListOptions.Page := by rw [ho1]
  rw [hpg]
  simpa only [hpage] using hs

/-- C5, as the code has it: the list-all loops carry no bound of their own,
and they stop when the server's links let them. If every next-page link the
server sends moves the page number strictly up and never beyond `total`, then
`ListIncludeSpacesAll` and `ListIncludeOrgsAll` return as soon as the fuel
exceeds `total` minus the starting page, after at most that many requests
plus one: one fetch per page, each with a next page, up to a last fetch that
fails or is the first to report no next page. -/
theorem listAll_loop_stops_when_links_advance :
    (∀ (c : AppClient) (d : ListOptions) (total : Int) (w : History AppListOptions)
        (o : AppListOptions) (fuel : Nat),
        (∀ h req res, c.client.get h req = .ok res →
          (NewPager res.Pagination).HasNextPage = true →
          req.query.ListOptions.Page
              < ((NewPager res.Pagination).afterNextPage req.query).ListOptions.Page ∧
            ((NewPager res.Pagination).afterNextPage req.query).ListOptions.Page ≤ total) →
        (total - o.ListOptions.Page).toNat < fuel →
        (c.ListIncludeSpacesAll d fuel w (some o)).1 ≠ none ∧
          (c.ListIncludeSpacesAll d fuel w (some o)).2.1.length
            ≤ w.length + ((total - o.ListOptions.Page).toNat + 1) ∧
          ∃ pages w1 o1, Fetched (c.fetchIncludeSpaces d) pages w o w1 o1 ∧
            pages.length ≤ (total - o.ListOptions.Page).toNat ∧
            ((∃ e w2 o2, c.fetchIncludeSpaces d w1 o1 = (.error e, w2, o2)) ∨
              (∃ a pager w2 o2, c.fetchIncludeSpaces d w1 o1 = (.ok (a, pager), w2, o2) ∧
                pager.HasNextPage = false))) ∧
    (∀ (c : SpaceClient) (d : ListOptions) (total : Int) (w : History SpaceListOptions)
        (o : SpaceListOptions) (fuel : Nat),
        (∀ h req res, c.client.get h req = .ok res →
          (NewPager res.Pagination).HasNextPage = true →
          req.query.ListOptions.Page
              < ((NewPager res.Pagination).afterNextPage req.query).ListOptions.Page ∧
            ((NewPager res.Pagination).afterNextPage req.query).ListOptions.Page ≤ total) →
        (total - o.ListOptions.Page).toNat < fuel →
        (c.ListIncludeOrgsAll d fuel w (some o)).1 ≠ none ∧
          (c.ListIncludeOrgsAll d fuel w (some o)).2.1.length
            ≤ w.length + ((total - o.ListOptions.Page).toNat + 1) ∧
          ∃ pages w1 o1, Fetched (c.fetchIncludeOrgs d) pages w o w1 o1 ∧
            pages.length ≤ (total - o.ListOptions.Page).toNat ∧
            ((∃ e w2 o2, c.fetchIncludeOrgs d w1 o1 = (.error e, w2, o2)) ∨
              (∃ a pager w2 o2, c.fetchIncludeOrgs d w1 o1 = (.ok (a, pager), w2, o2) ∧
                pager.HasNextPage = false))) := by
  constructor
  · intro c d total w o fuel hserver hfuel
    have hstops := pageLoop_stops (c.fetchIncludeSpaces d) append2
      (fun x => x.ListOptions.Page) total (fetchIncludeSpaces_history c d)
      (includeSpaces_step c d total hserver) fuel w o ([], []) hfuel
    have hrun := fetched_run_exists (c.fetchIncludeSpaces d) (fun x => x.ListOptions.Page)
      total (includeSpaces_step c d total hserver) _ w o (Nat.le_refl _)
    simp only [AppClient.ListIncludeSpacesAll, includeSpacesAll_loop_eq_pageLoop]
    exact ⟨hstops.1, hstops.2, hrun⟩
  · intro c d total w o fuel hserver hfuel
    have hstops := pageLoop_stops (c.fetchIncludeOrgs d) append2
      (fun x => x.ListOptions.Page) total (fetchIncludeOrgs_history c d)
      (includeOrgs_step c d total hserver) fuel w o ([], []) hfuel
    have hrun := fetched_run_exists (c.fetchIncludeOrgs d) (fun x => x.ListOptions.Page)
      total (includeOrgs_step c d total hserver) _ w o (Nat.le_refl _)
    simp only [SpaceClient.ListIncludeOrgsAll, includeOrgsAll_loop_eq_pageLoop]
    exact ⟨hstops.1, hstops.2, hrun⟩

/-- C5 as amended, on the sample collection of two pages: started on page 1,
`ListIncludeSpacesAll` returns with fuel 2, after at most two requests. -/
theorem listAll_loop_stops_when_links_advance_witness :
    (pagedServer.ListIncludeSpacesAll samplePaging 2 []
        (some (NewAppListOptions samplePaging))).1 ≠ none ∧
      (pagedServer.ListIncludeSpacesAll samplePaging 2 []
        (some (NewAppListOptions samplePaging))).2.1.length ≤ 2 :=
  have h := listAll_loop_stops_when_links_advance.1 pagedServer samplePaging 2 []
    (NewAppListOptions samplePaging) 2 pagedServer_advances (by decide)
  ⟨h.1, h.2.1⟩

/-- C5 as stated fails: against a server whose every answer links to page 1,
`ListIncludeSpacesAll` returns for no amount of fuel, and the advance on such
a link leaves the page number of options on page 1 where it was. -/
theorem listAll_loop_need_not_stop :
    (¬ ∃ fuel, (stuckServer.ListIncludeSpacesAll samplePaging fuel [] none).1 ≠ none) ∧
      ¬ ((NewAppListOptions samplePaging).ListOptions.Page
          < ((NewPager ⟨4, 2, some "https://api.example.org/v3/apps?page=1&per_page=2",
              none⟩).afterNextPage (NewAppListOptions samplePaging)).ListOptions.Page) := by
  constructor
  · rintro ⟨fuel, h⟩
    apply h
    simp only [AppClient.ListIncludeSpacesAll, includeSpacesAll_loop_eq_pageLoop]
    exact stuckServer_uses_fuel samplePaging fuel [] _ _
  · decide

/-- C6: for every pagination snapshot, `HasNextPage` is false exactly when the
snapshot's next-page link is empty (absent, or blank), and true otherwise. -/
theorem hasNextPage_false_iff_link_empty (pagination : Pagination) :
    ((NewPager pagination).HasNextPage = false
        ↔ (pagination.Next = none ∨ pagination.Next = some "")) ∧
      ((NewPager pagination).HasNextPage = true
        ↔ ¬ (pagination.Next = none ∨ pagination.Next = some "")) := by
  unfold Pager.HasNextPage NewPager
  cases h : pagination.Next with
  | none => simp
  | some href => simp

/-! ## Frame of the advance -/

/-- The three outcomes of `NextPage`: nothing to do, a page number assigned,
or a malformed link. -/
theorem nextPage_cases {O : Type} [ListOptioner O] (p : Pager) (o : O) :
    p.NextPage o = .ok o ∨ (∃ n, p.NextPage o = .ok (ListOptioner.SetPage o n)) ∨
      p.NextPage o = .error Error.MalformedPaginationLink := by
  unfold Pager.NextPage
  cases p.pagination.Next with
  | none => exact Or.inl rfl
  | some href =>
    dsimp only
    by_cases hh : href = ""
    · simp [hh]
    · simp only [hh, if_false]
      rcases h1 : queryParam "page" href with _ | v
      · exact Or.inr (Or.inr rfl)
      · rcases h2 : parseInt v with _ | n
        · exact Or.inr (Or.inr (by simp only [h2]))
        · exact Or.inr (Or.inl ⟨n, by simp only [h2]⟩)

/-- The advance of app options changes nothing but the page number. -/
theorem afterNextPage_app_frame (p : Pager) (o : AppListOptions) :
    p.afterNextPage o
      = { o with ListOptions := { o.ListOptions with Page := (p.afterNextPage o).ListOptions.Page } } := by
  unfold Pager.afterNextPage
  rcases nextPage_cases p o with h | ⟨n, h⟩ | h <;> (rw [h]; try rfl)

/-- The world and the options a fetch of `ListIncludeSpacesAll` leaves. -/
theorem fetchIncludeSpaces_world (c : AppClient) (d : ListOptions)
    (w : History AppListOptions) (o : AppListOptions) :
    (c.fetchIncludeSpaces d w o).2
      = (w ++ [⟨"/v3/apps", { o with Include := AppIncludeType.AppIncludeSpace }⟩],
          { o with Include := AppIncludeType.AppIncludeSpace }) := by
  unfold AppClient.fetchIncludeSpaces AppClient.ListIncludeSpaces
  dsimp only
  cases c.client.get w ⟨"/v3/apps", { o with Include := AppIncludeType.AppIncludeSpace }⟩ <;> rfl

/-- Every request of the loop of `ListIncludeSpacesAll` carries the filters
the loop was entered with, and asks for the spaces to be included. -/
theorem includeSpaces_loop_requests (c : AppClient) (d : ListOptions) (fuel : Nat)
    (w : History AppListOptions) (o : AppListOptions) (acc : List App × List Space) :
    ∃ made, (pageLoop (c.fetchIncludeSpaces d) append2 fuel w o acc).2.1 = w ++ made ∧
      ∀ req ∈ made, req.query.filters = o.filters ∧
        req.query.ListOptions.PerPage = o.ListOptions.PerPage ∧
        req.query.ListOptions.OrderBy = o.ListOptions.OrderBy ∧
        req.query.Include = AppIncludeType.AppIncludeSpace := by
  induction fuel generalizing w o acc with
  | zero => exact ⟨[], by simp [pageLoop], by simp⟩
  | succ n ih =>
    have hhist := congrArg Prod.fst (fetchIncludeSpaces_world c d w o)
    rcases hf : c.fetchIncludeSpaces d w o with ⟨(err | ⟨a, pager⟩), w1, o1⟩
    · rw [hf] at hhist
      simp only at hhist
      refine ⟨[⟨"/v3/apps", { o with Include := AppIncludeType.AppIncludeSpace }⟩], ?_, ?_⟩
      · simp only [pageLoop, hf, hhist]
      · intro req hreq
        simp only [List.mem_singleton] at hreq
        subst hreq
        exact ⟨rfl, rfl, rfl, rfl⟩
    · obtain ⟨ho1, hw1, _⟩ := fetchIncludeSpaces_ok c d w o a pager w1 o1 hf
      by_cases hn : pager.HasNextPage = true
      · obtain ⟨made, hmade, hall⟩ := ih w1 (pager.afterNextPage o1) (append2 acc a)
        refine ⟨⟨"/v3/apps", o1⟩ :: made, ?_, ?_⟩
        · rw [pageLoop]
          simp only [hf, hn, Bool.not_true, Bool.false_eq_true, if_false]
          rw [hmade, hw1, List.append_assoc, List.singleton_append]
        · intro req hreq
          rcases List.mem_cons.mp hreq with h | h
          · subst h
            rw [ho1]
            exact ⟨rfl, rfl, rfl, rfl⟩
          · have hq := hall req h
            rw [afterNextPage_app_frame pager o1, ho1] at hq
            exact hq
      · have hn2 : pager.HasNextPage = false := by simpa using hn
        refine ⟨[⟨"/v3/apps", o1⟩], ?_, ?_⟩
        · simp only [pageLoop, hf, hn2, Bool.not_false, if_true, hw1]
        · intro req hreq
          simp only [List.mem_singleton] at hreq
          subst hreq
          rw [ho1]
          exact ⟨rfl, rfl, rfl, rfl⟩

/-- C8: advancing to the next page changes only the page number of the
options, and so every page of a list-all run is asked for with the same
filters. For every server, every options value and every fuel, each request
`ListIncludeSpacesAll` makes carries the `GUIDs`, `Names`,
`OrganizationGUIDs`, `SpaceGUIDs`, `Stacks` and `LifecycleType` of the options
it was called with, and the same page size and ordering. -/
theorem advancing_keeps_filters :
    (∀ (p : Pager) (o r : AppListOptions), p.NextPage o = .ok r →
        r = { o with ListOptions := { o.ListOptions with Page := r.ListOptions.Page } }) ∧
    (∀ (c : AppClient) (d : ListOptions) (fuel : Nat) (w : History AppListOptions)
        (o : AppListOptions),
        ∃ made, (c.ListIncludeSpacesAll d fuel w (some o)).2.1 = w ++ made ∧
          ∀ req ∈ made, req.query.filters = o.filters ∧
            req.query.ListOptions.PerPage = o.ListOptions.PerPage ∧
            req.query.ListOptions.OrderBy = o.ListOptions.OrderBy) := by
  constructor
  · intro p o r h
    have hadv : p.afterNextPage o = r := by simp [Pager.afterNextPage, h]
    rw [← hadv]
    exact afterNextPage_app_frame p o
  · intro c d fuel w o
    obtain ⟨made, hmade, hall⟩ := includeSpaces_loop_requests c d fuel w o ([], [])
    refine ⟨made, ?_, fun req hreq => ⟨(hall req hreq).1, (hall req hreq).2.1,
      (hall req hreq).2.2.1⟩⟩
    simpa only [AppClient.ListIncludeSpacesAll, includeSpacesAll_loop_eq_pageLoop] using hmade

/-- C8, on the first page of the sample collection: the advance moves options
that filter by name to page 2 and leaves the filter in place. -/
theorem advancing_keeps_filters_witness :
    (NewPager samplePage1.Pagination).NextPage
        { NewAppListOptions samplePaging with Names := ⟨["one"]⟩ }
      = .ok { NewAppListOptions samplePaging with
          Names := ⟨["one"]⟩, ListOptions := ⟨2, 50, ""⟩ } ∧
    ({ NewAppListOptions samplePaging with
        Names := ⟨["one"]⟩, ListOptions := ⟨2, 50, ""⟩ } : AppListOptions)
      = { ({ NewAppListOptions samplePaging with Names := ⟨["one"]⟩ } : AppListOptions) with
          ListOptions := ⟨2, 50, ""⟩ } :=
  ⟨rfl, advancing_keeps_filters.1 (NewPager samplePage1.Pagination)
    { NewAppListOptions samplePaging with Names := ⟨["one"]⟩ }
    { NewAppListOptions samplePaging with Names := ⟨["one"]⟩, ListOptions := ⟨2, 50, ""⟩ }
    rfl⟩

/-- C9: `Single`, as `SpaceClient.Single` binds it to `List`, returns
`NotFound` when the list yields no match, the element when it yields exactly
one, and `AmbiguousResult` when it yields two or more; an error of the list is
passed on, and an element is returned in the exactly-one case only. -/
theorem single_returns_the_only_match (c : SpaceClient) (d : ListOptions)
    (w : History SpaceListOptions) (opts : Option SpaceListOptions) :
    (∀ pager w1 o1, c.List d w opts = (.ok ([], pager), w1, o1) →
        c.Single d w opts = (.error Error.NotFound, w1, o1)) ∧
    (∀ x pager w1 o1, c.List d w opts = (.ok ([x], pager), w1, o1) →
        c.Single d w opts = (.ok x, w1, o1)) ∧
    (∀ x y rest pager w1 o1, c.List d w opts = (.ok (x :: y :: rest, pager), w1, o1) →
        c.Single d w opts = (.error Error.AmbiguousResult, w1, o1)) ∧
    (∀ e w1 o1, c.List d w opts = (.error e, w1, o1) →
        c.Single d w opts = (.error e, w1, o1)) ∧
    (∀ x w1 o1, c.Single d w opts = (.ok x, w1, o1) →
        ∃ pager, c.List d w opts = (.ok ([x], pager), w1, o1)) := by
  refine ⟨?_, ?_, ?_, ?_, ?_⟩
  · intro pager w1 o1 h
    simp [SpaceClient.Single, Single, h]
  · intro x pager w1 o1 h
    simp [SpaceClient.Single, Single, h]
  · intro x y rest pager w1 o1 h
    simp [SpaceClient.Single, Single, h]
  · intro e w1 o1 h
    simp [SpaceClient.Single, Single, h]
  · intro x w1 o1 h
    rcases hl : c.List d w opts with ⟨(err | ⟨rs, pager⟩), wl, ol⟩
    · simp [SpaceClient.Single, Single, hl] at h
    · match rs, hl with
      | [], hl => simp [SpaceClient.Single, Single, hl] at h
      | [r], hl =>
        simp [SpaceClient.Single, Single, hl] at h
        obtain ⟨hx, hw, ho⟩ := h
        subst hx hw ho
        exact ⟨pager, rfl⟩
      | _ :: _ :: _, hl => simp [SpaceClient.Single, Single, hl] at h

/-- C9, on three space servers: no space, one space, two spaces. -/
theorem single_returns_the_only_match_witness :
    ((spaceServer []).Single samplePaging [] none).1 = .error Error.NotFound ∧
      ((spaceServer [⟨"space-1", "dev"⟩]).Single samplePaging [] none).1
        = .ok ⟨"space-1", "dev"⟩ ∧
      ((spaceServer [⟨"space-1", "dev"⟩, ⟨"space-2", "dev"⟩]).Single samplePaging [] none).1
        = .error Error.AmbiguousResult :=
  ⟨congrArg Prod.fst
      ((single_returns_the_only_match (spaceServer []) samplePaging [] none).1 _ _ _ rfl),
    congrArg Prod.fst
      ((single_returns_the_only_match (spaceServer [⟨"space-1", "dev"⟩]) samplePaging []
        none).2.1 _ _ _ _ rfl),
    congrArg Prod.fst
      ((single_returns_the_only_match
        (spaceServer [⟨"space-1", "dev"⟩, ⟨"space-2", "dev"⟩]) samplePaging []
        none).2.2.1 _ _ _ _ _ _ rfl)⟩

/-! ## The link parser -/

/-- The query of a link that has its first `?` after `base`. -/
theorem queryOf_append (base q : List Char) (h : '?' ∉ base) :
    queryOf (base ++ '?' :: q) = q := by
  induction base with
  | nil => rfl
  | cons c cs ih =>
    have hc : c ≠ '?' := fun hc => h (by simp [hc])
    have hcs : '?' ∉ cs := fun hcs => h (by simp [hcs])
    have := ih hcs
    unfold queryOf at *
    simpa [List.dropWhile, hc] using this

/-- A text without `&` is one item. -/
theorem splitOn_amp_single (v : List Char) (h : '&' ∉ v) : splitOn '&' v = [v] := by
  induction v with
  | nil => rfl
  | cons c cs ih =>
    have hc : c ≠ '&' := fun hc => h (by simp [hc])
    have hcs : '&' ∉ cs := fun hcs => h (by simp [hcs])
    simp [splitOn, hc, ih hcs]

/-- A text without `&` in front of an `&` is the first item. -/
theorem splitOn_amp_cons (v rest : List Char) (h : '&' ∉ v) :
    splitOn '&' (v ++ '&' :: rest) = v :: splitOn '&' rest := by
  induction v with
  | nil => simp [splitOn]
  | cons c cs ih =>
    have hc : c ≠ '&' := fun hc => h (by simp [hc])
    have hcs : '&' ∉ cs := fun hcs => h (by simp [hcs])
    simp [splitOn, hc, ih hcs]

/-- The `page` parameter of a link whose query starts with it and goes on with
other parameters. -/
theorem queryParam_page_first (base v rest : List Char) (hb : '?' ∉ base) (hv : '&' ∉ v) :
    queryParam "page" (String.mk (base ++ "?page=".toList ++ v ++ '&' :: rest)) = some v := by
  have hq : queryOf (base ++ "?page=".toList ++ v ++ '&' :: rest)
      = ("page=".toList ++ v) ++ '&' :: rest := by
    have := queryOf_append base ("page=".toList ++ v ++ '&' :: rest) hb
    simpa using this
  have hv2 : '&' ∉ "page=".toList ++ v := by
    intro hm
    rcases List.mem_append.mp hm with h | h
    · exact absurd h (by decide)
    · exact hv h
  unfold queryParam
  show (((splitOn '&' (queryOf (base ++ "?page=".toList ++ v ++ '&' :: rest))).map keyValue).find?
    (fun kv => kv.1 = "page".toList)).map Prod.snd = some v
  rw [hq, splitOn_amp_cons _ _ hv2]
  rfl

/-- The `page` parameter of a link whose query is the `page` parameter. -/
theorem queryParam_page_only (base v : List Char) (hb : '?' ∉ base) (hv : '&' ∉ v) :
    queryParam "page" (String.mk (base ++ "?page=".toList ++ v)) = some v := by
  have hq : queryOf (base ++ "?page=".toList ++ v) = "page=".toList ++ v := by
    have := queryOf_append base ("page=".toList ++ v) hb
    simpa using this
  have hv2 : '&' ∉ "page=".toList ++ v := by
    intro hm
    rcases List.mem_append.mp hm with h | h
    · exact absurd h (by decide)
    · exact hv h
  unfold queryParam
  show (((splitOn '&' (queryOf (base ++ "?page=".toList ++ v))).map keyValue).find?
    (fun kv => kv.1 = "page".toList)).map Prod.snd = some v
  rw [hq, splitOn_amp_single _ hv2]
  rfl

/-- A link without `?` has no `page` parameter. -/
theorem queryParam_no_query (link : String) (h : '?' ∉ link.toList) :
    queryParam "page" link = none := by
  have hq : queryOf link.toList = [] := by
    unfold queryOf
    have : link.toList.dropWhile (fun c => decide (c ≠ '?')) = [] := by
      rw [List.dropWhile_eq_nil_iff]
      intro c hc
      have : c ≠ '?' := fun hcq => h (hcq ▸ hc)
      simpa using this
    rw [this]
    rfl
  unfold queryParam
  rw [hq]
  rfl
/-- Once the parse has failed it stays failed. -/
theorem parseDigit_fold_none (ds : List Char) : ds.foldl parseDigit none = none := by
  induction ds with
  | nil => rfl
  | cons c cs ih => simpa [parseDigit] using ih

/-- A text that parses holds digits only. -/
theorem parseDigit_fold_digits (ds : List Char) (a r : Nat)
    (h : ds.foldl parseDigit (some a) = some r) : ∀ c ∈ ds, c.isDigit = true := by
  induction ds generalizing a with
  | nil => simp
  | cons c cs ih =>
    by_cases hc : c.isDigit = true
    · simp only [List.foldl_cons, parseDigit, hc, if_true] at h
      intro x hx
      rcases List.mem_cons.mp hx with hx | hx
      · exact hx ▸ hc
      · exact ih _ h x hx
    · have hstep : parseDigit (some a) c = none := by simp [parseDigit, hc]
      rw [List.foldl_cons, hstep, parseDigit_fold_none] at h
      exact absurd h (by simp)

/-- The decimal digit characters and their values. -/
theorem digitChar_value : ∀ m, m < 10 →
    (Nat.digitChar m).isDigit = true ∧ (Nat.digitChar m).toNat - 48 = m := by
  decide

/-- Parsing the digits `toDigitsCore` puts in front of `ds` amounts to starting
the parse of `ds` at the number. -/
theorem parseDigit_fold_toDigitsCore (fuel n : Nat) (hfuel : n < fuel) (ds : List Char) :
    (Nat.toDigitsCore 10 fuel n ds).foldl parseDigit (some 0)
      = ds.foldl parseDigit (some n) := by
  induction fuel generalizing n ds with
  | zero => omega
  | succ f ih =>
    obtain ⟨hd, hv⟩ := digitChar_value (n % 10) (Nat.mod_lt _ (by decide))
    have hstep : ∀ a, parseDigit (some a) (Nat.digitChar (n % 10)) = some (a * 10 + n % 10) := by
      intro a
      simp [parseDigit, hd, hv]
    by_cases h0 : n / 10 = 0
    · have hn : n % 10 = n := by omega
      simp only [Nat.toDigitsCore, h0, if_true, List.foldl_cons, hstep]
      simp [hn]
    · simp only [Nat.toDigitsCore, h0, if_false]
      rw [ih (n / 10) (by omega) (Nat.digitChar (n % 10) :: ds), List.foldl_cons, hstep]
      have : n / 10 * 10 + n % 10 = n := by omega
      rw [this]

/-- The digits of a number are not empty. -/
theorem toDigitsCore_ne_nil (fuel n : Nat) (ds : List Char) (h : ds ≠ [] ∨ 0 < fuel) :
    Nat.toDigitsCore 10 fuel n ds ≠ [] := by
  induction fuel generalizing n ds with
  | zero =>
    rcases h with h | h
    · simpa [Nat.toDigitsCore] using h
    · omega
  | succ f ih =>
    by_cases h0 : n / 10 = 0
    · simp [Nat.toDigitsCore, h0]
    · simp only [Nat.toDigitsCore, h0, if_false]
      exact ih _ _ (Or.inl (by simp))

/-- Parsing the decimal text of a number gives the number back. -/
theorem parseNat_toString (n : Nat) : parseNat (toString n).toList = some n := by
  have hl : (toString n).toList = Nat.toDigitsCore 10 (n + 1) n [] := rfl
  rw [hl]
  unfold parseNat
  rw [if_neg (toDigitsCore_ne_nil _ _ _ (Or.inr (by omega))),
    parseDigit_fold_toDigitsCore (n + 1) n (by omega) []]
  rfl

/-- The decimal text of a number holds digits only. -/
theorem toString_digits (n : Nat) : ∀ c ∈ (toString n).toList, c.isDigit = true := by
  have h := parseNat_toString n
  unfold parseNat at h
  split at h
  · exact absurd h (by simp)
  · exact parseDigit_fold_digits _ 0 n h

/-- Parsing the decimal text of a number as an integer gives the number. -/
theorem parseInt_toString (n : Nat) : parseInt (toString n).toList = some (n : Int) := by
  have hd := toString_digits n
  have hp := parseNat_toString n
  rcases hs : (toString n).toList with _ | ⟨c, cs⟩
  · rw [hs] at hp
    exact absurd hp (by simp [parseNat])
  · rw [hs] at hp hd
    have hc : c.isDigit = true := hd c (by simp)
    have h1 : c ≠ '-' := fun h => by rw [h] at hc; exact absurd hc (by decide)
    have h2 : c ≠ '+' := fun h => by rw [h] at hc; exact absurd hc (by decide)
    unfold parseInt
    split
    · rename_i heq
      exact absurd (List.cons.inj heq).1 h1
    · rename_i heq
      exact absurd (List.cons.inj heq).1 h2
    · rw [hp]
      rfl

/-- The characters of a link of the shape `base?page=v&rest`. -/
theorem link_toList (base v rest : String) :
    (base ++ "?page=" ++ v ++ "&" ++ rest)
      = String.mk (base.toList ++ "?page=".toList ++ v.toList ++ '&' :: rest.toList) := by
  apply String.ext
  simp [String.toList]

/-- C7: the advance (`NextPage`) takes the `page` query parameter of the
next-page link and assigns it to the options' page. For every link of the
shape `base?page=n&per_page=m`, such as `.../resources?page=3&per_page=50`,
the options' page becomes `n`; in general the page becomes the integer the
parameter's text denotes. A next-page link whose `page` parameter is missing,
as in a link without query, or is not numeric yields
`MalformedPaginationLink`. -/
theorem nextPage_sets_page_from_link :
    (∀ (opts : AppListOptions) (pagination : Pagination) (base : String) (n m : Nat),
        '?' ∉ base.toList →
        pagination.Next = some (base ++ "?page=" ++ toString n ++ "&" ++ ("per_page=" ++ toString m)) →
        (NewPager pagination).NextPage opts
          = .ok { opts with ListOptions := { opts.ListOptions with Page := n } }) ∧
    (∀ (O : Type) [ListOptioner O] (opts : O) (pagination : Pagination) (href : String)
        (v : List Char) (n : Int),
        pagination.Next = some href → href ≠ "" →
        queryParam "page" href = some v → parseInt v = some n →
        (NewPager pagination).NextPage opts = .ok (ListOptioner.SetPage opts n)) ∧
    (∀ (O : Type) [ListOptioner O] (opts : O) (pagination : Pagination) (href : String),
        pagination.Next = some href → href ≠ "" →
        queryParam "page" href = none →
        (NewPager pagination).NextPage opts = .error Error.MalformedPaginationLink) ∧
    (∀ (O : Type) [ListOptioner O] (opts : O) (pagination : Pagination) (href : String)
        (v : List Char),
        pagination.Next = some href → href ≠ "" →
        queryParam "page" href = some v → parseInt v = none →
        (NewPager pagination).NextPage opts = .error Error.MalformedPaginationLink) ∧
    (∀ (O : Type) [ListOptioner O] (opts : O) (pagination : Pagination) (href : String),
        pagination.Next = some href → href ≠ "" → '?' ∉ href.toList →
        (NewPager pagination).NextPage opts = .error Error.MalformedPaginationLink) ∧
    (∀ (O : Type) [ListOptioner O] (opts : O) (pagination : Pagination) (base v rest : String),
        '?' ∉ base.toList → '&' ∉ v.toList → parseInt v.toList = none →
        pagination.Next = some (base ++ "?page=" ++ v ++ "&" ++ rest) →
        (NewPager pagination).NextPage opts = .error Error.MalformedPaginationLink) := by
  have hne : ∀ base v rest : String, base ++ "?page=" ++ v ++ "&" ++ rest ≠ "" := by
    intro base v rest h
    have := congrArg String.toList h
    rw [link_toList] at this
    simp [String.toList] at this
  refine ⟨?_, ?_, ?_, ?_, ?_, ?_⟩
  · intro opts pagination base n m hb hnext
    have hamp : '&' ∉ (toString n).toList := fun hm =>
      absurd (toString_digits n _ hm) (by decide)
    have hq := queryParam_page_first base.toList (toString n).toList
      ("per_page=" ++ toString m).toList hb hamp
    rw [← link_toList] at hq
    simp only [Pager.NextPage, NewPager, hnext, hne, if_false, hq, parseInt_toString]
    rfl
  · intro O _ opts pagination href v n hnext hne2 hq hp
    simp only [Pager.NextPage, NewPager, hnext, hne2, if_false, hq, hp]
  · intro O _ opts pagination href hnext hne2 hq
    simp only [Pager.NextPage, NewPager, hnext, hne2, if_false, hq]
  · intro O _ opts pagination href v hnext hne2 hq hp
    simp only [Pager.NextPage, NewPager, hnext, hne2, if_false, hq, hp]
  · intro O _ opts pagination href hnext hne2 hq
    simp only [Pager.NextPage, NewPager, hnext, hne2, if_false, queryParam_no_query href hq]
  · intro O _ opts pagination base v rest hb hv hp hnext
    have hq := queryParam_page_first base.toList v.toList rest.toList hb hv
    rw [← link_toList] at hq
    simp only [Pager.NextPage, NewPager, hnext, hne, if_false, hq, hp]

/-- C7, on the link of the spec's example: the options' page becomes 3. -/
theorem nextPage_sets_page_from_link_witness :
    (NewPager ⟨120, 3, some "https://api.example.org/v3/resources?page=3&per_page=50",
        none⟩).NextPage (NewAppListOptions samplePaging)
      = .ok { NewAppListOptions samplePaging with ListOptions := ⟨3, 50, ""⟩ } :=
  nextPage_sets_page_from_link.1 (NewAppListOptions samplePaging)
    ⟨120, 3, some "https://api.example.org/v3/resources?page=3&per_page=50", none⟩
    "https://api.example.org/v3/resources" 3 50 (by decide) (by decide)

/-- A filter is encoded, with its values joined by commas, exactly when it
holds a value. -/
theorem render_filter (values : List String) (v : String) :
    FieldValue.render (.filter values) = some v
      ↔ values ≠ [] ∧ v = String.intercalate "," values := by
  cases values with
  | nil => simp [FieldValue.render]
  | cons a rest => simp [FieldValue.render, eq_comm]

/-- A key is in the encoding with a value exactly when a field tagged with the
key renders to that value. -/
theorem mem_toQueryString (lo : ListOptions) (tagged : List (String × FieldValue))
    (k v : String) :
    (k, v) ∈ lo.ToQueryString tagged ↔ ∃ fv, (k, fv) ∈ tagged ∧ fv.render = some v := by
  simp only [ListOptions.ToQueryString, List.mem_filterMap, Option.map_eq_some']
  constructor
  · rintro ⟨⟨k1, fv⟩, hmem, s, hs, heq⟩
    simp only [Prod.mk.injEq] at heq
    obtain ⟨rfl, rfl⟩ := heq
    exact ⟨fv, hmem, hs⟩
  · rintro ⟨fv, hmem, hs⟩
    exact ⟨(k, fv), hmem, v, hs, rfl⟩

/-- C10: the query encoder puts a multi-valued filter under the field's
tagged name with its values joined by commas, and leaves out every filter that
holds no values. For app and space options alike, the key of a filter is in
the encoding exactly when the filter holds a value, and then with the joined
values; options with names `a`, `b` and no guids encode to `names=a,b`. -/
theorem toQueryString_joins_and_omits :
    (∀ (includeName : AppIncludeType → String) (o : AppListOptions) (v : String),
        (("guids", v) ∈ o.ToQueryString includeName
          ↔ o.GUIDs.Values ≠ [] ∧ v = String.intercalate "," o.GUIDs.Values) ∧
        (("names", v) ∈ o.ToQueryString includeName
          ↔ o.Names.Values ≠ [] ∧ v = String.intercalate "," o.Names.Values) ∧
        (("organization_guids", v) ∈ o.ToQueryString includeName
          ↔ o.OrganizationGUIDs.Values ≠ [] ∧
            v = String.intercalate "," o.OrganizationGUIDs.Values) ∧
        (("space_guids", v) ∈ o.ToQueryString includeName
          ↔ o.SpaceGUIDs.Values ≠ [] ∧ v = String.intercalate "," o.SpaceGUIDs.Values) ∧
        (("stacks", v) ∈ o.ToQueryString includeName
          ↔ o.Stacks.Values ≠ [] ∧ v = String.intercalate "," o.Stacks.Values)) ∧
    (∀ (o : SpaceListOptions) (v : String),
        (("guids", v) ∈ o.ToQueryString
          ↔ o.GUIDs.Values ≠ [] ∧ v = String.intercalate "," o.GUIDs.Values) ∧
        (("names", v) ∈ o.ToQueryString
          ↔ o.Names.Values ≠ [] ∧ v = String.intercalate "," o.Names.Values) ∧
        (("organization_guids", v) ∈ o.ToQueryString
          ↔ o.OrganizationGUIDs.Values ≠ [] ∧
            v = String.intercalate "," o.OrganizationGUIDs.Values)) ∧
    encodeQuery (SpaceListOptions.ToQueryString
      { ListOptions := ⟨0, 0, ""⟩, GUIDs := ⟨[]⟩, Names := ⟨["a", "b"]⟩,
        OrganizationGUIDs := ⟨[]⟩, Include := SpaceIncludeType.SpaceIncludeNone })
      = "names=a,b" ∧
    (∀ includeName : AppIncludeType → String,
      encodeQuery (AppListOptions.ToQueryString includeName
        { ListOptions := ⟨0, 0, ""⟩, GUIDs := ⟨[]⟩, Names := ⟨["a", "b"]⟩,
          OrganizationGUIDs := ⟨[]⟩, SpaceGUIDs := ⟨[]⟩, Stacks := ⟨[]⟩, LifecycleType := "",
          Include := AppIncludeType.AppIncludeNone })
        = if includeName AppIncludeType.AppIncludeNone = "" then "names=a,b"
          else "names=a,b&include=" ++ includeName AppIncludeType.AppIncludeNone) := by
  refine ⟨?_, ?_, by decide, ?_⟩
  · intro includeName o v
    simp only [AppListOptions.ToQueryString, mem_toQueryString]
    simp [AppListOptions.tagged, ListOptions.tagged, render_filter]
  · intro o v
    simp only [SpaceListOptions.ToQueryString, mem_toQueryString]
    simp [SpaceListOptions.tagged, ListOptions.tagged, render_filter]
  · intro includeName
    by_cases h : includeName AppIncludeType.AppIncludeNone = ""
    · simp [h, AppListOptions.ToQueryString, ListOptions.ToQueryString, AppListOptions.tagged,
        ListOptions.tagged, FieldValue.render, encodeQuery]
      decide
    · simp [h, AppListOptions.ToQueryString, ListOptions.ToQueryString, AppListOptions.tagged,
        ListOptions.tagged, FieldValue.render, encodeQuery]
      apply String.ext
      simp [String.intercalate, String.intercalate.go]

/-! ## Poller: what a run returns -/

theorem stateAfter_reads {S : Type} (cfg : PollConfig S) (env : PollEnv S) (k : Nat) :
    (stateAfter cfg env k).reads = k := by
  induction k with
  | zero => rfl
  | succ k ih => simp [stateAfter, PollState.afterRead, PollState.tick, ih]

theorem stateAfter_waited {S : Type} (cfg : PollConfig S) (env : PollEnv S) (k : Nat) :
    (stateAfter cfg env k).waited = waits cfg k := by
  induction k with
  | zero => simp [stateAfter, PollState.start, waits]
  | succ k ih =>
    have hr := stateAfter_reads cfg env k
    simp only [stateAfter, PollState.afterRead, PollState.tick, ih, hr, waits]
    cases cfg.immediate <;> cases k <;> simp [Nat.succ_mul]

theorem stateAfter_elapsed {S : Type} (cfg : PollConfig S) (env : PollEnv S) (k : Nat) :
    (stateAfter cfg env k).elapsed = waits cfg k + readTimes env k := by
  induction k with
  | zero => simp [stateAfter, PollState.start, waits, readTimes]
  | succ k ih =>
    have hr := stateAfter_reads cfg env k
    simp only [stateAfter, PollState.afterRead, PollState.tick, ih, hr, waits, readTimes]
    cases cfg.immediate <;> cases k <;> simp [Nat.succ_mul] <;> omega

/-- The time at which the read after `k` pending reads is due. -/
theorem tick_elapsed {S : Type} (cfg : PollConfig S) (env : PollEnv S) (k : Nat) :
    ((stateAfter cfg env k).tick cfg).elapsed = waits cfg (k + 1) + readTimes env k := by
  have hr := stateAfter_reads cfg env k
  have he := stateAfter_elapsed cfg env k
  simp only [PollState.tick, he, hr, waits]
  cases cfg.immediate <;> cases k <;> simp [Nat.succ_mul] <;> omega

theorem tick_reads {S : Type} (cfg : PollConfig S) (st : PollState) :
    (st.tick cfg).reads = st.reads := rfl

theorem readTimes_mono {S : Type} (env : PollEnv S) {i k : Nat} (h : i ≤ k) :
    readTimes env i ≤ readTimes env k := by
  induction k with
  | zero => simp [Nat.le_zero.mp h]
  | succ k ih =>
    rcases Nat.lt_or_eq_of_le h with h1 | h1
    · have := ih (Nat.lt_succ_iff.mp h1)
      simp only [readTimes]
      omega
    · rw [h1]

theorem waits_mono {S : Type} (cfg : PollConfig S) {i k : Nat} (h : i ≤ k) :
    waits cfg i ≤ waits cfg k := by
  unfold waits
  split
  · exact Nat.mul_le_mul_right _ (by omega)
  · exact Nat.mul_le_mul_right _ h

/-- As long as the reads leave the poll pending and the ticks come before the
timeout, the poller goes from read to read. -/
theorem poll_pending_reads_on {S : Type} [DecidableEq S] (cfg : PollConfig S) (env : PollEnv S)
    (k : Nat) (hcancel : env.cancelAt = none)
    (hpending : ∀ i, i < k → (env.fetch i).state ∉ cfg.failureStates ∧
      (env.fetch i).state ∉ cfg.successStates)
    (htime : ∀ i, i < k → waits cfg (i + 1) + readTimes env i ≤ cfg.timeout) (n : Nat) :
    poll cfg env (k + n) PollState.start = poll cfg env n (stateAfter cfg env k) := by
  induction k generalizing n with
  | zero => simp [stateAfter]
  | succ k ih =>
    have h1 := ih (fun i hi => hpending i (by omega)) (fun i hi => htime i (by omega)) (n + 1)
    have hk : k + 1 + n = k + (n + 1) := by omega
    rw [hk, h1, poll]
    have he := tick_elapsed cfg env k
    have hr := stateAfter_reads cfg env k
    have ht := htime k (by omega)
    have hp := hpending k (by omega)
    simp only [PollEnv.cancelled, hcancel, Bool.false_eq_true, if_false, he, tick_reads, hr,
      Nat.not_lt.mpr ht, hp.1, hp.2]
    rfl

/-- The read that follows `k` pending reads decides the poll when its state
is terminal. -/
theorem poll_decided {S : Type} [DecidableEq S] (cfg : PollConfig S) (env : PollEnv S)
    (k : Nat) (hcancel : env.cancelAt = none)
    (hpending : ∀ i, i < k → (env.fetch i).state ∉ cfg.failureStates ∧
      (env.fetch i).state ∉ cfg.successStates)
    (htime : waits cfg (k + 1) + readTimes env k ≤ cfg.timeout) (n : Nat) :
    poll cfg env (k + (n + 1)) PollState.start
      = if (env.fetch k).state ∈ cfg.failureStates then
          some (some (Error.OperationFailed (env.fetch k).reason), stateAfter cfg env (k + 1))
        else if (env.fetch k).state ∈ cfg.successStates then
          some (none, stateAfter cfg env (k + 1))
        else poll cfg env n (stateAfter cfg env (k + 1)) := by
  have hall : ∀ i, i < k + 1 → waits cfg (i + 1) + readTimes env i ≤ cfg.timeout := by
    intro i hi
    have h1 : waits cfg (i + 1) ≤ waits cfg (k + 1) := waits_mono cfg (by omega)
    have h2 := readTimes_mono env (Nat.lt_succ_iff.mp hi)
    omega
  rw [poll_pending_reads_on cfg env k hcancel hpending (fun i hi => hall i (by omega)), poll]
  have he := tick_elapsed cfg env k
  have hr := stateAfter_reads cfg env k
  have ht := hall k (by omega)
  simp only [PollEnv.cancelled, hcancel, Bool.false_eq_true, if_false, he, tick_reads, hr,
    Nat.not_lt.mpr ht]
  rfl
/-- Whatever the poll returns, every read it made was due within the timeout:
the reads are at most one more than the intervals that fit into it. -/
theorem poll_reads_bound {S : Type} [DecidableEq S] (cfg : PollConfig S) (env : PollEnv S)
    (fuel : Nat) (st : PollState) (r : Option Error × PollState)
    (hwait : st.reads * cfg.interval ≤ st.waited + cfg.interval)
    (hle : st.waited ≤ st.elapsed)
    (hbound : st.reads * cfg.interval ≤ cfg.timeout + cfg.interval)
    (h : poll cfg env fuel st = some r) :
    r.2.reads * cfg.interval ≤ cfg.timeout + cfg.interval := by
  induction fuel generalizing st with
  | zero => simp [poll] at h
  | succ f ih =>
    rw [poll] at h
    have hreads : (st.tick cfg).reads = st.reads := rfl
    have hw1 : st.reads * cfg.interval ≤ (st.tick cfg).waited := by
      simp only [PollState.tick]
      split
      · rename_i hc
        simp only [Bool.and_eq_true, beq_iff_eq] at hc
        simp [hc.2]
      · omega
    have hle1 : (st.tick cfg).waited ≤ (st.tick cfg).elapsed := by
      simp only [PollState.tick]
      omega
    dsimp only at h
    split at h
    · cases h
      simpa [hreads] using hbound
    · split at h
      · cases h
        simpa [hreads] using hbound
      · rename_i hto
        have hnext : ((st.tick cfg).afterRead env).reads * cfg.interval
            ≤ cfg.timeout + cfg.interval := by
          simp only [PollState.afterRead, hreads, Nat.succ_mul]
          omega
        split at h
        · cases h
          exact hnext
        · split at h
          · cases h
            exact hnext
          · refine ih ((st.tick cfg).afterRead env) ?_ ?_ hnext h
            · simp only [PollState.afterRead, hreads, Nat.succ_mul]
              omega
            · simp only [PollState.afterRead]
              omega

/-- A poll that only ever reads pending states, past its first read, runs
into the timeout once the fuel covers it. -/
theorem poll_pending_times_out {S : Type} [DecidableEq S] (cfg : PollConfig S)
    (env : PollEnv S) (hcancel : env.cancelAt = none)
    (hpending : ∀ i, (env.fetch i).state ∉ cfg.failureStates ∧
      (env.fetch i).state ∉ cfg.successStates)
    (fuel : Nat) (st : PollState) (hfirst : st.reads ≠ 0 ∨ cfg.immediate = false)
    (hfuel : cfg.timeout < st.elapsed + (fuel + 1) * cfg.interval) :
    ∃ st1, poll cfg env (fuel + 1) st = some (some Error.PollTimeout, st1) := by
  have htick : ∀ s : PollState, (s.reads ≠ 0 ∨ cfg.immediate = false) →
      (s.tick cfg).elapsed = s.elapsed + cfg.interval := by
    intro s hs
    simp only [PollState.tick]
    rcases hs with hs | hs
    · simp [hs]
    · simp [hs]
  induction fuel generalizing st with
  | zero =>
    rw [poll]
    have he := htick st hfirst
    have hto : cfg.timeout < (st.tick cfg).elapsed := by
      rw [he]
      simpa using hfuel
    simp only [PollEnv.cancelled, hcancel, Bool.false_eq_true, if_false, hto, if_true]
    exact ⟨_, rfl⟩
  | succ f ih =>
    rw [poll]
    have he := htick st hfirst
    by_cases hto : cfg.timeout < (st.tick cfg).elapsed
    · simp only [PollEnv.cancelled, hcancel, Bool.false_eq_true, if_false, hto, if_true]
      exact ⟨_, rfl⟩
    · have hp := hpending (st.tick cfg).reads
      simp only [PollEnv.cancelled, hcancel, Bool.false_eq_true, if_false, hto, hp.1, hp.2]
      apply ih
      · left
        simp [PollState.afterRead]
      · have hmul : (f + 1 + 1) * cfg.interval = (f + 1) * cfg.interval + cfg.interval :=
          Nat.succ_mul _ _
        simp only [PollState.afterRead, he]
        omega

/-- C11: the poller reaches success when the state reads are pending,
pending, and then a state of the success set (`Pending`, `Pending`, `Staged`):
when nobody cancels and the third read is due within the timeout, it returns
success after exactly the third read, having waited at least twice the
interval, whether its first check is made at once or after one interval. -/
theorem poll_succeeds_on_third_read {S : Type} [DecidableEq S] (cfg : PollConfig S)
    (env : PollEnv S) (pending staged : S)
    (h0 : (env.fetch 0).state = pending) (h1 : (env.fetch 1).state = pending)
    (h2 : (env.fetch 2).state = staged)
    (hpf : pending ∉ cfg.failureStates) (hps : pending ∉ cfg.successStates)
    (hsf : staged ∉ cfg.failureStates) (hss : staged ∈ cfg.successStates)
    (hcancel : env.cancelAt = none)
    (htime : waits cfg 3 + readTimes env 2 ≤ cfg.timeout)
    (fuel : Nat) (hfuel : 3 ≤ fuel) :
    ∃ st, poll cfg env fuel PollState.start = some (none, st) ∧ st.reads = 3 ∧
      2 * cfg.interval ≤ st.waited ∧
      poll cfg env 1 PollState.start = none ∧ poll cfg env 2 PollState.start = none := by
  obtain ⟨n, rfl⟩ : ∃ n, fuel = 2 + (n + 1) := ⟨fuel - 3, by omega⟩
  have hpending : ∀ i, i < 2 → (env.fetch i).state ∉ cfg.failureStates ∧
      (env.fetch i).state ∉ cfg.successStates := by
    intro i hi
    rcases (by omega : i = 0 ∨ i = 1) with rfl | rfl
    · rw [h0]; exact ⟨hpf, hps⟩
    · rw [h1]; exact ⟨hpf, hps⟩
  have hall : ∀ i, i < 2 → waits cfg (i + 1) + readTimes env i ≤ cfg.timeout := by
    intro i hi
    have h1 : waits cfg (i + 1) ≤ waits cfg 3 := waits_mono cfg (by omega)
    have h2 := readTimes_mono env (Nat.le_of_lt hi)
    omega
  refine ⟨stateAfter cfg env 3, ?_, stateAfter_reads cfg env 3, ?_, ?_, ?_⟩
  · rw [poll_decided cfg env 2 hcancel hpending htime n, h2]
    simp [hsf, hss]
  · rw [stateAfter_waited]
    unfold waits
    split <;> omega
  · have := poll_pending_reads_on cfg env 1 hcancel (fun i hi => hpending i (by omega))
      (fun i hi => hall i (by omega)) 0
    simpa [poll] using this
  · have := poll_pending_reads_on cfg env 2 hcancel hpending hall 0
    simpa [poll] using this

/-- C11, on the reads `Pending`, `Pending`, `Staged` with an interval of one
second and a timeout of two and a half: the poller that checks at once
succeeds at the third read, two seconds of waiting behind it. -/
theorem poll_succeeds_on_third_read_witness :
    ∃ st, poll (samplePoll true)
        (scripted [SampleState.Pending, SampleState.Pending, SampleState.Staged]) 3
        PollState.start = some (none, st) ∧ st.reads = 3 ∧ 2 * 1000 ≤ st.waited :=
  have h := poll_succeeds_on_third_read (samplePoll true)
    (scripted [SampleState.Pending, SampleState.Pending, SampleState.Staged])
    SampleState.Pending SampleState.Staged rfl rfl rfl (by decide) (by decide) (by decide)
    (by decide) rfl (by decide) 3 (by decide)
  ⟨h.choose, h.choose_spec.1, h.choose_spec.2.1, h.choose_spec.2.2.1⟩
/-- C12: the poller returns `OperationFailed` at once upon a read whose state
is in the failure set. When the reads before it left the poll pending, nobody
cancels and the read is due within the timeout, the poll ends with
`OperationFailed` and the reason read; that read is its last, and the time
waited is the time waited before that read: no further read, no further
tick. -/
theorem poll_fails_at_failure_read {S : Type} [DecidableEq S] (cfg : PollConfig S)
    (env : PollEnv S) (k : Nat)
    (hpending : ∀ i, i < k → (env.fetch i).state ∉ cfg.failureStates ∧
      (env.fetch i).state ∉ cfg.successStates)
    (hfail : (env.fetch k).state ∈ cfg.failureStates)
    (hcancel : env.cancelAt = none)
    (htime : waits cfg (k + 1) + readTimes env k ≤ cfg.timeout)
    (fuel : Nat) (hfuel : k < fuel) :
    ∃ st, poll cfg env fuel PollState.start
        = some (some (Error.OperationFailed (env.fetch k).reason), st) ∧
      st.reads = k + 1 ∧ st.waited = waits cfg (k + 1) ∧
      st.elapsed = waits cfg (k + 1) + readTimes env (k + 1) := by
  obtain ⟨n, rfl⟩ : ∃ n, fuel = k + (n + 1) := ⟨fuel - k - 1, by omega⟩
  refine ⟨stateAfter cfg env (k + 1), ?_, stateAfter_reads cfg env _,
    stateAfter_waited cfg env _, stateAfter_elapsed cfg env _⟩
  rw [poll_decided cfg env k hcancel hpending htime n]
  simp [hfail]

/-- C12, on the reads `Pending`, `Failed`: the poll ends at the second read,
one second of waiting behind it, however much fuel is left. -/
theorem poll_fails_at_failure_read_witness :
    ∃ st, poll (samplePoll true) (scripted [SampleState.Pending, SampleState.Failed]) 10
        PollState.start = some (some (Error.OperationFailed "staging failed"), st) ∧
      st.reads = 2 ∧ st.waited = 1000 :=
  have h := poll_fails_at_failure_read (samplePoll true)
    (scripted [SampleState.Pending, SampleState.Failed]) 1
    (fun i hi => by
      have hi0 : i = 0 := by omega
      subst hi0
      decide)
    (by decide) rfl (by decide) 10 (by decide)
  ⟨h.choose, h.choose_spec.1, h.choose_spec.2.1, h.choose_spec.2.2.1⟩

/-- C13: the poller returns `PollTimeout` if no terminal state is observed
within the timeout: when every read leaves the poll pending and nobody
cancels, fuel for one tick more than the intervals that cover the timeout is
enough for it to return, and it returns `PollTimeout`. Every read of any poll
is due within the timeout; with an interval of one second and a timeout of two
and a half, the poll makes at most 3 reads, whatever it returns. -/
theorem poll_times_out :
    (∀ (S : Type) [DecidableEq S] (cfg : PollConfig S) (env : PollEnv S) (f : Nat),
        env.cancelAt = none →
        (∀ i, (env.fetch i).state ∉ cfg.failureStates ∧
          (env.fetch i).state ∉ cfg.successStates) →
        cfg.timeout < f * cfg.interval →
        ∃ st, poll cfg env (f + 1) PollState.start = some (some Error.PollTimeout, st) ∧
          st.reads * cfg.interval ≤ cfg.timeout + cfg.interval) ∧
    (∀ (S : Type) [DecidableEq S] (cfg : PollConfig S) (env : PollEnv S) (fuel : Nat)
        (r : Option Error × PollState),
        cfg.interval = 1000 → cfg.timeout = 2500 →
        poll cfg env fuel PollState.start = some r → r.2.reads ≤ 3) := by
  constructor
  · intro S _ cfg env f hcancel hpending hf
    have hbound : ∀ fuel r, poll cfg env fuel PollState.start = some r →
        r.2.reads * cfg.interval ≤ cfg.timeout + cfg.interval := by
      intro fuel r hr
      exact poll_reads_bound cfg env fuel PollState.start r (by simp [PollState.start])
        (by simp [PollState.start]) (by simp [PollState.start]) hr
    obtain ⟨g, rfl⟩ : ∃ g, f = g + 1 := by
      cases f with
      | zero => simp at hf
      | succ g => exact ⟨g, rfl⟩
    by_cases him : cfg.immediate = true
    · have hstep : poll cfg env (g + 1 + 1) PollState.start
          = poll cfg env (g + 1) (stateAfter cfg env 1) := by
        have := poll_pending_reads_on cfg env 1 hcancel (fun i _ => hpending i)
          (fun i hi => by
            have hi0 : i = 0 := by omega
            subst hi0
            simp [waits, him, readTimes])
          (g + 1)
        rw [← this]
        congr 1
        omega
      obtain ⟨st1, hst1⟩ := poll_pending_times_out cfg env hcancel hpending g
        (stateAfter cfg env 1) (Or.inl (by simp [stateAfter_reads])) (by omega)
      refine ⟨st1, by rw [hstep, hst1], ?_⟩
      exact hbound (g + 1 + 1) _ (by rw [hstep, hst1])
    · have him2 : cfg.immediate = false := by simpa using him
      have hmul : (g + 1 + 1) * cfg.interval = (g + 1) * cfg.interval + cfg.interval :=
        Nat.succ_mul _ _
      obtain ⟨st1, hst1⟩ := poll_pending_times_out cfg env hcancel hpending (g + 1)
        PollState.start (Or.inr him2) (by simp only [PollState.start]; omega)
      exact ⟨st1, hst1, hbound _ _ hst1⟩
  · intro S _ cfg env fuel r hi ht hr
    have h := poll_reads_bound cfg env fuel PollState.start r (by simp [PollState.start])
      (by simp [PollState.start]) (by simp [PollState.start]) hr
    rw [hi, ht] at h
    omega

/-- C13, on a poll target that stays pending, with an interval of one second
and a timeout of two and a half: the poller that checks at once reads three
times and times out. -/
theorem poll_times_out_witness :
    ∃ st, poll (samplePoll true) (scripted []) 4 PollState.start
        = some (some Error.PollTimeout, st) ∧ st.reads ≤ 3 :=
  have h := poll_times_out.1 SampleState (samplePoll true) (scripted []) 3 rfl
    (fun i => by simp [scripted, samplePoll])
    (by decide)
  ⟨h.choose, h.choose_spec.1,
    poll_times_out.2 SampleState (samplePoll true) (scripted []) 4 _ rfl rfl h.choose_spec.1⟩

/-! ## Push: how each step ends -/

/-- The three ways `findOrg` ends. -/
theorem findOrg_cases (p : AppPushOperation) (lib : Library) (t : Trace) :
    (∃ err, p.client.OrganizationsListAll t (p.orgOptions lib) = .error err ∧
      p.findOrg lib t = (.error (.wrapped ("could not find org " ++ p.orgName) err),
        t ++ [⟨.OrganizationsListAll (p.orgOptions lib), .failed err⟩])) ∨
    (∃ orgs, p.client.OrganizationsListAll t (p.orgOptions lib) = .ok orgs ∧
      orgs.length ≠ 1 ∧
      p.findOrg lib t = (.error (.message ("expected to find one org named " ++ p.orgName
          ++ ", but found " ++ toString orgs.length)),
        t ++ [⟨.OrganizationsListAll (p.orgOptions lib),
          .returned (orgs.map (fun o => o.GUID))⟩])) ∨
    (∃ org, p.client.OrganizationsListAll t (p.orgOptions lib) = .ok [org] ∧
      p.findOrg lib t = (.ok org,
        t ++ [⟨.OrganizationsListAll (p.orgOptions lib), .returned [org.GUID]⟩])) := by
  rcases h : p.client.OrganizationsListAll t (p.orgOptions lib) with err | orgs
  · left
    refine ⟨err, rfl, ?_⟩
    simp only [AppPushOperation.orgOptions] at h
    simp only [AppPushOperation.findOrg, h, AppPushOperation.orgOptions]
  · simp only [AppPushOperation.orgOptions] at h
    rcases orgs with _ | ⟨org, _ | ⟨org2, rest⟩⟩
    · right; left
      exact ⟨[], rfl, by simp, by simp [AppPushOperation.findOrg, h,
        AppPushOperation.orgOptions]⟩
    · right; right
      exact ⟨org, rfl, by simp [AppPushOperation.findOrg, h, AppPushOperation.orgOptions]⟩
    · right; left
      exact ⟨org :: org2 :: rest, rfl, by simp, by simp [AppPushOperation.findOrg, h,
        AppPushOperation.orgOptions]⟩

/-- The three ways `findSpace` ends. -/
theorem findSpace_cases (p : AppPushOperation) (lib : Library) (t : Trace) (orgGUID : String) :
    (∃ err, p.client.SpacesListAll t (p.spaceOptions lib orgGUID) = .error err ∧
      p.findSpace lib t orgGUID
        = (.error (.wrapped ("could not find space " ++ p.spaceName) err),
          t ++ [⟨.SpacesListAll (p.spaceOptions lib orgGUID), .failed err⟩])) ∨
    (∃ spaces, p.client.SpacesListAll t (p.spaceOptions lib orgGUID) = .ok spaces ∧
      spaces.length ≠ 1 ∧
      p.findSpace lib t orgGUID
        = (.error (.message ("expected to find one space named " ++ p.spaceName
            ++ ", but found " ++ toString spaces.length)),
          t ++ [⟨.SpacesListAll (p.spaceOptions lib orgGUID),
            .returned (spaces.map (fun s => s.GUID))⟩])) ∨
    (∃ space, p.client.SpacesListAll t (p.spaceOptions lib orgGUID) = .ok [space] ∧
      p.findSpace lib t orgGUID = (.ok space,
        t ++ [⟨.SpacesListAll (p.spaceOptions lib orgGUID), .returned [space.GUID]⟩])) := by
  rcases h : p.client.SpacesListAll t (p.spaceOptions lib orgGUID) with err | spaces
  · left
    refine ⟨err, rfl, ?_⟩
    simp only [AppPushOperation.spaceOptions] at h
    simp only [AppPushOperation.findSpace, h, AppPushOperation.spaceOptions]
  · simp only [AppPushOperation.spaceOptions] at h
    rcases spaces with _ | ⟨space, _ | ⟨space2, rest⟩⟩
    · right; left
      exact ⟨[], rfl, by simp, by simp [AppPushOperation.findSpace, h,
        AppPushOperation.spaceOptions]⟩
    · right; right
      exact ⟨space, rfl, by simp [AppPushOperation.findSpace, h,
        AppPushOperation.spaceOptions]⟩
    · right; left
      exact ⟨space :: space2 :: rest, rfl, by simp, by simp [AppPushOperation.findSpace, h,
        AppPushOperation.spaceOptions]⟩

/-- The three ways `findApp` ends. -/
theorem findApp_cases (p : AppPushOperation) (lib : Library) (t : Trace) (appName : String)
    (space : Space) :
    (∃ err, p.client.ApplicationsListAll t (appOptions lib appName space.GUID) = .error err ∧
      p.findApp lib t appName space = (.error (.bare err),
        t ++ [⟨.ApplicationsListAll (appOptions lib appName space.GUID), .failed err⟩])) ∨
    (∃ apps, p.client.ApplicationsListAll t (appOptions lib appName space.GUID) = .ok apps ∧
      apps.length ≠ 1 ∧
      p.findApp lib t appName space
        = (.error (.message ("expected to find one application named " ++ appName
            ++ " in space " ++ space.Name ++ ", but found " ++ toString apps.length)),
          t ++ [⟨.ApplicationsListAll (appOptions lib appName space.GUID),
            .returned (apps.map (fun a => a.GUID))⟩])) ∨
    (∃ app, p.client.ApplicationsListAll t (appOptions lib appName space.GUID) = .ok [app] ∧
      p.findApp lib t appName space = (.ok app,
        t ++ [⟨.ApplicationsListAll (appOptions lib appName space.GUID),
          .returned [app.GUID]⟩])) := by
  rcases h : p.client.ApplicationsListAll t (appOptions lib appName space.GUID) with err | apps
  · left
    refine ⟨err, rfl, ?_⟩
    simp only [appOptions] at h
    simp only [AppPushOperation.findApp, h, appOptions]
  · simp only [appOptions] at h
    rcases apps with _ | ⟨app, _ | ⟨app2, rest⟩⟩
    · right; left
      exact ⟨[], rfl, by simp, by simp [AppPushOperation.findApp, h, appOptions]⟩
    · right; right
      exact ⟨app, rfl, by simp [AppPushOperation.findApp, h, appOptions]⟩
    · right; left
      exact ⟨app :: app2 :: rest, rfl, by simp, by simp [AppPushOperation.findApp, h,
        appOptions]⟩

/-- The four ways `applySpaceManifest` ends. -/
theorem applySpaceManifest_cases (p : AppPushOperation) (lib : Library) (t : Trace)
    (space : Space) (manifest : AppManifest) :
    (∃ err, lib.yamlMarshal ⟨[manifest]⟩ = .error err ∧
      p.applySpaceManifest lib t space manifest
        = (some (.wrapped "error marshalling application manifest" err), t)) ∨
    (∃ bytes err, lib.yamlMarshal ⟨[manifest]⟩ = .ok bytes ∧
      p.client.ManifestsApplyManifest t space.GUID bytes = .error err ∧
      p.applySpaceManifest lib t space manifest
        = (some (.wrapped ("error applying application manifest to space " ++ space.Name) err),
          t ++ [⟨.ManifestsApplyManifest space.GUID bytes, .failed err⟩])) ∨
    (∃ bytes job err, lib.yamlMarshal ⟨[manifest]⟩ = .ok bytes ∧
      p.client.ManifestsApplyManifest t space.GUID bytes = .ok job ∧
      p.applySpaceManifest lib t space manifest
        = (some (.wrapped ("error waiting for application manifest to finish applying to space "
            ++ space.Name) err),
          t ++ [⟨.ManifestsApplyManifest space.GUID bytes, .returned [job]⟩,
            ⟨.JobsPollComplete job, .failed err⟩])) ∨
    (∃ bytes job, lib.yamlMarshal ⟨[manifest]⟩ = .ok bytes ∧
      p.client.ManifestsApplyManifest t space.GUID bytes = .ok job ∧
      p.applySpaceManifest lib t space manifest
        = (none, t ++ [⟨.ManifestsApplyManifest space.GUID bytes, .returned [job]⟩,
            ⟨.JobsPollComplete job, .returned []⟩])) := by
  rcases h1 : lib.yamlMarshal ⟨[manifest]⟩ with err | bytes
  · left
    exact ⟨err, rfl, by simp [AppPushOperation.applySpaceManifest, h1]⟩
  · rcases h2 : p.client.ManifestsApplyManifest t space.GUID bytes with err | job
    · right; left
      exact ⟨bytes, err, rfl, h2, by simp [AppPushOperation.applySpaceManifest, h1, h2]⟩
    · rcases h3 : p.client.JobsPollComplete
          (t ++ [⟨.ManifestsApplyManifest space.GUID bytes, .returned [job]⟩]) job with _ | err
      · right; right; right
        exact ⟨bytes, job, rfl, h2, by simp [AppPushOperation.applySpaceManifest, h1, h2, h3]⟩
      · right; right; left
        exact ⟨bytes, job, err, rfl, h2,
          by simp [AppPushOperation.applySpaceManifest, h1, h2, h3]⟩

/-- The four ways `uploadPackage` ends. -/
theorem uploadPackage_cases (p : AppPushOperation) (t : Trace) (app : App) (zipFile : String) :
    (∃ err, p.uploadPackage t app zipFile
        = (.error (.wrapped ("error creating package for app " ++ app.Name) err),
          t ++ [⟨.PackagesCreate (NewPackageCreate app.GUID), .failed err⟩])) ∨
    (∃ (pkg : Package) (err : Error), p.uploadPackage t app zipFile
        = (.error (.wrapped ("error uploading package bits for app " ++ app.Name) err),
          t ++ [⟨.PackagesCreate (NewPackageCreate app.GUID), .returned [pkg.GUID]⟩,
            ⟨.PackagesUploadBits pkg.GUID zipFile, .failed err⟩])) ∨
    (∃ (pkg : Package) (err : Error), p.uploadPackage t app zipFile
        = (.error (.wrapped ("error while waiting for package to process for app " ++ app.Name)
            err),
          t ++ [⟨.PackagesCreate (NewPackageCreate app.GUID), .returned [pkg.GUID]⟩,
            ⟨.PackagesUploadBits pkg.GUID zipFile, .returned []⟩,
            ⟨.PackagesPollReady pkg.GUID, .failed err⟩])) ∨
    (∃ pkg : Package, p.uploadPackage t app zipFile
        = (.ok pkg,
          t ++ [⟨.PackagesCreate (NewPackageCreate app.GUID), .returned [pkg.GUID]⟩,
            ⟨.PackagesUploadBits pkg.GUID zipFile, .returned []⟩,
            ⟨.PackagesPollReady pkg.GUID, .returned []⟩])) := by
  rcases h1 : p.client.PackagesCreate t (NewPackageCreate app.GUID) with err | pkg
  · left
    exact ⟨err, by simp [AppPushOperation.uploadPackage, h1]⟩
  · rcases h2 : p.client.PackagesUploadBits
        (t ++ [⟨.PackagesCreate (NewPackageCreate app.GUID), .returned [pkg.GUID]⟩])
        pkg.GUID zipFile with _ | err
    · rcases h3 : p.client.PackagesPollReady
          (t ++ [⟨.PackagesCreate (NewPackageCreate app.GUID), .returned [pkg.GUID]⟩,
            ⟨.PackagesUploadBits pkg.GUID zipFile, .returned []⟩]) pkg.GUID with _ | err
      · right; right; right
        exact ⟨pkg, by simp [AppPushOperation.uploadPackage, h1, h2, h3]⟩
      · right; right; left
        exact ⟨pkg, err, by simp [AppPushOperation.uploadPackage, h1, h2, h3]⟩
    · right; left
      exact ⟨pkg, err, by simp [AppPushOperation.uploadPackage, h1, h2]⟩

/-- The five ways `buildDroplet` ends. -/
theorem buildDroplet_cases (p : AppPushOperation) (lib : Library) (t : Trace) (pkg : Package)
    (manifest : AppManifest) :
    (∃ err, p.buildDroplet lib t pkg manifest
        = (.error (.wrapped ("error creating build from package for app " ++ manifest.Name)
            err),
          t ++ [⟨.BuildsCreate (buildRequest pkg.GUID manifest), .failed err⟩])) ∨
    (∃ (build : Build) (err : Error), p.buildDroplet lib t pkg manifest
        = (.error (.wrapped ("error while waiting for app " ++ manifest.Name
            ++ " package to build") err),
          t ++ [⟨.BuildsCreate (buildRequest pkg.GUID manifest), .returned [build.GUID]⟩,
            ⟨.BuildsPollStaged build.GUID, .failed err⟩])) ∨
    (∃ (build : Build) (err : Error),
      p.client.DropletsListForPackageAll
        (t ++ [⟨.BuildsCreate (buildRequest pkg.GUID manifest), .returned [build.GUID]⟩,
          ⟨.BuildsPollStaged build.GUID, .returned []⟩]) pkg.GUID (stagedOptions lib)
        = .error err ∧
      p.buildDroplet lib t pkg manifest
        = (.error (.wrapped ("error finding droplet for app " ++ manifest.Name) err),
          t ++ [⟨.BuildsCreate (buildRequest pkg.GUID manifest), .returned [build.GUID]⟩,
            ⟨.BuildsPollStaged build.GUID, .returned []⟩,
            ⟨.DropletsListForPackageAll pkg.GUID (stagedOptions lib), .failed err⟩])) ∨
    (∃ (build : Build) (droplets : List Droplet),
      p.client.DropletsListForPackageAll
        (t ++ [⟨.BuildsCreate (buildRequest pkg.GUID manifest), .returned [build.GUID]⟩,
          ⟨.BuildsPollStaged build.GUID, .returned []⟩]) pkg.GUID (stagedOptions lib)
        = .ok droplets ∧
      droplets.length ≠ 1 ∧
      p.buildDroplet lib t pkg manifest
        = (.error (.message ("expected one droplet, but found " ++ toString droplets.length)),
          t ++ [⟨.BuildsCreate (buildRequest pkg.GUID manifest), .returned [build.GUID]⟩,
            ⟨.BuildsPollStaged build.GUID, .returned []⟩,
            ⟨.DropletsListForPackageAll pkg.GUID (stagedOptions lib),
              .returned (droplets.map (fun d => d.GUID))⟩])) ∨
    (∃ (build : Build) (droplet : Droplet),
      p.client.DropletsListForPackageAll
        (t ++ [⟨.BuildsCreate (buildRequest pkg.GUID manifest), .returned [build.GUID]⟩,
          ⟨.BuildsPollStaged build.GUID, .returned []⟩]) pkg.GUID (stagedOptions lib)
        = .ok [droplet] ∧
      p.buildDroplet lib t pkg manifest
        = (.ok droplet,
          t ++ [⟨.BuildsCreate (buildRequest pkg.GUID manifest), .returned [build.GUID]⟩,
            ⟨.BuildsPollStaged build.GUID, .returned []⟩,
            ⟨.DropletsListForPackageAll pkg.GUID (stagedOptions lib),
              .returned [droplet.GUID]⟩])) := by
  rcases h1 : p.client.BuildsCreate t (buildRequest pkg.GUID manifest) with err | build
  · left
    simp only [buildRequest] at h1
    exact ⟨err, by simp [AppPushOperation.buildDroplet, NewBuildCreate, buildRequest, h1]⟩
  · simp only [buildRequest] at h1
    rcases h2 : p.client.BuildsPollStaged
        (t ++ [⟨.BuildsCreate (buildRequest pkg.GUID manifest), .returned [build.GUID]⟩])
        build.GUID with _ | err
    · simp only [buildRequest] at h2
      rcases h3 : p.client.DropletsListForPackageAll
          (t ++ [⟨.BuildsCreate (buildRequest pkg.GUID manifest), .returned [build.GUID]⟩,
            ⟨.BuildsPollStaged build.GUID, .returned []⟩]) pkg.GUID (stagedOptions lib)
        with err | droplets
      · right; right; left
        refine ⟨build, err, h3, ?_⟩
        simp only [buildRequest, stagedOptions] at h3
        simp [AppPushOperation.buildDroplet, NewBuildCreate, buildRequest, stagedOptions,
          h1, h2, h3]
      · have h3c := h3
        simp only [buildRequest, stagedOptions] at h3
        rcases droplets with _ | ⟨droplet, _ | ⟨droplet2, rest⟩⟩
        · right; right; right; left
          exact ⟨build, [], h3c, by simp, by
            simp [AppPushOperation.buildDroplet, NewBuildCreate, buildRequest, stagedOptions,
              h1, h2, h3]⟩
        · right; right; right; right
          exact ⟨build, droplet, h3c, by
            simp [AppPushOperation.buildDroplet, NewBuildCreate, buildRequest, stagedOptions,
              h1, h2, h3]⟩
        · right; right; right; left
          exact ⟨build, droplet :: droplet2 :: rest, h3c, by simp, by
            simp [AppPushOperation.buildDroplet, NewBuildCreate, buildRequest, stagedOptions,
              h1, h2, h3]⟩
    · right; left
      simp only [buildRequest] at h2
      exact ⟨build, err, by
        simp [AppPushOperation.buildDroplet, NewBuildCreate, buildRequest, h1, h2]⟩

/-! ## Push: the shape of a run -/

/-- What `pushApp` does from a trace `t`, in terms of the places 3 to 13 of
the pipeline: it makes the invocations up to some place and then either is
through, or stops at an invocation that failed or did not find exactly one
resource, or stops before any invocation because the manifest does not
marshal. From the current-droplet assignment on, the droplet of the pipeline
is the one `buildDroplet` returned. -/
theorem pushApp_run (p : AppPushOperation) (lib : Library) (t : Trace) (v0 : PushValues)
    (manifest : AppManifest) (zipFile : String) :
    ∃ (v : PushValues) (k : Nat) (last : List Event),
      v.org = v0.org ∧ v.space = v0.space ∧
      (p.pushApp lib t v0.space manifest zipFile).2
        = t ++ (((p.pipeline lib manifest zipFile v).drop 2).take k ++ last) ∧
      ((k = 11 ∧ last = [] ∧
          (p.pushApp lib t v0.space manifest zipFile).1 = .ok v.started) ∨
        (k < 11 ∧ ∃ out,
          last = [⟨p.callAt lib manifest zipFile v (k + 2), out⟩] ∧
          Event.good ⟨p.callAt lib manifest zipFile v (k + 2), out⟩ = false ∧
          ∃ err, (p.pushApp lib t v0.space manifest zipFile).1 = .error err) ∨
        (k = 0 ∧ last = [] ∧ ∃ e, lib.yamlMarshal ⟨[manifest]⟩ = .error e ∧
          (p.pushApp lib t v0.space manifest zipFile).1
            = .error (.wrapped "error marshalling application manifest" e))) ∧
      (9 ≤ k →
        (p.buildDroplet lib (t ++ ((p.pipeline lib manifest zipFile v).drop 2).take 6)
          v.pkg manifest).1 = .ok v.droplet) := by
  rcases applySpaceManifest_cases p lib t v0.space manifest with
    ⟨e, hm, h1⟩ | ⟨bytes, e, _, _, h1⟩ | ⟨bytes, job, e, _, _, h1⟩ | ⟨bytes, job, _, _, h1⟩
  · refine ⟨v0, 0, [], rfl, rfl, ?_, Or.inr (Or.inr ⟨rfl, rfl, e, hm, ?_⟩), ?_⟩
    · simp [AppPushOperation.pushApp, h1]
    · simp [AppPushOperation.pushApp, h1]
    · intro hk; exact absurd hk (by decide)
  · refine ⟨{ v0 with manifestBytes := bytes }, 0, [_], rfl, rfl, ?_,
      Or.inr (Or.inl ⟨by decide, .failed e, rfl, rfl, ?_⟩), ?_⟩
    · simp [AppPushOperation.pushApp, h1, AppPushOperation.callAt,
        AppPushOperation.pipeline]
    · simp [AppPushOperation.pushApp, h1]
    · intro hk; exact absurd hk (by decide)
  · refine ⟨{ v0 with manifestBytes := bytes, jobGUID := job }, 1, [_], rfl, rfl, ?_,
      Or.inr (Or.inl ⟨by decide, .failed e, rfl, rfl, ?_⟩), ?_⟩
    · simp [AppPushOperation.pushApp, h1, AppPushOperation.callAt,
        AppPushOperation.pipeline]
    · simp [AppPushOperation.pushApp, h1]
    · intro hk; exact absurd hk (by decide)
  · have hA := findApp_cases p lib
      (t ++ [⟨.ManifestsApplyManifest v0.space.GUID bytes, .returned [job]⟩,
        ⟨.JobsPollComplete job, .returned []⟩]) manifest.Name v0.space
    rcases hA with ⟨e, _, h2⟩ | ⟨apps, _, hlen, h2⟩ | ⟨app, _, h2⟩
    · refine ⟨{ v0 with manifestBytes := bytes, jobGUID := job }, 2, [_], rfl, rfl, ?_,
        Or.inr (Or.inl ⟨by decide, .failed e, rfl, rfl, ?_⟩), ?_⟩
      · simp [AppPushOperation.pushApp, h1, h2, AppPushOperation.callAt,
          AppPushOperation.pipeline]
      · simp [AppPushOperation.pushApp, h1, h2]
      · intro hk; exact absurd hk (by decide)
    · refine ⟨{ v0 with manifestBytes := bytes, jobGUID := job }, 2, [_], rfl, rfl, ?_,
        Or.inr (Or.inl ⟨by decide, .returned (apps.map (fun a => a.GUID)), rfl, ?_, ?_⟩), ?_⟩
      · simp [AppPushOperation.pushApp, h1, h2, AppPushOperation.callAt,
          AppPushOperation.pipeline]
      · simpa [Event.good, AppPushOperation.callAt, AppPushOperation.pipeline]
          using hlen
      · simp [AppPushOperation.pushApp, h1, h2]
      · intro hk; exact absurd hk (by decide)
    · have hU := uploadPackage_cases p
        (t ++ [⟨.ManifestsApplyManifest v0.space.GUID bytes, .returned [job]⟩,
          ⟨.JobsPollComplete job, .returned []⟩,
          ⟨.ApplicationsListAll (appOptions lib manifest.Name v0.space.GUID), .returned [app.GUID]⟩]) app zipFile
      rcases hU with ⟨e, h3⟩ | ⟨pkg, e, h3⟩ | ⟨pkg, e, h3⟩ | ⟨pkg, h3⟩
      · refine ⟨{ v0 with manifestBytes := bytes, jobGUID := job, app := app }, 3, [_], rfl, rfl, ?_,
          Or.inr (Or.inl ⟨by decide, .failed e, rfl, rfl, ?_⟩), ?_⟩
        · simp [AppPushOperation.pushApp, h1, h2, h3, AppPushOperation.callAt,
            AppPushOperation.pipeline]
        · simp [AppPushOperation.pushApp, h1, h2, h3]
        · intro hk; exact absurd hk (by decide)
      · refine ⟨{ v0 with manifestBytes := bytes, jobGUID := job, app := app, pkg := pkg }, 4, [_], rfl, rfl, ?_,
          Or.inr (Or.inl ⟨by decide, .failed e, rfl, rfl, ?_⟩), ?_⟩
        · simp [AppPushOperation.pushApp, h1, h2, h3, AppPushOperation.callAt,
            AppPushOperation.pipeline]
        · simp [AppPushOperation.pushApp, h1, h2, h3]
        · intro hk; exact absurd hk (by decide)
      · refine ⟨{ v0 with manifestBytes := bytes, jobGUID := job, app := app, pkg := pkg }, 5, [_], rfl, rfl, ?_,
          Or.inr (Or.inl ⟨by decide, .failed e, rfl, rfl, ?_⟩), ?_⟩
        · simp [AppPushOperation.pushApp, h1, h2, h3, AppPushOperation.callAt,
            AppPushOperation.pipeline]
        · simp [AppPushOperation.pushApp, h1, h2, h3]
        · intro hk; exact absurd hk (by decide)
      · have hB := buildDroplet_cases p lib
          (t ++ [⟨.ManifestsApplyManifest v0.space.GUID bytes, .returned [job]⟩,
            ⟨.JobsPollComplete job, .returned []⟩,
            ⟨.ApplicationsListAll (appOptions lib manifest.Name v0.space.GUID), .returned [app.GUID]⟩,
            ⟨.PackagesCreate (NewPackageCreate app.GUID), .returned [pkg.GUID]⟩,
            ⟨.PackagesUploadBits pkg.GUID zipFile, .returned []⟩,
            ⟨.PackagesPollReady pkg.GUID, .returned []⟩]) pkg manifest
        rcases hB with ⟨e, h4⟩ | ⟨build, e, h4⟩ | ⟨build, e, _, h4⟩ |
          ⟨build, droplets, _, hlen, h4⟩ | ⟨build, droplet, _, h4⟩
        · refine ⟨{ v0 with manifestBytes := bytes, jobGUID := job, app := app, pkg := pkg }, 6, [_], rfl, rfl, ?_,
            Or.inr (Or.inl ⟨by decide, .failed e, rfl, rfl, ?_⟩), ?_⟩
          · simp [AppPushOperation.pushApp, h1, h2, h3, h4, AppPushOperation.callAt,
              AppPushOperation.pipeline]
          · simp [AppPushOperation.pushApp, h1, h2, h3, h4]
          · intro hk; exact absurd hk (by decide)
        · refine ⟨{ v0 with manifestBytes := bytes, jobGUID := job, app := app, pkg := pkg, build := build }, 7, [_], rfl, rfl, ?_,
            Or.inr (Or.inl ⟨by decide, .failed e, rfl, rfl, ?_⟩), ?_⟩
          · simp [AppPushOperation.pushApp, h1, h2, h3, h4, AppPushOperation.callAt,
              AppPushOperation.pipeline]
          · simp [AppPushOperation.pushApp, h1, h2, h3, h4]
          · intro hk; exact absurd hk (by decide)
        · refine ⟨{ v0 with manifestBytes := bytes, jobGUID := job, app := app, pkg := pkg, build := build }, 8, [_], rfl, rfl, ?_,
            Or.inr (Or.inl ⟨by decide, .failed e, rfl, rfl, ?_⟩), ?_⟩
          · simp [AppPushOperation.pushApp, h1, h2, h3, h4, AppPushOperation.callAt,
              AppPushOperation.pipeline]
          · simp [AppPushOperation.pushApp, h1, h2, h3, h4]
          · intro hk; exact absurd hk (by decide)
        · refine ⟨{ v0 with manifestBytes := bytes, jobGUID := job, app := app, pkg := pkg, build := build }, 8, [_], rfl, rfl, ?_,
            Or.inr (Or.inl ⟨by decide, .returned (droplets.map (fun d => d.GUID)), rfl, ?_, ?_⟩), ?_⟩
          · simp [AppPushOperation.pushApp, h1, h2, h3, h4, AppPushOperation.callAt,
              AppPushOperation.pipeline]
          · simpa [Event.good, AppPushOperation.callAt, AppPushOperation.pipeline]
              using hlen
          · simp [AppPushOperation.pushApp, h1, h2, h3, h4]
          · intro hk; exact absurd hk (by decide)
        · rcases h5 : p.client.DropletsSetCurrentAssociationForApp
            (t ++ [⟨.ManifestsApplyManifest v0.space.GUID bytes, .returned [job]⟩,
              ⟨.JobsPollComplete job, .returned []⟩,
              ⟨.ApplicationsListAll (appOptions lib manifest.Name v0.space.GUID), .returned [app.GUID]⟩,
              ⟨.PackagesCreate (NewPackageCreate app.GUID), .returned [pkg.GUID]⟩,
              ⟨.PackagesUploadBits pkg.GUID zipFile, .returned []⟩,
              ⟨.PackagesPollReady pkg.GUID, .returned []⟩,
              ⟨.BuildsCreate (buildRequest pkg.GUID manifest), .returned [build.GUID]⟩,
              ⟨.BuildsPollStaged build.GUID, .returned []⟩,
              ⟨.DropletsListForPackageAll pkg.GUID (stagedOptions lib), .returned [droplet.GUID]⟩])
            app.GUID droplet.GUID with _ | e
          · rcases h6 : p.client.ApplicationsStart
              (t ++ [⟨.ManifestsApplyManifest v0.space.GUID bytes, .returned [job]⟩,
                ⟨.JobsPollComplete job, .returned []⟩,
                ⟨.ApplicationsListAll (appOptions lib manifest.Name v0.space.GUID), .returned [app.GUID]⟩,
                ⟨.PackagesCreate (NewPackageCreate app.GUID), .returned [pkg.GUID]⟩,
                ⟨.PackagesUploadBits pkg.GUID zipFile, .returned []⟩,
                ⟨.PackagesPollReady pkg.GUID, .returned []⟩,
                ⟨.BuildsCreate (buildRequest pkg.GUID manifest), .returned [build.GUID]⟩,
                ⟨.BuildsPollStaged build.GUID, .returned []⟩,
                ⟨.DropletsListForPackageAll pkg.GUID (stagedOptions lib), .returned [droplet.GUID]⟩,
                ⟨.DropletsSetCurrentAssociationForApp app.GUID droplet.GUID, .returned []⟩])
              app.GUID with e | started
            · refine ⟨{ v0 with manifestBytes := bytes, jobGUID := job, app := app, pkg := pkg, build := build, droplet := droplet }, 10, [_], rfl, rfl, ?_,
                Or.inr (Or.inl ⟨by decide, .failed e, rfl, rfl, ?_⟩), ?_⟩
              · simp [AppPushOperation.pushApp, h1, h2, h3, h4, h5, h6, AppPushOperation.callAt,
                  AppPushOperation.pipeline]
              · simp [AppPushOperation.pushApp, h1, h2, h3, h4, h5, h6]
              · intro _; simp [AppPushOperation.pipeline, h4]
            · refine ⟨{ v0 with manifestBytes := bytes, jobGUID := job, app := app, pkg := pkg, build := build, droplet := droplet, started := started }, 11, [], rfl, rfl, ?_,
                Or.inl ⟨rfl, rfl, ?_⟩, ?_⟩
              · simp [AppPushOperation.pushApp, h1, h2, h3, h4, h5, h6, AppPushOperation.pipeline]
              · simp [AppPushOperation.pushApp, h1, h2, h3, h4, h5, h6]
              · intro _; simp [AppPushOperation.pipeline, h4]
          · refine ⟨{ v0 with manifestBytes := bytes, jobGUID := job, app := app, pkg := pkg, build := build, droplet := droplet }, 9, [_], rfl, rfl, ?_,
              Or.inr (Or.inl ⟨by decide, .failed e, rfl, rfl, ?_⟩), ?_⟩
            · simp [AppPushOperation.pushApp, h1, h2, h3, h4, h5, AppPushOperation.callAt,
                AppPushOperation.pipeline]
            · simp [AppPushOperation.pushApp, h1, h2, h3, h4, h5]
            · intro _; simp [AppPushOperation.pipeline, h4]

/-- Every run of `Push` makes the invocations of the pipeline up to some place
`k` and then either is through (`k = 13`), or stops at the next operation,
which failed or did not find exactly one resource, or stops after the lookups
because the manifest does not marshal. From the current-droplet assignment on,
the droplet of the pipeline is the one `buildDroplet` returned. -/
theorem push_run (p : AppPushOperation) (lib : Library) (manifest : AppManifest)
    (zipFile : String) :
    ∃ (v : PushValues) (k : Nat) (last : List Event),
      (p.Push lib manifest zipFile).2 = (p.pipeline lib manifest zipFile v).take k ++ last ∧
      ((k = 13 ∧ last = [] ∧ (p.Push lib manifest zipFile).1 = .ok v.started) ∨
        (k < 13 ∧ ∃ out,
          last = [⟨p.callAt lib manifest zipFile v k, out⟩] ∧
          Event.good ⟨p.callAt lib manifest zipFile v k, out⟩ = false ∧
          ∃ err, (p.Push lib manifest zipFile).1 = .error err) ∨
        (k = 2 ∧ last = [] ∧ ∃ e, lib.yamlMarshal ⟨[manifest]⟩ = .error e ∧
          (p.Push lib manifest zipFile).1
            = .error (.wrapped "error marshalling application manifest" e))) ∧
      (11 ≤ k →
        (p.buildDroplet lib ((p.pipeline lib manifest zipFile v).take 8) v.pkg manifest).1
          = .ok v.droplet) := by
  rcases findOrg_cases p lib [] with ⟨e, _, h1⟩ | ⟨orgs, _, hlen, h1⟩ | ⟨org, _, h1⟩
  · refine ⟨PushValues.blank, 0, [_], ?_,
      Or.inr (Or.inl ⟨by decide, .failed e, rfl, rfl, ?_⟩), ?_⟩
    · simp [AppPushOperation.Push, h1, AppPushOperation.callAt, AppPushOperation.pipeline]
    · simp [AppPushOperation.Push, h1]
    · intro hk; exact absurd hk (by decide)
  · refine ⟨PushValues.blank, 0, [_], ?_,
      Or.inr (Or.inl ⟨by decide, .returned (orgs.map (fun o => o.GUID)), rfl, ?_, ?_⟩), ?_⟩
    · simp [AppPushOperation.Push, h1, AppPushOperation.callAt, AppPushOperation.pipeline]
    · simpa [Event.good, AppPushOperation.callAt, AppPushOperation.pipeline] using hlen
    · simp [AppPushOperation.Push, h1]
    · intro hk; exact absurd hk (by decide)
  · simp only [List.nil_append] at h1
    rcases findSpace_cases p lib [⟨.OrganizationsListAll (p.orgOptions lib),
        .returned [org.GUID]⟩] org.GUID with ⟨e, _, h2⟩ | ⟨spaces, _, hlen, h2⟩ | ⟨space, _, h2⟩
    · refine ⟨{ PushValues.blank with org := org }, 1, [_], ?_,
        Or.inr (Or.inl ⟨by decide, .failed e, rfl, rfl, ?_⟩), ?_⟩
      · simp [AppPushOperation.Push, h1, h2, AppPushOperation.callAt,
          AppPushOperation.pipeline]
      · simp [AppPushOperation.Push, h1, h2]
      · intro hk; exact absurd hk (by decide)
    · refine ⟨{ PushValues.blank with org := org }, 1, [_], ?_,
        Or.inr (Or.inl ⟨by decide, .returned (spaces.map (fun s => s.GUID)), rfl, ?_, ?_⟩),
        ?_⟩
      · simp [AppPushOperation.Push, h1, h2, AppPushOperation.callAt,
          AppPushOperation.pipeline]
      · simpa [Event.good, AppPushOperation.callAt, AppPushOperation.pipeline] using hlen
      · simp [AppPushOperation.Push, h1, h2]
      · intro hk; exact absurd hk (by decide)
    · simp only [List.singleton_append] at h2
      obtain ⟨v, k, last, hvo, hvs, htrace, hout, hlink⟩ := pushApp_run p lib
        [⟨.OrganizationsListAll (p.orgOptions lib), .returned [org.GUID]⟩,
          ⟨.SpacesListAll (p.spaceOptions lib org.GUID), .returned [space.GUID]⟩]
        { PushValues.blank with org := org, space := space } manifest zipFile
      simp only at hvo hvs
      have hpush : p.Push lib manifest zipFile
          = p.pushApp lib
            [⟨.OrganizationsListAll (p.orgOptions lib), .returned [org.GUID]⟩,
              ⟨.SpacesListAll (p.spaceOptions lib org.GUID), .returned [space.GUID]⟩]
            space manifest zipFile := by
        simp [AppPushOperation.Push, h1, h2]
      have htake2 : (p.pipeline lib manifest zipFile v).take 2
          = [⟨.OrganizationsListAll (p.orgOptions lib), .returned [org.GUID]⟩,
            ⟨.SpacesListAll (p.spaceOptions lib org.GUID), .returned [space.GUID]⟩] := by
        simp [AppPushOperation.pipeline, hvo, hvs]
      have htake : ∀ n, (p.pipeline lib manifest zipFile v).take (n + 2)
          = [⟨.OrganizationsListAll (p.orgOptions lib), .returned [org.GUID]⟩,
              ⟨.SpacesListAll (p.spaceOptions lib org.GUID), .returned [space.GUID]⟩]
            ++ ((p.pipeline lib manifest zipFile v).drop 2).take n := by
        intro n
        rw [← htake2, Nat.add_comm, List.take_add]
      refine ⟨v, k + 2, last, ?_, ?_, ?_⟩
      · rw [hpush, htrace, htake, List.append_assoc]
      · rcases hout with ⟨hk, hl, hr⟩ | ⟨hk, out, hl, hg, err, hr⟩ | ⟨hk, hl, e, hm, hr⟩
        · exact Or.inl ⟨by omega, hl, by rw [hpush]; exact hr⟩
        · exact Or.inr (Or.inl ⟨by omega, out, hl, hg, err, by rw [hpush]; exact hr⟩)
        · exact Or.inr (Or.inr ⟨by omega, hl, e, hm, by rw [hpush]; exact hr⟩)
      · intro hk
        have := hlink (by omega)
        rw [htake 6]
        exact this

/-- Every invocation of the pipeline lets the run go on. -/
theorem pipeline_good (p : AppPushOperation) (lib : Library) (manifest : AppManifest)
    (zipFile : String) (v : PushValues) :
    ∀ ev ∈ p.pipeline lib manifest zipFile v, ev.good = true := by
  intro ev hev
  simp only [AppPushOperation.pipeline, List.mem_cons, List.mem_singleton] at hev
  rcases hev with h | h | h | h | h | h | h | h | h | h | h | h | h | h <;>
    first
    | (subst h; rfl)
    | (simp at h)

/-- The places of the pipeline are 1 to 13. -/
theorem pipeline_steps (p : AppPushOperation) (lib : Library) (manifest : AppManifest)
    (zipFile : String) (v : PushValues) :
    (p.pipeline lib manifest zipFile v).map (fun ev => ev.call.step)
      = [1, 2, 3, 4, 5, 6, 7, 8, 9, 10, 11, 12, 13] := rfl

/-- C14: in every run of `Push` in which every invocation of the client
succeeds, each lookup finds exactly one resource and the manifest marshals,
the operations are invoked exactly once each and in exactly the order of the
pipeline: list orgs by name, list spaces by name within the org, apply
manifest, poll the manifest job, list apps by name within the space, create
package, upload bits, poll package ready, create build, poll build staged,
list staged droplets for the package, set the app's current droplet, start the
app; and `Push` returns the app as started. Conversely a run that returns an
app made exactly these invocations. -/
theorem push_invokes_pipeline_in_order (p : AppPushOperation) (lib : Library)
    (manifest : AppManifest) (zipFile : String) :
    ((∀ ev ∈ (p.Push lib manifest zipFile).2, ev.good = true) →
      (∃ bytes, lib.yamlMarshal ⟨[manifest]⟩ = .ok bytes) →
      ∃ v : PushValues,
        p.Push lib manifest zipFile = (.ok v.started, p.pipeline lib manifest zipFile v) ∧
        (p.Push lib manifest zipFile).2.map (fun ev => ev.call.step)
          = [1, 2, 3, 4, 5, 6, 7, 8, 9, 10, 11, 12, 13]) ∧
    (∀ app, (p.Push lib manifest zipFile).1 = .ok app →
      ∃ v : PushValues, v.started = app ∧
        (p.Push lib manifest zipFile).2 = p.pipeline lib manifest zipFile v) := by
  obtain ⟨v, k, last, htrace, hout, _⟩ := push_run p lib manifest zipFile
  have hfull : k = 13 → last = [] →
      (p.Push lib manifest zipFile).2 = p.pipeline lib manifest zipFile v := by
    intro hk hl
    rw [htrace, hk, hl]
    simp [AppPushOperation.pipeline]
  constructor
  · intro hgood hmarshal
    rcases hout with ⟨hk, hl, hr⟩ | ⟨hk, out, hl, hg, err, hr⟩ | ⟨hk, hl, e, hm, hr⟩
    · have h2 := hfull hk hl
      refine ⟨v, Prod.ext hr h2, ?_⟩
      rw [h2]
      rfl
    · have hmem : (⟨p.callAt lib manifest zipFile v k, out⟩ : Event)
          ∈ (p.Push lib manifest zipFile).2 := by
        rw [htrace, hl]
        simp
      have := hgood _ hmem
      rw [hg] at this
      exact absurd this (by simp)
    · obtain ⟨bytes, hb⟩ := hmarshal
      rw [hb] at hm
      exact absurd hm (by simp)
  · intro app happ
    rcases hout with ⟨hk, hl, hr⟩ | ⟨hk, out, hl, hg, err, hr⟩ | ⟨hk, hl, e, hm, hr⟩
    · rw [hr] at happ
      exact ⟨v, by simpa using happ, hfull hk hl⟩
    · rw [hr] at happ
      exact absurd happ (by simp)
    · rw [hr] at happ
      exact absurd happ (by simp)

/-- C14, on the sample client, on which everything succeeds: thirteen
invocations, in the order of the pipeline, and the started app. -/
theorem push_invokes_pipeline_in_order_witness :
    ((samplePush sampleClient).Push sampleLibrary sampleManifest "zip").1
        = .ok ⟨"app-1", "one", "STARTED"⟩ ∧
      ((samplePush sampleClient).Push sampleLibrary sampleManifest "zip").2.map
        (fun ev => ev.call.step) = [1, 2, 3, 4, 5, 6, 7, 8, 9, 10, 11, 12, 13] :=
  have h := (push_invokes_pipeline_in_order (samplePush sampleClient) sampleLibrary
    sampleManifest "zip").1 (by decide) ⟨_, rfl⟩
  ⟨rfl, h.choose_spec.2⟩

/-- The operation at place `k` of the pipeline, counted from 0, has step
number `k + 1`. -/
theorem callAt_step (p : AppPushOperation) (lib : Library) (manifest : AppManifest)
    (zipFile : String) (v : PushValues) (k : Nat) (hk : k < 13) :
    (p.callAt lib manifest zipFile v k).step = k + 1 := by
  interval_cases k <;> rfl

/-- The places of a prefix of the pipeline. -/
theorem pipeline_take_steps (p : AppPushOperation) (lib : Library) (manifest : AppManifest)
    (zipFile : String) (v : PushValues) (k : Nat) (hk : k ≤ 13) :
    ((p.pipeline lib manifest zipFile v).take k).map (fun ev => ev.call.step)
      = List.range' 1 k := by
  interval_cases k <;> rfl

/-- The length of a prefix of the pipeline. -/
theorem pipeline_take_length (p : AppPushOperation) (lib : Library) (manifest : AppManifest)
    (zipFile : String) (v : PushValues) (k : Nat) (hk : k ≤ 13) :
    ((p.pipeline lib manifest zipFile v).take k).length = k := by
  interval_cases k <;> rfl

/-- C15: every run of `Push` invokes the operations of places 1, 2, ... up to
some place of at most 13, each once and in this order, and only the last
invocation of a run can be one that failed (an error, or a lookup that did not
find exactly one resource): nothing is invoked after a failed step and no step
is invoked again. A run with a failed invocation, and every run that stops
before place 13, returns an error and no app. -/
theorem push_short_circuits (p : AppPushOperation) (lib : Library)
    (manifest : AppManifest) (zipFile : String) :
    (p.Push lib manifest zipFile).2.map (fun ev => ev.call.step)
        = List.range' 1 (p.Push lib manifest zipFile).2.length ∧
      (p.Push lib manifest zipFile).2.length ≤ 13 ∧
      (∀ ev ∈ (p.Push lib manifest zipFile).2.dropLast, ev.good = true) ∧
      ((∃ ev ∈ (p.Push lib manifest zipFile).2, ev.good = false) →
        ∃ err, (p.Push lib manifest zipFile).1 = .error err) ∧
      ((p.Push lib manifest zipFile).2.length < 13 →
        ∃ err, (p.Push lib manifest zipFile).1 = .error err) := by
  obtain ⟨v, k, last, htrace, hout, _⟩ := push_run p lib manifest zipFile
  have hgoodTake : ∀ ev ∈ (p.pipeline lib manifest zipFile v).take k, ev.good = true :=
    fun ev hev => pipeline_good p lib manifest zipFile v ev (List.mem_of_mem_take hev)
  rcases hout with ⟨hk, hl, hr⟩ | ⟨hk, out, hl, hg, err, hr⟩ | ⟨hk, hl, e, hm, hr⟩
  · subst hl
    have hlen := pipeline_take_length p lib manifest zipFile v k (by omega)
    rw [List.append_nil] at htrace
    refine ⟨?_, ?_, ?_, ?_, ?_⟩
    · rw [htrace, hlen]
      exact pipeline_take_steps p lib manifest zipFile v k (by omega)
    · rw [htrace, hlen]
      omega
    · intro ev hev
      rw [htrace] at hev
      exact hgoodTake ev (List.dropLast_subset _ hev)
    · rintro ⟨ev, hev, hbad⟩
      rw [htrace] at hev
      rw [hgoodTake ev hev] at hbad
      exact absurd hbad (by simp)
    · intro h
      rw [htrace, hlen] at h
      omega
  · subst hl
    have hlen := pipeline_take_length p lib manifest zipFile v k (by omega)
    refine ⟨?_, ?_, ?_, fun _ => ⟨err, hr⟩, fun _ => ⟨err, hr⟩⟩
    · rw [htrace, List.map_append, List.length_append, hlen,
        pipeline_take_steps p lib manifest zipFile v k (by omega)]
      simp only [List.map_cons, List.map_nil, List.length_singleton]
      rw [callAt_step p lib manifest zipFile v k hk, List.range'_concat, Nat.add_comm]
      simp
    · rw [htrace, List.length_append, hlen]
      simp only [List.length_singleton]
      omega
    · intro ev hev
      rw [htrace, List.dropLast_concat] at hev
      exact hgoodTake ev hev
  · subst hl
    have hlen := pipeline_take_length p lib manifest zipFile v k (by omega)
    rw [List.append_nil] at htrace
    refine ⟨?_, ?_, ?_, fun _ => ⟨_, hr⟩, fun _ => ⟨_, hr⟩⟩
    · rw [htrace, hlen]
      exact pipeline_take_steps p lib manifest zipFile v k (by omega)
    · rw [htrace, hlen]
      omega
    · intro ev hev
      rw [htrace] at hev
      exact hgoodTake ev (List.dropLast_subset _ hev)

/-- C15, on the sample client with one failing operation: whichever place
`k` fails, the run invokes the places 1 to `k` and returns no app; and with
the sixth operation (create package) failing the run returns an error. -/
theorem push_short_circuits_witness :
    (∀ k ∈ List.range' 1 13,
      ((samplePush (failingAt k)).Push sampleLibrary sampleManifest "zip").2.map
          (fun ev => ev.call.step) = List.range' 1 k ∧
        ((samplePush (failingAt k)).Push sampleLibrary sampleManifest "zip").1.toOption
          = none) ∧
      ∃ err, ((samplePush (failingAt 6)).Push sampleLibrary sampleManifest "zip").1
        = .error err :=
  ⟨by decide,
    (push_short_circuits (samplePush (failingAt 6)) sampleLibrary sampleManifest "zip").2.2.2.2
      (by decide)⟩

/-- C16: three invocations whose error `Push` returns as it came, with no
context naming the step, the org, the space or the app. On the sample client
with the app lookup's list call (place 5) failing, with the assignment of the
current droplet (place 12) failing, and with the final start (place 13)
failing, `Push` returns the sample error bare: it carries no context and
unwrapping it gives nothing. With the org lookup or the creation of the
package failing instead, the error comes wrapped, with a context in front of
it that names the org or the app. -/
theorem push_returns_three_errors_bare :
    ((samplePush (failingAt 5)).Push sampleLibrary sampleManifest "zip").1
        = .error (.bare sampleFailure) ∧
      ((samplePush (failingAt 12)).Push sampleLibrary sampleManifest "zip").1
        = .error (.bare sampleFailure) ∧
      ((samplePush (failingAt 13)).Push sampleLibrary sampleManifest "zip").1
        = .error (.bare sampleFailure) ∧
      OpError.context (.bare sampleFailure) = none ∧
      OpError.Unwrap (.bare sampleFailure) = none ∧
      ((samplePush (failingAt 1)).Push sampleLibrary sampleManifest "zip").1
        = .error (.wrapped "could not find org acme" sampleFailure) ∧
      ((samplePush (failingAt 6)).Push sampleLibrary sampleManifest "zip").1
        = .error (.wrapped "error creating package for app one" sampleFailure) :=
  ⟨rfl, rfl, rfl, rfl, rfl, rfl, rfl⟩

/-- The place of every invocation of a run of `Push`: an invocation made in a
run is the operation of some place `i` of the pipeline (counted from 0), with
the arguments the pipeline has there, and what the run invoked before it are
the first `i` invocations of the pipeline, all of which succeeded. From place
11 on, the droplet of the pipeline is the one `buildDroplet` returned. -/
theorem push_trace_places (p : AppPushOperation) (lib : Library) (manifest : AppManifest)
    (zipFile : String) :
    ∃ v : PushValues, ∀ ev ∈ (p.Push lib manifest zipFile).2, ∃ (i : Nat) (rest : List Event),
      i < 13 ∧ ev.call = p.callAt lib manifest zipFile v i ∧
      (p.Push lib manifest zipFile).2
        = (p.pipeline lib manifest zipFile v).take i ++ ev :: rest ∧
      (11 ≤ i →
        (p.buildDroplet lib ((p.pipeline lib manifest zipFile v).take 8) v.pkg manifest).1
          = .ok v.droplet) := by
  obtain ⟨v, k, last, htrace, hout, hlink⟩ := push_run p lib manifest zipFile
  have hk : k ≤ 13 := by
    rcases hout with ⟨hk, _⟩ | ⟨hk, _⟩ | ⟨hk, _⟩ <;> omega
  have hlen : (p.pipeline lib manifest zipFile v).length = 13 := rfl
  refine ⟨v, fun ev hev => ?_⟩
  rw [htrace, List.mem_append] at hev
  rcases hev with hev | hev
  · obtain ⟨i, hi, hget⟩ := List.mem_take_iff_getElem.1 hev
    have hik : i < k := lt_of_lt_of_le hi (min_le_left _ _)
    have hi13 : i < 13 := by omega
    have hil : i < (p.pipeline lib manifest zipFile v).length := by omega
    refine ⟨i, (p.pipeline lib manifest zipFile v).drop (i + 1) |>.take (k - (i + 1)) |>.append last,
      hi13, ?_, ?_, fun h => hlink (by omega)⟩
    · rw [← hget, AppPushOperation.callAt, List.getD_eq_getElem _ _ hil]
    · rw [htrace, ← hget]
      have h1 : (p.pipeline lib manifest zipFile v).take k
          = (p.pipeline lib manifest zipFile v).take i
            ++ (p.pipeline lib manifest zipFile v)[i]
              :: ((p.pipeline lib manifest zipFile v).drop (i + 1)).take (k - (i + 1)) := by
        have h2 : k = i + (1 + (k - (i + 1))) := by omega
        conv_lhs => rw [h2, List.take_add, List.take_add]
        congr 1
        rw [List.drop_eq_getElem_cons hil]
        rfl
      rw [h1]
      simp
  · have hk13 : k < 13 ∧ ∃ out, last = [⟨p.callAt lib manifest zipFile v k, out⟩] := by
      rcases hout with ⟨_, hl, _⟩ | ⟨hk, out, hl, _⟩ | ⟨_, hl, _⟩
      · rw [hl] at hev
        exact absurd hev (List.not_mem_nil _)
      · exact ⟨hk, out, hl⟩
      · rw [hl] at hev
        exact absurd hev (List.not_mem_nil _)
    obtain ⟨hk13, out, hl⟩ := hk13
    rw [hl, List.mem_singleton] at hev
    refine ⟨k, [], hk13, by rw [hev], ?_, hlink⟩
    rw [htrace, hl, hev]

/-- C17: `findApp` makes one invocation, the list of the apps with the options
in which `Names` is the one app name, `SpaceGUIDs` is the GUID of the space and
every other filter is empty; it returns an app exactly when the list holds
that app and nothing else, and for every other count it returns the error
`expected to find one application named <app> in space <space>, but found
<count>`. In a run of `Push` the app name is the name the manifest declares and
the space is the one the space lookup found. -/
theorem findApp_resolves_the_one_app (p : AppPushOperation) (lib : Library) (t : Trace)
    (appName : String) (space : Space) :
    appOptions lib appName space.GUID
        = { ListOptions := lib.NewListOptions, GUIDs := ⟨[]⟩, Names := ⟨[appName]⟩,
            OrganizationGUIDs := ⟨[]⟩, SpaceGUIDs := ⟨[space.GUID]⟩, Stacks := ⟨[]⟩,
            LifecycleType := "", Include := AppIncludeType.AppIncludeNone } ∧
      (∃ out, (p.findApp lib t appName space).2
        = t ++ [⟨.ApplicationsListAll (appOptions lib appName space.GUID), out⟩]) ∧
      (∀ app, (p.findApp lib t appName space).1 = .ok app ↔
        p.client.ApplicationsListAll t (appOptions lib appName space.GUID) = .ok [app]) ∧
      (∀ apps, p.client.ApplicationsListAll t (appOptions lib appName space.GUID) = .ok apps →
        apps.length ≠ 1 →
        (p.findApp lib t appName space).1
          = .error (.message ("expected to find one application named " ++ appName
              ++ " in space " ++ space.Name ++ ", but found " ++ toString apps.length))) ∧
      (∀ manifest zipFile opts out,
        (⟨.ApplicationsListAll opts, out⟩ : Event) ∈ (p.Push lib manifest zipFile).2 →
        ∃ (v : PushValues) (rest : List Event),
          opts = appOptions lib manifest.Name v.space.GUID ∧
          (p.Push lib manifest zipFile).2
            = [⟨.OrganizationsListAll (p.orgOptions lib), .returned [v.org.GUID]⟩,
                ⟨.SpacesListAll (p.spaceOptions lib v.org.GUID), .returned [v.space.GUID]⟩,
                ⟨.ManifestsApplyManifest v.space.GUID v.manifestBytes, .returned [v.jobGUID]⟩,
                ⟨.JobsPollComplete v.jobGUID, .returned []⟩,
                ⟨.ApplicationsListAll opts, out⟩] ++ rest) := by
  refine ⟨rfl, ?_, ?_, ?_, ?_⟩
  · rcases findApp_cases p lib t appName space with
      ⟨err, _, h⟩ | ⟨apps, _, _, h⟩ | ⟨app, _, h⟩ <;> exact ⟨_, by rw [h]⟩
  · intro app
    rcases findApp_cases p lib t appName space with
      ⟨err, hl, h⟩ | ⟨apps, hl, hn, h⟩ | ⟨app2, hl, h⟩
    · rw [h, hl]
      simp
    · rw [h, hl]
      constructor
      · intro h2
        exact absurd h2 (by simp)
      · intro h2
        injection h2 with h2
        rw [h2] at hn
        exact absurd rfl hn
    · rw [h, hl]
      simp [eq_comm]
  · intro apps hl hn
    rcases findApp_cases p lib t appName space with
      ⟨err, hl2, h⟩ | ⟨apps2, hl2, _, h⟩ | ⟨app2, hl2, h⟩
    · rw [hl2] at hl
      exact absurd hl (by simp)
    · rw [hl2] at hl
      injection hl with hl
      rw [h, hl]
    · rw [hl2] at hl
      injection hl with hl
      rw [← hl] at hn
      exact absurd rfl hn
  · intro manifest zipFile opts out hmem
    obtain ⟨v, hv⟩ := push_trace_places p lib manifest zipFile
    obtain ⟨i, rest, hi, hcall, htrace, _⟩ := hv _ hmem
    refine ⟨v, rest, ?_, ?_⟩
    · interval_cases i <;> simp [AppPushOperation.callAt, AppPushOperation.pipeline] at hcall
      exact hcall
    · rw [htrace]
      interval_cases i <;> simp [AppPushOperation.callAt, AppPushOperation.pipeline] at hcall
      rw [hcall]
      rfl

/-- C17, on the sample client: the lookup of the app `one` in the space `dev`
returns the one app the list holds; and when the list holds no app, or two, the
lookup returns the error with the two names and the count. -/
theorem findApp_resolves_the_one_app_witness :
    ((samplePush sampleClient).findApp sampleLibrary [] "one" ⟨"space-1", "dev"⟩).1
        = .ok ⟨"app-1", "one", "STOPPED"⟩ ∧
      ((samplePush (listingClient [] [] [] [])).findApp
          sampleLibrary [] "one" ⟨"space-1", "dev"⟩).1
        = .error (.message "expected to find one application named one in space dev, but found 0") ∧
      ((samplePush (listingClient [] []
          [⟨"app-1", "one", "STOPPED"⟩, ⟨"app-2", "one", "STARTED"⟩] [])).findApp
          sampleLibrary [] "one" ⟨"space-1", "dev"⟩).1
        = .error (.message "expected to find one application named one in space dev, but found 2") :=
  ⟨((findApp_resolves_the_one_app (samplePush sampleClient) sampleLibrary [] "one"
      ⟨"space-1", "dev"⟩).2.2.1 ⟨"app-1", "one", "STOPPED"⟩).2 rfl,
    (findApp_resolves_the_one_app
      (samplePush (listingClient [] [] [] []))
      sampleLibrary [] "one" ⟨"space-1", "dev"⟩).2.2.2.1 [] rfl (by decide),
    (findApp_resolves_the_one_app
      (samplePush (listingClient [] []
        [⟨"app-1", "one", "STOPPED"⟩, ⟨"app-2", "one", "STARTED"⟩] []))
      sampleLibrary [] "one" ⟨"space-1", "dev"⟩).2.2.2.1 _ rfl (by decide)⟩

/-- What `findOrg` does on a list of orgs that is not of one org. -/
theorem findOrg_of_count (p : AppPushOperation) (lib : Library) (t : Trace)
    (orgs : List Organization)
    (hl : p.client.OrganizationsListAll t (p.orgOptions lib) = .ok orgs)
    (hn : orgs.length ≠ 1) :
    p.findOrg lib t = (.error (.message ("expected to find one org named " ++ p.orgName
        ++ ", but found " ++ toString orgs.length)),
      t ++ [⟨.OrganizationsListAll (p.orgOptions lib), .returned (orgs.map (fun o => o.GUID))⟩]) := by
  rcases findOrg_cases p lib t with ⟨err, hl2, h⟩ | ⟨orgs2, hl2, _, h⟩ | ⟨org2, hl2, h⟩
  · rw [hl2] at hl
    exact absurd hl (by simp)
  · rw [hl2] at hl
    injection hl with hl
    rw [h, hl]
  · rw [hl2] at hl
    injection hl with hl
    rw [← hl] at hn
    exact absurd rfl hn

/-- What `findOrg` does on a list of one org. -/
theorem findOrg_of_one (p : AppPushOperation) (lib : Library) (t : Trace) (org : Organization)
    (hl : p.client.OrganizationsListAll t (p.orgOptions lib) = .ok [org]) :
    p.findOrg lib t
      = (.ok org, t ++ [⟨.OrganizationsListAll (p.orgOptions lib), .returned [org.GUID]⟩]) := by
  rcases findOrg_cases p lib t with ⟨err, hl2, h⟩ | ⟨orgs2, hl2, hn, h⟩ | ⟨org2, hl2, h⟩
  · rw [hl2] at hl
    exact absurd hl (by simp)
  · rw [hl2] at hl
    injection hl with hl
    rw [hl] at hn
    exact absurd rfl hn
  · rw [hl2] at hl
    injection hl with hl
    injection hl with hl
    rw [h, hl]

/-- What `findSpace` does on a list of spaces that is not of one space. -/
theorem findSpace_of_count (p : AppPushOperation) (lib : Library) (t : Trace)
    (orgGUID : String) (spaces : List Space)
    (hl : p.client.SpacesListAll t (p.spaceOptions lib orgGUID) = .ok spaces)
    (hn : spaces.length ≠ 1) :
    p.findSpace lib t orgGUID
      = (.error (.message ("expected to find one space named " ++ p.spaceName
          ++ ", but found " ++ toString spaces.length)),
        t ++ [⟨.SpacesListAll (p.spaceOptions lib orgGUID),
          .returned (spaces.map (fun s => s.GUID))⟩]) := by
  rcases findSpace_cases p lib t orgGUID with
    ⟨err, hl2, h⟩ | ⟨spaces2, hl2, _, h⟩ | ⟨space2, hl2, h⟩
  · rw [hl2] at hl
    exact absurd hl (by simp)
  · rw [hl2] at hl
    injection hl with hl
    rw [h, hl]
  · rw [hl2] at hl
    injection hl with hl
    rw [← hl] at hn
    exact absurd rfl hn

/-- What `findSpace` does on a list of one space. -/
theorem findSpace_of_one (p : AppPushOperation) (lib : Library) (t : Trace)
    (orgGUID : String) (space : Space)
    (hl : p.client.SpacesListAll t (p.spaceOptions lib orgGUID) = .ok [space]) :
    p.findSpace lib t orgGUID
      = (.ok space, t ++ [⟨.SpacesListAll (p.spaceOptions lib orgGUID),
          .returned [space.GUID]⟩]) := by
  rcases findSpace_cases p lib t orgGUID with
    ⟨err, hl2, h⟩ | ⟨spaces2, hl2, hn, h⟩ | ⟨space2, hl2, h⟩
  · rw [hl2] at hl
    exact absurd hl (by simp)
  · rw [hl2] at hl
    injection hl with hl
    rw [hl] at hn
    exact absurd rfl hn
  · rw [hl2] at hl
    injection hl with hl
    injection hl with hl
    rw [h, hl]

/-- A lookup returns a resource only from a list of that one resource. -/
theorem findOrg_ok_iff (p : AppPushOperation) (lib : Library) (t : Trace) (org : Organization) :
    (p.findOrg lib t).1 = .ok org ↔
      p.client.OrganizationsListAll t (p.orgOptions lib) = .ok [org] := by
  constructor
  · intro hr
    rcases findOrg_cases p lib t with ⟨err, _, h⟩ | ⟨orgs2, _, _, h⟩ | ⟨org2, hl2, h⟩
    · rw [h] at hr
      exact absurd hr (by simp)
    · rw [h] at hr
      exact absurd hr (by simp)
    · rw [h] at hr
      injection hr with hr
      rw [← hr]
      exact hl2
  · intro hl
    rw [findOrg_of_one p lib t org hl]

/-- A lookup returns a resource only from a list of that one resource. -/
theorem findSpace_ok_iff (p : AppPushOperation) (lib : Library) (t : Trace) (orgGUID : String)
    (space : Space) :
    (p.findSpace lib t orgGUID).1 = .ok space ↔
      p.client.SpacesListAll t (p.spaceOptions lib orgGUID) = .ok [space] := by
  constructor
  · intro hr
    rcases findSpace_cases p lib t orgGUID with
      ⟨err, _, h⟩ | ⟨spaces2, _, _, h⟩ | ⟨space2, hl2, h⟩
    · rw [h] at hr
      exact absurd hr (by simp)
    · rw [h] at hr
      exact absurd hr (by simp)
    · rw [h] at hr
      injection hr with hr
      rw [← hr]
      exact hl2
  · intro hl
    rw [findSpace_of_one p lib t orgGUID space hl]

/-- C18: `findOrg` lists the orgs with `Names` the one org name, and
`findSpace` lists the spaces with `Names` the one space name and
`OrganizationGUIDs` the one GUID it is given, each in one invocation; each
returns a resource exactly when the list holds that resource and nothing else,
and for every other count returns the error `expected to find one org (space)
named <name>, but found <count>`. A run of `Push` whose org list, or whose
space list, is not of one element stops there with that error, and the space
list of a run is always made with the GUID of the one org the org list of the
run returned. -/
theorem lookups_resolve_org_and_space (p : AppPushOperation) (lib : Library) (t : Trace)
    (orgGUID : String) :
    (p.orgOptions lib = { ListOptions := lib.NewListOptions, Names := ⟨[p.orgName]⟩ } ∧
      (∃ out, (p.findOrg lib t).2 = t ++ [⟨.OrganizationsListAll (p.orgOptions lib), out⟩]) ∧
      (∀ org, (p.findOrg lib t).1 = .ok org ↔
        p.client.OrganizationsListAll t (p.orgOptions lib) = .ok [org]) ∧
      (∀ orgs, p.client.OrganizationsListAll t (p.orgOptions lib) = .ok orgs →
        orgs.length ≠ 1 →
        (p.findOrg lib t).1 = .error (.message ("expected to find one org named " ++ p.orgName
          ++ ", but found " ++ toString orgs.length)))) ∧
    (p.spaceOptions lib orgGUID
        = { ListOptions := lib.NewListOptions, GUIDs := ⟨[]⟩, Names := ⟨[p.spaceName]⟩,
            OrganizationGUIDs := ⟨[orgGUID]⟩, Include := SpaceIncludeType.SpaceIncludeNone } ∧
      (∃ out, (p.findSpace lib t orgGUID).2
        = t ++ [⟨.SpacesListAll (p.spaceOptions lib orgGUID), out⟩]) ∧
      (∀ space, (p.findSpace lib t orgGUID).1 = .ok space ↔
        p.client.SpacesListAll t (p.spaceOptions lib orgGUID) = .ok [space]) ∧
      (∀ spaces, p.client.SpacesListAll t (p.spaceOptions lib orgGUID) = .ok spaces →
        spaces.length ≠ 1 →
        (p.findSpace lib t orgGUID).1 = .error (.message ("expected to find one space named "
          ++ p.spaceName ++ ", but found " ++ toString spaces.length)))) ∧
    (∀ manifest zipFile,
      (∀ orgs, p.client.OrganizationsListAll [] (p.orgOptions lib) = .ok orgs →
        orgs.length ≠ 1 →
        p.Push lib manifest zipFile
          = (.error (.message ("expected to find one org named " ++ p.orgName
              ++ ", but found " ++ toString orgs.length)),
            [⟨.OrganizationsListAll (p.orgOptions lib),
              .returned (orgs.map (fun o => o.GUID))⟩])) ∧
      (∀ org spaces, p.client.OrganizationsListAll [] (p.orgOptions lib) = .ok [org] →
        p.client.SpacesListAll
            [⟨.OrganizationsListAll (p.orgOptions lib), .returned [org.GUID]⟩]
            (p.spaceOptions lib org.GUID) = .ok spaces →
        spaces.length ≠ 1 →
        p.Push lib manifest zipFile
          = (.error (.message ("expected to find one space named " ++ p.spaceName
              ++ ", but found " ++ toString spaces.length)),
            [⟨.OrganizationsListAll (p.orgOptions lib), .returned [org.GUID]⟩,
              ⟨.SpacesListAll (p.spaceOptions lib org.GUID),
                .returned (spaces.map (fun s => s.GUID))⟩])) ∧
      (∀ opts out, (⟨.SpacesListAll opts, out⟩ : Event) ∈ (p.Push lib manifest zipFile).2 →
        ∃ (org : Organization) (rest : List Event),
          opts = p.spaceOptions lib org.GUID ∧
          p.client.OrganizationsListAll [] (p.orgOptions lib) = .ok [org] ∧
          (p.Push lib manifest zipFile).2
            = [⟨.OrganizationsListAll (p.orgOptions lib), .returned [org.GUID]⟩,
                ⟨.SpacesListAll opts, out⟩] ++ rest)) := by
  refine ⟨⟨rfl, ?_, findOrg_ok_iff p lib t, ?_⟩, ⟨rfl, ?_, findSpace_ok_iff p lib t orgGUID, ?_⟩,
    fun manifest zipFile => ⟨?_, ?_, ?_⟩⟩
  · rcases findOrg_cases p lib t with ⟨err, _, h⟩ | ⟨orgs, _, _, h⟩ | ⟨org, _, h⟩ <;>
      exact ⟨_, by rw [h]⟩
  · intro orgs hl hn
    rw [findOrg_of_count p lib t orgs hl hn]
  · rcases findSpace_cases p lib t orgGUID with
      ⟨err, _, h⟩ | ⟨spaces, _, _, h⟩ | ⟨space, _, h⟩ <;> exact ⟨_, by rw [h]⟩
  · intro spaces hl hn
    rw [findSpace_of_count p lib t orgGUID spaces hl hn]
  · intro orgs hl hn
    have h := findOrg_of_count p lib [] orgs hl hn
    simp only [AppPushOperation.Push, h, List.nil_append]
  · intro org spaces hl hs hn
    have h := findOrg_of_one p lib [] org hl
    rw [List.nil_append] at h
    have h2 := findSpace_of_count p lib _ org.GUID spaces hs hn
    simp only [AppPushOperation.Push, h, h2, List.singleton_append]
  · intro opts out hmem
    rcases findOrg_cases p lib [] with ⟨err, _, h⟩ | ⟨orgs, _, _, h⟩ | ⟨org, hl, h⟩
    · simp [AppPushOperation.Push, h] at hmem
    · simp [AppPushOperation.Push, h] at hmem
    · rw [List.nil_append] at h
      rcases findSpace_cases p lib
          [⟨.OrganizationsListAll (p.orgOptions lib), .returned [org.GUID]⟩] org.GUID with
        ⟨err, _, h2⟩ | ⟨spaces, _, _, h2⟩ | ⟨space, _, h2⟩
      · simp only [AppPushOperation.Push, h, h2, List.singleton_append, List.mem_cons,
          List.mem_singleton, List.not_mem_nil, or_false] at hmem ⊢
        rcases hmem with hmem | hmem
        · exact absurd hmem (by simp)
        · injection hmem with hc ho
          injection hc with hc
          exact ⟨org, [], hc, hl, by rw [hc, ho]; rfl⟩
      · simp only [AppPushOperation.Push, h, h2, List.singleton_append, List.mem_cons,
          List.mem_singleton, List.not_mem_nil, or_false] at hmem ⊢
        rcases hmem with hmem | hmem
        · exact absurd hmem (by simp)
        · injection hmem with hc ho
          injection hc with hc
          exact ⟨org, [], hc, hl, by rw [hc, ho]; rfl⟩
      · obtain ⟨v, hv⟩ := push_trace_places p lib manifest zipFile
        obtain ⟨i, rest, hi, hcall, htrace, _⟩ := hv _ hmem
        have hi1 : i = 1 := by
          interval_cases i <;>
            simp [AppPushOperation.callAt, AppPushOperation.pipeline] at hcall
          rfl
        subst hi1
        simp only [AppPushOperation.callAt, AppPushOperation.pipeline, List.getD_cons_succ,
          List.getD_cons_zero] at hcall
        injection hcall with hcall
        have hhead : (p.Push lib manifest zipFile).2.head?
            = some ⟨.OrganizationsListAll (p.orgOptions lib), .returned [org.GUID]⟩ := by
          obtain ⟨v2, k2, last2, _, _, h3, _⟩ := pushApp_run p lib
            [⟨.OrganizationsListAll (p.orgOptions lib), .returned [org.GUID]⟩,
              ⟨.SpacesListAll (p.spaceOptions lib org.GUID), .returned [space.GUID]⟩]
            { v with org := org, space := space } manifest zipFile
          have h4 : (p.Push lib manifest zipFile).2
              = (p.pushApp lib [⟨.OrganizationsListAll (p.orgOptions lib), .returned [org.GUID]⟩,
                  ⟨.SpacesListAll (p.spaceOptions lib org.GUID), .returned [space.GUID]⟩]
                space manifest zipFile).2 := by
            simp only [AppPushOperation.Push, h, h2, List.singleton_append]
          rw [h4]
          exact (congrArg List.head? h3).trans rfl
        rw [htrace] at hhead
        simp only [AppPushOperation.pipeline, List.take_succ_cons, List.take_zero,
          List.singleton_append, List.head?_cons, Option.some.injEq, Event.mk.injEq,
          Call.OrganizationsListAll.injEq, true_and] at hhead
        have hg : v.org.GUID = org.GUID := by simpa using hhead
        refine ⟨org, rest, by rw [hcall, hg], hl, ?_⟩
        rw [htrace]
        simp [AppPushOperation.pipeline, hg]

/-- C18, on sample clients: the org lookup and the space lookup return the one
resource listed; a run of `Push` that finds no org stops after the org list,
and one that finds two spaces stops after the space list, each with the error
that states the name and the count. -/
theorem lookups_resolve_org_and_space_witness :
    ((samplePush sampleClient).findOrg sampleLibrary []).1 = .ok ⟨"org-1", "acme"⟩ ∧
      ((samplePush sampleClient).findSpace sampleLibrary [] "org-1").1
        = .ok ⟨"space-1", "dev"⟩ ∧
      (samplePush (listingClient [] [] [] [])).Push sampleLibrary sampleManifest "zip"
        = (.error (.message "expected to find one org named acme, but found 0"),
          [⟨.OrganizationsListAll ⟨samplePaging, ⟨["acme"]⟩⟩, .returned []⟩]) ∧
      (samplePush (listingClient [⟨"org-1", "acme"⟩]
          [⟨"space-1", "dev"⟩, ⟨"space-2", "dev"⟩] [] [])).Push sampleLibrary sampleManifest "zip"
        = (.error (.message "expected to find one space named dev, but found 2"),
          [⟨.OrganizationsListAll ⟨samplePaging, ⟨["acme"]⟩⟩, .returned ["org-1"]⟩,
            ⟨.SpacesListAll ((samplePush sampleClient).spaceOptions sampleLibrary "org-1"),
              .returned ["space-1", "space-2"]⟩]) :=
  ⟨((lookups_resolve_org_and_space (samplePush sampleClient) sampleLibrary [] "org-1").1.2.2.1
      ⟨"org-1", "acme"⟩).2 rfl,
    ((lookups_resolve_org_and_space (samplePush sampleClient) sampleLibrary [] "org-1").2.1.2.2.1
      ⟨"space-1", "dev"⟩).2 rfl,
    ((lookups_resolve_org_and_space (samplePush (listingClient [] [] [] [])) sampleLibrary []
      "org-1").2.2 sampleManifest "zip").1 [] rfl (by decide),
    ((lookups_resolve_org_and_space (samplePush (listingClient [⟨"org-1", "acme"⟩]
        [⟨"space-1", "dev"⟩, ⟨"space-2", "dev"⟩] [] [])) sampleLibrary []
      "org-1").2.2 sampleManifest "zip").2.1 ⟨"org-1", "acme"⟩ _ rfl rfl (by decide)⟩

/-- C19: once the build is created and staged, `buildDroplet` makes one more
invocation, the list of the droplets of the package with the options in which
`States` is the one staged state; it returns a droplet exactly when the list
holds that droplet and nothing else, and for every other count it returns the
error `expected one droplet, but found <count>`. -/
theorem buildDroplet_expects_one_staged_droplet (p : AppPushOperation) (lib : Library)
    (t : Trace) (pkg : Package) (manifest : AppManifest) (build : Build)
    (hcreate : p.client.BuildsCreate t (buildRequest pkg.GUID manifest) = .ok build)
    (hstaged : p.client.BuildsPollStaged
      (t ++ [⟨.BuildsCreate (buildRequest pkg.GUID manifest), .returned [build.GUID]⟩])
      build.GUID = none) :
    stagedOptions lib
        = { ListOptions := lib.NewListOptions, States := ⟨[lib.DropletStateStaged]⟩ } ∧
      (∃ out, (p.buildDroplet lib t pkg manifest).2
        = t ++ [⟨.BuildsCreate (buildRequest pkg.GUID manifest), .returned [build.GUID]⟩,
            ⟨.BuildsPollStaged build.GUID, .returned []⟩,
            ⟨.DropletsListForPackageAll pkg.GUID (stagedOptions lib), out⟩]) ∧
      (∀ droplet, (p.buildDroplet lib t pkg manifest).1 = .ok droplet ↔
        p.client.DropletsListForPackageAll
          (t ++ [⟨.BuildsCreate (buildRequest pkg.GUID manifest), .returned [build.GUID]⟩,
            ⟨.BuildsPollStaged build.GUID, .returned []⟩]) pkg.GUID (stagedOptions lib)
          = .ok [droplet]) ∧
      (∀ droplets,
        p.client.DropletsListForPackageAll
          (t ++ [⟨.BuildsCreate (buildRequest pkg.GUID manifest), .returned [build.GUID]⟩,
            ⟨.BuildsPollStaged build.GUID, .returned []⟩]) pkg.GUID (stagedOptions lib)
          = .ok droplets →
        droplets.length ≠ 1 →
        (p.buildDroplet lib t pkg manifest).1
          = .error (.message ("expected one droplet, but found "
              ++ toString droplets.length))) := by
  simp only [buildRequest] at hcreate hstaged
  rcases h3 : p.client.DropletsListForPackageAll
      (t ++ [⟨.BuildsCreate (buildRequest pkg.GUID manifest), .returned [build.GUID]⟩,
        ⟨.BuildsPollStaged build.GUID, .returned []⟩]) pkg.GUID (stagedOptions lib)
    with err | droplets
  · have h3c := h3
    simp only [buildRequest, stagedOptions] at h3
    refine ⟨rfl, ⟨.failed err, ?_⟩, fun droplet => ?_, fun droplets hl _ => ?_⟩
    · simp [AppPushOperation.buildDroplet, NewBuildCreate, buildRequest, stagedOptions,
        hcreate, hstaged, h3]
    · simp [AppPushOperation.buildDroplet, NewBuildCreate, buildRequest, stagedOptions,
        hcreate, hstaged, h3]
    · rw [h3c] at hl
      exact absurd hl (by simp)
  · have h3c := h3
    simp only [buildRequest, stagedOptions] at h3
    rcases droplets with _ | ⟨droplet, _ | ⟨droplet2, rest⟩⟩
    · refine ⟨rfl, ⟨.returned [], ?_⟩, fun droplet => ?_, fun droplets hl _ => ?_⟩
      · simp [AppPushOperation.buildDroplet, NewBuildCreate, buildRequest, stagedOptions,
          hcreate, hstaged, h3]
      · simp [AppPushOperation.buildDroplet, NewBuildCreate, buildRequest, stagedOptions,
          hcreate, hstaged, h3]
      · rw [h3c] at hl
        injection hl with hl
        subst hl
        simp [AppPushOperation.buildDroplet, NewBuildCreate, buildRequest, stagedOptions,
          hcreate, hstaged, h3]
    · refine ⟨rfl, ⟨.returned [droplet.GUID], ?_⟩, fun droplet3 => ?_, fun droplets hl hn => ?_⟩
      · simp [AppPushOperation.buildDroplet, NewBuildCreate, buildRequest, stagedOptions,
          hcreate, hstaged, h3]
      · simp [AppPushOperation.buildDroplet, NewBuildCreate, buildRequest, stagedOptions,
          hcreate, hstaged, h3]
      · rw [h3c] at hl
        injection hl with hl
        subst hl
        exact absurd rfl hn
    · refine ⟨rfl, ⟨.returned (droplet.GUID :: droplet2.GUID :: rest.map (fun d => d.GUID)), ?_⟩,
        fun droplet3 => ?_, fun droplets hl _ => ?_⟩
      · simp [AppPushOperation.buildDroplet, NewBuildCreate, buildRequest, stagedOptions,
          hcreate, hstaged, h3]
      · simp [AppPushOperation.buildDroplet, NewBuildCreate, buildRequest, stagedOptions,
          hcreate, hstaged, h3]
      · rw [h3c] at hl
        injection hl with hl
        subst hl
        simp [AppPushOperation.buildDroplet, NewBuildCreate, buildRequest, stagedOptions,
          hcreate, hstaged, h3]

/-- C19, on sample clients: with one staged droplet listed `buildDroplet`
returns it; with none, or with two, it returns the error with the count. -/
theorem buildDroplet_expects_one_staged_droplet_witness :
    ((samplePush sampleClient).buildDroplet sampleLibrary [] ⟨"pkg-1"⟩ sampleManifest).1
        = .ok ⟨"droplet-1"⟩ ∧
      ((samplePush (listingClient [] [] [] [])).buildDroplet sampleLibrary [] ⟨"pkg-1"⟩
          sampleManifest).1
        = .error (.message "expected one droplet, but found 0") ∧
      ((samplePush (listingClient [] [] [] [⟨"droplet-1"⟩, ⟨"droplet-2"⟩])).buildDroplet
          sampleLibrary [] ⟨"pkg-1"⟩ sampleManifest).1
        = .error (.message "expected one droplet, but found 2") :=
  ⟨((buildDroplet_expects_one_staged_droplet (samplePush sampleClient) sampleLibrary []
      ⟨"pkg-1"⟩ sampleManifest ⟨"build-1"⟩ rfl rfl).2.2.1 ⟨"droplet-1"⟩).2 rfl,
    (buildDroplet_expects_one_staged_droplet (samplePush (listingClient [] [] [] []))
      sampleLibrary [] ⟨"pkg-1"⟩ sampleManifest ⟨"build-1"⟩ rfl rfl).2.2.2 [] rfl (by decide),
    (buildDroplet_expects_one_staged_droplet
      (samplePush (listingClient [] [] [] [⟨"droplet-1"⟩, ⟨"droplet-2"⟩]))
      sampleLibrary [] ⟨"pkg-1"⟩ sampleManifest ⟨"build-1"⟩ rfl rfl).2.2.2 _ rfl (by decide)⟩

/-- A run of `Push` makes at most thirteen invocations. -/
theorem push_trace_length (p : AppPushOperation) (lib : Library) (manifest : AppManifest)
    (zipFile : String) : (p.Push lib manifest zipFile).2.length ≤ 13 := by
  obtain ⟨v, k, last, htrace, hout, _⟩ := push_run p lib manifest zipFile
  rw [htrace, List.length_append]
  rcases hout with ⟨hk, hl, _⟩ | ⟨hk, out, hl, _⟩ | ⟨hk, hl, _⟩
  · rw [pipeline_take_length p lib manifest zipFile v k (by omega), hl]
    simp only [List.length_nil]
    omega
  · rw [pipeline_take_length p lib manifest zipFile v k (by omega), hl]
    simp only [List.length_singleton]
    omega
  · rw [pipeline_take_length p lib manifest zipFile v k (by omega), hl]
    simp only [List.length_nil]
    omega

/-- C20: in every run of `Push`, an invocation of `Applications.Start` is the
last invocation of the run and comes right after an invocation of
`Droplets.SetCurrentAssociationForApp` that returned without error, for the
same app GUID and with the GUID of the droplet that `buildDroplet` returned in
the run (from the first eight invocations of the run, the eleven before the
assignment being the run up to it). -/
theorem start_only_after_current_droplet (p : AppPushOperation) (lib : Library)
    (manifest : AppManifest) (zipFile : String) (guid : String) (out : Outcome)
    (hstart : (⟨.ApplicationsStart guid, out⟩ : Event) ∈ (p.Push lib manifest zipFile).2) :
    ∃ (before : List Event) (pkg : Package) (droplet : Droplet),
      (p.Push lib manifest zipFile).2
        = before ++ [⟨.DropletsSetCurrentAssociationForApp guid droplet.GUID, .returned []⟩,
            ⟨.ApplicationsStart guid, out⟩] ∧
      before.length = 11 ∧
      (p.buildDroplet lib (before.take 8) pkg manifest).1 = .ok droplet := by
  obtain ⟨v, hv⟩ := push_trace_places p lib manifest zipFile
  obtain ⟨i, rest, hi, hcall, htrace, hlink⟩ := hv _ hstart
  have hi12 : i = 12 := by
    interval_cases i <;> simp [AppPushOperation.callAt, AppPushOperation.pipeline] at hcall
    rfl
  subst hi12
  simp only [AppPushOperation.callAt, AppPushOperation.pipeline, List.getD_cons_succ,
    List.getD_cons_zero] at hcall
  injection hcall with hguid
  have hrest : rest = [] := by
    have hlen := push_trace_length p lib manifest zipFile
    rw [htrace, List.length_append,
      pipeline_take_length p lib manifest zipFile v 12 (by omega)] at hlen
    simp only [List.length_cons] at hlen
    exact List.length_eq_zero.1 (by omega)
  refine ⟨(p.pipeline lib manifest zipFile v).take 11, v.pkg, v.droplet, ?_, rfl, ?_⟩
  · rw [htrace, hrest, hguid]
    rfl
  · exact hlink (by omega)

/-- C20, on the sample client: the run starts the app `app-1`, and right before
it set the current droplet of `app-1` to the droplet `buildDroplet` returned. -/
theorem start_only_after_current_droplet_witness :
    (⟨.ApplicationsStart "app-1", .returned ["app-1"]⟩ : Event)
        ∈ ((samplePush sampleClient).Push sampleLibrary sampleManifest "zip").2 ∧
      ∃ (before : List Event) (pkg : Package) (droplet : Droplet),
        ((samplePush sampleClient).Push sampleLibrary sampleManifest "zip").2
          = before ++ [⟨.DropletsSetCurrentAssociationForApp "app-1" droplet.GUID, .returned []⟩,
              ⟨.ApplicationsStart "app-1", .returned ["app-1"]⟩] ∧
        before.length = 11 ∧
        ((samplePush sampleClient).buildDroplet sampleLibrary (before.take 8) pkg
          sampleManifest).1 = .ok droplet :=
  ⟨by decide,
    start_only_after_current_droplet (samplePush sampleClient) sampleLibrary sampleManifest
      "zip" "app-1" (.returned ["app-1"]) (by decide)⟩

/-! ## Single resources -/

/-- C21: `GetAssignedIsoSegment` makes one get, on the relationship path of
the space. When the get fails it returns the empty string and that error; when
the get succeeds and the relationship has no data it returns the empty string
and no error; when the get succeeds and data is present it returns the GUID of
the data and no error. -/
theorem getAssignedIsoSegment_returns (client : ResourceGet ToOneRelationship)
    (guid : String) :
    (∀ err, client.get ⟨"/v3/spaces/%s/relationships/isolation_segment", [.text guid]⟩
        = .error err →
      SpaceClient.GetAssignedIsoSegment client guid = ("", some err)) ∧
    (client.get ⟨"/v3/spaces/%s/relationships/isolation_segment", [.text guid]⟩
        = .ok ⟨none⟩ →
      SpaceClient.GetAssignedIsoSegment client guid = ("", none)) ∧
    (∀ data, client.get ⟨"/v3/spaces/%s/relationships/isolation_segment", [.text guid]⟩
        = .ok ⟨some data⟩ →
      SpaceClient.GetAssignedIsoSegment client guid = (data.GUID, none)) := by
  refine ⟨fun err h => ?_, fun h => ?_, fun data h => ?_⟩ <;>
    simp [SpaceClient.GetAssignedIsoSegment, h]

/-- C21, on three sample getters: one that fails, one that answers with no
data, one that answers with the segment `seg-1`. -/
theorem getAssignedIsoSegment_returns_witness :
    SpaceClient.GetAssignedIsoSegment (refusing ToOneRelationship) "space-1"
        = ("", some sampleFailure) ∧
      SpaceClient.GetAssignedIsoSegment (answering ⟨none⟩) "space-1" = ("", none) ∧
      SpaceClient.GetAssignedIsoSegment (answering ⟨some ⟨"seg-1"⟩⟩) "space-1"
        = ("seg-1", none) :=
  ⟨(getAssignedIsoSegment_returns (refusing ToOneRelationship) "space-1").1 sampleFailure rfl,
    (getAssignedIsoSegment_returns (answering ⟨none⟩) "space-1").2.1 rfl,
    (getAssignedIsoSegment_returns (answering ⟨some ⟨"seg-1"⟩⟩) "space-1").2.2 ⟨"seg-1"⟩ rfl⟩

/-- C27: the get-with-include operations index the included lists at 0 without
a check of their length. Whenever the get decodes a body whose included spaces
are empty, `GetIncludeSpace` and `GetIncludeSpaceAndOrg` panic; whenever it
decodes a body whose included organizations are empty, `GetIncludeOrg` panics,
and so does `GetIncludeSpaceAndOrg` when the included spaces are not empty.
They return normally, with the first included space and organization, exactly
when the lists they index are not empty. -/
theorem get_include_panics_on_empty (clientA : ResourceGet AppWithIncluded)
    (clientS : ResourceGet SpaceWithIncluded) (guid : String) :
    (∀ app, clientA.get ⟨"/v3/apps/%s?include=%s",
          [.text guid, .appInclude AppIncludeType.AppIncludeSpace]⟩ = .ok app →
      (app.Included.Spaces = [] →
        AppClient.GetIncludeSpace clientA guid
          = .panicked "index out of range [0] with length 0") ∧
      (∀ space rest, app.Included.Spaces = space :: rest →
        AppClient.GetIncludeSpace clientA guid = .returned (app.App, space))) ∧
    (∀ app, clientA.get ⟨"/v3/apps/%s?include=%s",
          [.text guid, .appInclude AppIncludeType.AppIncludeSpaceOrganization]⟩ = .ok app →
      (app.Included.Spaces = [] ∨ app.Included.Organizations = [] →
        AppClient.GetIncludeSpaceAndOrg clientA guid
          = .panicked "index out of range [0] with length 0") ∧
      (∀ space rest org rest2, app.Included.Spaces = space :: rest →
        app.Included.Organizations = org :: rest2 →
        AppClient.GetIncludeSpaceAndOrg clientA guid = .returned (app.App, space, org))) ∧
    (∀ space, clientS.get ⟨"/v3/spaces/%s?include=%s",
          [.text guid, .spaceInclude SpaceIncludeType.SpaceIncludeOrganization]⟩ = .ok space →
      (space.Included.Organizations = [] →
        SpaceClient.GetIncludeOrg clientS guid
          = .panicked "index out of range [0] with length 0") ∧
      (∀ org rest, space.Included.Organizations = org :: rest →
        SpaceClient.GetIncludeOrg clientS guid = .returned (space.Space, org))) := by
  refine ⟨fun app h => ⟨fun h1 => ?_, fun space rest h1 => ?_⟩,
    fun app h => ⟨fun h1 => ?_, fun space rest org rest2 h1 h2 => ?_⟩,
    fun space h => ⟨fun h1 => ?_, fun org rest h1 => ?_⟩⟩
  · simp [AppClient.GetIncludeSpace, h, h1]
  · simp [AppClient.GetIncludeSpace, h, h1]
  · rcases h1 with h1 | h1
    · simp [AppClient.GetIncludeSpaceAndOrg, h, h1]
    · rcases h2 : app.Included.Spaces with _ | ⟨space, rest⟩
      · simp [AppClient.GetIncludeSpaceAndOrg, h, h2]
      · simp [AppClient.GetIncludeSpaceAndOrg, h, h1, h2]
  · simp [AppClient.GetIncludeSpaceAndOrg, h, h1, h2]
  · simp [SpaceClient.GetIncludeOrg, h, h1]
  · simp [SpaceClient.GetIncludeOrg, h, h1]

/-- C27, on getters that answer with a decoded body that includes nothing: the
three operations panic instead of returning. -/
theorem get_include_panics_on_empty_witness :
    AppClient.GetIncludeSpace (answering ⟨⟨"app-1", "one", "STARTED"⟩, ⟨[], []⟩⟩) "app-1"
        = .panicked "index out of range [0] with length 0" ∧
      AppClient.GetIncludeSpaceAndOrg
          (answering ⟨⟨"app-1", "one", "STARTED"⟩, ⟨[⟨"space-1", "dev"⟩], []⟩⟩) "app-1"
        = .panicked "index out of range [0] with length 0" ∧
      SpaceClient.GetIncludeOrg (answering ⟨⟨"space-1", "dev"⟩, ⟨[]⟩⟩) "space-1"
        = .panicked "index out of range [0] with length 0" :=
  ⟨((get_include_panics_on_empty (answering ⟨⟨"app-1", "one", "STARTED"⟩, ⟨[], []⟩⟩)
      (answering ⟨⟨"space-1", "dev"⟩, ⟨[]⟩⟩) "app-1").1 _ rfl).1 rfl,
    ((get_include_panics_on_empty
      (answering ⟨⟨"app-1", "one", "STARTED"⟩, ⟨[⟨"space-1", "dev"⟩], []⟩⟩)
      (answering ⟨⟨"space-1", "dev"⟩, ⟨[]⟩⟩) "app-1").2.1 _ rfl).1 (Or.inr rfl),
    ((get_include_panics_on_empty (answering ⟨⟨"app-1", "one", "STARTED"⟩, ⟨[], []⟩⟩)
      (answering ⟨⟨"space-1", "dev"⟩, ⟨[]⟩⟩) "space-1").2.2 _ rfl).1 rfl⟩

/-! ## The include of a request -/

/-- The requests of a list-all loop: when every fetch makes one request, and
that request has the property `P` whatever options the fetch is given, every
request the loop makes has the property `P`. Nothing is assumed about the
advance of the options between the pages. -/
theorem pageLoop_requests {O A : Type} [ListOptioner O] (fetch : Fetch (History O) O A)
    (app : A → A → A) (P : Request O → Prop)
    (hfetch : ∀ w o, ∃ req, (fetch w o).2.1 = w ++ [req] ∧ P req)
    (fuel : Nat) (w : History O) (o : O) (acc : A) :
    ∃ made, (pageLoop fetch app fuel w o acc).2.1 = w ++ made ∧ (∀ req ∈ made, P req) ∧
      (0 < fuel → made ≠ []) := by
  induction fuel generalizing w o acc with
  | zero => exact ⟨[], by simp [pageLoop], by simp, by simp⟩
  | succ n ih =>
    obtain ⟨req, hreq, hP⟩ := hfetch w o
    rcases hf : fetch w o with ⟨(err | ⟨a, pager⟩), w1, o1⟩
    · rw [hf] at hreq
      simp only at hreq
      refine ⟨[req], ?_, ?_, by simp⟩
      · simp only [pageLoop, hf, hreq]
      · intro r hr
        rw [List.mem_singleton.1 hr]
        exact hP
    · rw [hf] at hreq
      simp only at hreq
      by_cases hn : pager.HasNextPage = true
      · obtain ⟨made, hmade, hall, _⟩ := ih w1 (pager.afterNextPage o1) (app acc a)
        refine ⟨req :: made, ?_, ?_, by simp⟩
        · rw [pageLoop]
          simp only [hf, hn, Bool.not_true, Bool.false_eq_true, if_false]
          rw [hmade, hreq, List.append_assoc, List.singleton_append]
        · intro r hr
          rcases List.mem_cons.1 hr with h | h
          · rw [h]
            exact hP
          · exact hall r h
      · have hn2 : pager.HasNextPage = false := by simpa using hn
        refine ⟨[req], ?_, ?_, by simp⟩
        · simp only [pageLoop, hf, hn2, Bool.not_false, if_true, hreq]
        · intro r hr
          rw [List.mem_singleton.1 hr]
          exact hP

/-- The one request of `ListIncludeSpaces`, whatever the options. -/
theorem listIncludeSpaces_request (c : AppClient) (d : ListOptions)
    (w : History AppListOptions) (opts : Option AppListOptions) :
    ∃ req, (c.ListIncludeSpaces d w opts).2.1 = w ++ [req] ∧
      req.query.Include = AppIncludeType.AppIncludeSpace := by
  unfold AppClient.ListIncludeSpaces
  cases opts <;> dsimp only <;> split <;> exact ⟨_, rfl, rfl⟩

/-- The one request of `ListIncludeSpacesAndOrgs`, whatever the options. -/
theorem listIncludeSpacesAndOrgs_request (c : AppClient) (d : ListOptions)
    (w : History AppListOptions) (opts : Option AppListOptions) :
    ∃ req, (c.ListIncludeSpacesAndOrgs d w opts).2.1 = w ++ [req] ∧
      req.query.Include = AppIncludeType.AppIncludeSpaceOrganization := by
  unfold AppClient.ListIncludeSpacesAndOrgs
  cases opts <;> dsimp only <;> split <;> exact ⟨_, rfl, rfl⟩

/-- C25: `AppClient.List` and `SpaceClient.List` overwrite the `Include` of the
options they are given. For every options value, whatever its `Include`, the
one request of the call is built from the options with `Include` set to the
none value, and after the call, whether it succeeded or failed, the options
have `Include` none and every other field as before the call. -/
theorem list_overwrites_include :
    (∀ (c : AppClient) (d : ListOptions) (w : History AppListOptions) (o : AppListOptions),
      (c.List d w (some o)).2.1
          = w ++ [⟨"/v3/apps", { o with Include := AppIncludeType.AppIncludeNone }⟩] ∧
        (c.List d w (some o)).2.2
          = { ListOptions := o.ListOptions, GUIDs := o.GUIDs, Names := o.Names,
              OrganizationGUIDs := o.OrganizationGUIDs, SpaceGUIDs := o.SpaceGUIDs,
              Stacks := o.Stacks, LifecycleType := o.LifecycleType,
              Include := AppIncludeType.AppIncludeNone }) ∧
    (∀ (c : SpaceClient) (d : ListOptions) (w : History SpaceListOptions)
        (o : SpaceListOptions),
      (c.List d w (some o)).2.1
          = w ++ [⟨"/v3/spaces", { o with Include := SpaceIncludeType.SpaceIncludeNone }⟩] ∧
        (c.List d w (some o)).2.2
          = { ListOptions := o.ListOptions, GUIDs := o.GUIDs, Names := o.Names,
              OrganizationGUIDs := o.OrganizationGUIDs,
              Include := SpaceIncludeType.SpaceIncludeNone }) := by
  constructor
  · intro c d w o
    unfold AppClient.List
    dsimp only
    split <;> exact ⟨rfl, rfl⟩
  · intro c d w o
    unfold SpaceClient.List
    dsimp only
    split <;> exact ⟨rfl, rfl⟩

/-- C26: every page request of `ListIncludeSpacesAll` is built from options
whose `Include` is `AppIncludeSpace`, and every page request of
`ListIncludeSpacesAndOrgsAll` from options whose `Include` is
`AppIncludeSpaceOrganization`: for every server, every initial options value
(present or nil, whatever its `Include`) and every fuel. The single-page
operations set the include on whatever options they are handed, so nothing the
advance does to the options between two pages can change it. With fuel for at
least one turn of the loop at least one request is made. -/
theorem include_is_set_on_every_page (c : AppClient) (d : ListOptions)
    (w : History AppListOptions) (opts : Option AppListOptions) :
    (∃ req, (c.ListIncludeSpaces d w opts).2.1 = w ++ [req] ∧
      req.query.Include = AppIncludeType.AppIncludeSpace) ∧
    (∃ req, (c.ListIncludeSpacesAndOrgs d w opts).2.1 = w ++ [req] ∧
      req.query.Include = AppIncludeType.AppIncludeSpaceOrganization) ∧
    (∀ fuel, ∃ made, (c.ListIncludeSpacesAll d fuel w opts).2.1 = w ++ made ∧
      (∀ req ∈ made, req.query.Include = AppIncludeType.AppIncludeSpace) ∧
      (0 < fuel → made ≠ [])) ∧
    (∀ fuel, ∃ made, (c.ListIncludeSpacesAndOrgsAll d fuel w opts).2.1 = w ++ made ∧
      (∀ req ∈ made, req.query.Include = AppIncludeType.AppIncludeSpaceOrganization) ∧
      (0 < fuel → made ≠ [])) := by
  refine ⟨listIncludeSpaces_request c d w opts, listIncludeSpacesAndOrgs_request c d w opts,
    fun fuel => ?_, fun fuel => ?_⟩
  · have hfetch : ∀ w1 o, ∃ req, (c.fetchIncludeSpaces d w1 o).2.1 = w1 ++ [req] ∧
        req.query.Include = AppIncludeType.AppIncludeSpace := by
      intro w1 o
      obtain ⟨req, h1, h2⟩ := listIncludeSpaces_request c d w1 (some o)
      refine ⟨req, ?_, h2⟩
      rw [← h1]
      unfold AppClient.fetchIncludeSpaces
      split <;> simp_all
    simp only [AppClient.ListIncludeSpacesAll, includeSpacesAll_loop_eq_pageLoop]
    exact pageLoop_requests (c.fetchIncludeSpaces d) append2
      (fun req => req.query.Include = AppIncludeType.AppIncludeSpace) hfetch fuel w _ _
  · have hfetch : ∀ w1 o, ∃ req, (c.fetchIncludeSpacesAndOrgs d w1 o).2.1 = w1 ++ [req] ∧
        req.query.Include = AppIncludeType.AppIncludeSpaceOrganization := by
      intro w1 o
      obtain ⟨req, h1, h2⟩ := listIncludeSpacesAndOrgs_request c d w1 (some o)
      refine ⟨req, ?_, h2⟩
      rw [← h1]
      unfold AppClient.fetchIncludeSpacesAndOrgs
      split <;> simp_all
    simp only [AppClient.ListIncludeSpacesAndOrgsAll, includeSpacesAndOrgsAll_loop_eq_pageLoop]
    exact pageLoop_requests (c.fetchIncludeSpacesAndOrgs d) append3
      (fun req => req.query.Include = AppIncludeType.AppIncludeSpaceOrganization) hfetch fuel w
      _ _

/-- C26, on the sample server of two pages, entered with options that ask for
no include: both requests of `ListIncludeSpacesAll` ask for the spaces, and
both requests of `ListIncludeSpacesAndOrgsAll` for the spaces and the
organizations. -/
theorem include_is_set_on_every_page_witness :
    (pagedServer.ListIncludeSpacesAll samplePaging 5 [] (some (NewAppListOptions samplePaging))).2.1.map
        (fun req => req.query.Include)
        = [AppIncludeType.AppIncludeSpace, AppIncludeType.AppIncludeSpace] ∧
      (pagedServer.ListIncludeSpacesAndOrgsAll samplePaging 5 []
          (some (NewAppListOptions samplePaging))).2.1.map (fun req => req.query.Include)
        = [AppIncludeType.AppIncludeSpaceOrganization,
            AppIncludeType.AppIncludeSpaceOrganization] ∧
      ∃ made, (pagedServer.ListIncludeSpacesAll samplePaging 5 []
            (some (NewAppListOptions samplePaging))).2.1 = [] ++ made ∧
          (∀ req ∈ made, req.query.Include = AppIncludeType.AppIncludeSpace) ∧
          (0 < 5 → made ≠ []) :=
  ⟨by decide, by decide,
    (include_is_set_on_every_page pagedServer samplePaging []
      (some (NewAppListOptions samplePaging))).2.2.1 5⟩

/-! ## Builds -/

/-- A run of `CreateBuild`, by the request it sends. -/
theorem createBuild_run {M : Type} (c : BuildClient M) (packageGUID : String)
    (lifecycle : Option Lifecycle) (metadata : Option M) :
    c.CreateBuild packageGUID lifecycle metadata
      = match c.DoRequest (createBuildRequest packageGUID lifecycle metadata) with
        | .error err =>
          (.error (.wrapped "Error while creating v3 build" err),
            [.DoRequest (createBuildRequest packageGUID lifecycle metadata)])
        | .ok resp =>
          if resp.StatusCode ≠ StatusCreated then
            (.error (.message ("Error creating v3 build, response code: "
              ++ toString resp.StatusCode)),
              [.DoRequest (createBuildRequest packageGUID lifecycle metadata),
                .Close resp.Body])
          else
            match c.decodeBuild resp.Body with
            | .error err =>
              (.error (.wrapped "Error reading  Build JSON" err),
                [.DoRequest (createBuildRequest packageGUID lifecycle metadata),
                  .Decode resp.Body, .Close resp.Body])
            | .ok build =>
              (.ok build, [.DoRequest (createBuildRequest packageGUID lifecycle metadata),
                .Decode resp.Body, .Close resp.Body]) := rfl

/-- The first effect of every run of `CreateBuild` is the sending of its
request. -/
theorem createBuild_sends {M : Type} (c : BuildClient M) (packageGUID : String)
    (lifecycle : Option Lifecycle) (metadata : Option M) :
    sentRequest (c.CreateBuild packageGUID lifecycle metadata).2
      = some (createBuildRequest packageGUID lifecycle metadata) := by
  rw [createBuild_run]
  split
  · rfl
  · split
    · rfl
    · split <;> rfl

/-- C28: `CreateBuild` sends one request. If the request fails, it returns no
build and the error `Error while creating v3 build` wrapping the cause. If the
response has a status other than 201, be it another 2xx code, it returns no
build and the error `Error creating v3 build, response code: <status>`, and
does not decode the body. If the status is 201 it decodes the body and returns
the decoded build, or, when the body does not decode, the error
`Error reading  Build JSON` wrapping the decoder's error. So a build is
returned only from a response of status 201 whose body decodes to it. -/
theorem createBuild_needs_status_created {M : Type} (c : BuildClient M) (packageGUID : String)
    (lifecycle : Option Lifecycle) (metadata : Option M) :
    sentRequest (c.CreateBuild packageGUID lifecycle metadata).2
        = some (createBuildRequest packageGUID lifecycle metadata) ∧
      (∀ err,
        c.DoRequest (createBuildRequest packageGUID lifecycle metadata) = .error err →
        c.CreateBuild packageGUID lifecycle metadata
          = (.error (.wrapped "Error while creating v3 build" err),
            [.DoRequest (createBuildRequest packageGUID lifecycle metadata)])) ∧
      (∀ resp,
        c.DoRequest (createBuildRequest packageGUID lifecycle metadata) = .ok resp →
        resp.StatusCode ≠ 201 →
        c.CreateBuild packageGUID lifecycle metadata
            = (.error (.message ("Error creating v3 build, response code: "
                ++ toString resp.StatusCode)),
              [.DoRequest (createBuildRequest packageGUID lifecycle metadata),
                .Close resp.Body]) ∧
          decoded (c.CreateBuild packageGUID lifecycle metadata).2 = false) ∧
      (∀ resp build,
        c.DoRequest (createBuildRequest packageGUID lifecycle metadata) = .ok resp →
        resp.StatusCode = 201 →
        c.decodeBuild resp.Body = .ok build →
        c.CreateBuild packageGUID lifecycle metadata
          = (.ok build, [.DoRequest (createBuildRequest packageGUID lifecycle metadata),
              .Decode resp.Body, .Close resp.Body])) ∧
      (∀ resp err,
        c.DoRequest (createBuildRequest packageGUID lifecycle metadata) = .ok resp →
        resp.StatusCode = 201 →
        c.decodeBuild resp.Body = .error err →
        c.CreateBuild packageGUID lifecycle metadata
          = (.error (.wrapped "Error reading  Build JSON" err),
            [.DoRequest (createBuildRequest packageGUID lifecycle metadata),
              .Decode resp.Body, .Close resp.Body])) ∧
      (∀ build, (c.CreateBuild packageGUID lifecycle metadata).1 = .ok build →
        ∃ resp,
          c.DoRequest (createBuildRequest packageGUID lifecycle metadata) = .ok resp ∧
          resp.StatusCode = 201 ∧ c.decodeBuild resp.Body = .ok build) := by
  refine ⟨createBuild_sends c packageGUID lifecycle metadata, ?_⟩
  rw [createBuild_run]
  refine ⟨fun err h => ?_, fun resp h hs => ?_, fun resp build h hs h2 => ?_,
    fun resp err h hs h2 => ?_, fun build hb => ?_⟩
  · simp [h]
  · have hs2 : resp.StatusCode ≠ StatusCreated := hs
    simp [h, hs2, decoded]
  · have hs2 : resp.StatusCode = StatusCreated := hs
    simp [h, hs2, h2]
  · have hs2 : resp.StatusCode = StatusCreated := hs
    simp [h, hs2, h2]
  · rcases h : c.DoRequest (createBuildRequest packageGUID lifecycle metadata) with err | resp
    · simp [h] at hb
    · by_cases hs : resp.StatusCode = StatusCreated
      · rcases h2 : c.decodeBuild resp.Body with err | b
        · simp [h, hs, h2] at hb
        · simp [h, hs, h2] at hb
          exact ⟨resp, rfl, hs, by rw [h2, hb]⟩
      · simp [h, hs] at hb

/-- C28, on sample build servers: with status 201 the build is returned; with
status 200 or 202 the error states the status code and nothing is decoded. -/
theorem createBuild_needs_status_created_witness :
    (buildServer 201).CreateBuild "pkg-1" none none
        = (.ok ⟨"build-1"⟩, [.DoRequest (createBuildRequest "pkg-1" none none),
            .Decode "build-1", .Close "build-1"]) ∧
      ((buildServer 200).CreateBuild "pkg-1" none none
          = (.error (.message "Error creating v3 build, response code: 200"),
            [.DoRequest (createBuildRequest "pkg-1" none none), .Close "build-1"]) ∧
        decoded ((buildServer 200).CreateBuild "pkg-1" none none).2 = false) ∧
      ((buildServer 202).CreateBuild "pkg-1" none none
          = (.error (.message "Error creating v3 build, response code: 202"),
            [.DoRequest (createBuildRequest "pkg-1" none none), .Close "build-1"]) ∧
        decoded ((buildServer 202).CreateBuild "pkg-1" none none).2 = false) :=
  ⟨(createBuild_needs_status_created (buildServer 201) "pkg-1" none none).2.2.2.1
      ⟨201, "build-1"⟩ ⟨"build-1"⟩ rfl rfl rfl,
    (createBuild_needs_status_created (buildServer 200) "pkg-1" none none).2.2.1
      ⟨200, "build-1"⟩ rfl (by decide),
    (createBuild_needs_status_created (buildServer 202) "pkg-1" none none).2.2.1
      ⟨202, "build-1"⟩ rfl (by decide)⟩

/-- C29: for every package GUID, lifecycle and metadata, the request
`CreateBuild` sends is a POST to `/v3/builds` whose body maps `package` to the
object with the one key `guid` and the value `packageGUID`, maps `lifecycle` to
the lifecycle exactly when one is given, maps `metadata` to the metadata
exactly when one is given, and has no other key; no key occurs twice. -/
theorem createBuild_body {M : Type} (c : BuildClient M) (packageGUID : String)
    (lifecycle : Option Lifecycle) (metadata : Option M) :
    ∃ params : Params M,
      sentRequest (c.CreateBuild packageGUID lifecycle metadata).2
        = some ⟨"POST", "/v3/builds", some params⟩ ∧
      params.lookup "package" = some (.obj [("guid", .str packageGUID)]) ∧
      params.lookup "lifecycle" = lifecycle.map Value.lifecycle ∧
      params.lookup "metadata" = metadata.map Value.metadata ∧
      ("lifecycle" ∈ keys params ↔ lifecycle ≠ none) ∧
      ("metadata" ∈ keys params ↔ metadata ≠ none) ∧
      (∀ k ∈ keys params, k = "package" ∨ k = "lifecycle" ∨ k = "metadata") ∧
      (keys params).Nodup := by
  refine ⟨createBuildParams packageGUID lifecycle metadata,
    createBuild_sends c packageGUID lifecycle metadata, ?_⟩
  rcases lifecycle with _ | l <;> rcases metadata with _ | m
  · have hk : keys (createBuildParams packageGUID none (none : Option M)) = ["package"] := rfl
    refine ⟨rfl, rfl, rfl, ?_, ?_, ?_, ?_⟩ <;> simp [hk]
  · have hk : keys (createBuildParams packageGUID none (some m))
        = ["package", "metadata"] := rfl
    refine ⟨rfl, rfl, rfl, ?_, ?_, ?_, ?_⟩ <;> simp [hk]
  · have hk : keys (createBuildParams packageGUID (some l) (none : Option M))
        = ["package", "lifecycle"] := rfl
    refine ⟨rfl, rfl, rfl, ?_, ?_, ?_, ?_⟩ <;> simp [hk]
  · have hk : keys (createBuildParams packageGUID (some l) (some m))
        = ["package", "lifecycle", "metadata"] := rfl
    refine ⟨rfl, rfl, rfl, ?_, ?_, ?_, ?_⟩ <;> simp [hk]

/-- C29, on a sample build server, with a lifecycle and no metadata: the body
has the keys `package` and `lifecycle`, in this order of insertion. -/
theorem createBuild_body_witness :
    keys (createBuildParams "pkg-1" (some ⟨"buildpack", ⟨["go_buildpack"], "cflinuxfs4"⟩⟩)
        (none : Option Unit)) = ["package", "lifecycle"] ∧
      ∃ params : Params Unit,
        sentRequest ((buildServer 201).CreateBuild "pkg-1"
            (some ⟨"buildpack", ⟨["go_buildpack"], "cflinuxfs4"⟩⟩) none).2
          = some ⟨"POST", "/v3/builds", some params⟩ ∧
        params.lookup "package" = some (.obj [("guid", .str "pkg-1")]) ∧
        params.lookup "lifecycle"
          = (some ⟨"buildpack", ⟨["go_buildpack"], "cflinuxfs4"⟩⟩ : Option Lifecycle).map
              Value.lifecycle ∧
        params.lookup "metadata" = (none : Option Unit).map Value.metadata ∧
        ("lifecycle" ∈ keys params ↔
          (some ⟨"buildpack", ⟨["go_buildpack"], "cflinuxfs4"⟩⟩ : Option Lifecycle) ≠ none) ∧
        ("metadata" ∈ keys params ↔ (none : Option Unit) ≠ none) ∧
        (∀ k ∈ keys params, k = "package" ∨ k = "lifecycle" ∨ k = "metadata") ∧
        (keys params).Nodup :=
  ⟨rfl, createBuild_body (buildServer 201) "pkg-1"
    (some ⟨"buildpack", ⟨["go_buildpack"], "cflinuxfs4"⟩⟩) none⟩

/-! ## Push: what flows between the steps -/

/-- C24: for every manifest, the build a run of `Push` asks for has the
lifecycle of type `buildpack` whose data are exactly the `Buildpacks` and the
`Stack` of the manifest: `buildDroplet` starts with the creation of that build,
every build creation of a run of `Push` is that one, and no other field of the
manifest (a docker image, say) enters the request. -/
theorem build_has_buildpack_lifecycle (p : AppPushOperation) (lib : Library)
    (manifest : AppManifest) :
    (∀ (t : Trace) (pkg : Package), ∃ out rest,
      (p.buildDroplet lib t pkg manifest).2
        = t ++ ⟨.BuildsCreate ⟨pkg.GUID, some ⟨"buildpack",
            ⟨manifest.Buildpacks, manifest.Stack⟩⟩⟩, out⟩ :: rest) ∧
    (∀ (zipFile : String) (r : BuildCreate) (out : Outcome),
      (⟨.BuildsCreate r, out⟩ : Event) ∈ (p.Push lib manifest zipFile).2 →
      r.Lifecycle = some ⟨"buildpack", ⟨manifest.Buildpacks, manifest.Stack⟩⟩) ∧
    (∀ (other : AppManifest) (packageGUID : String),
      other.Buildpacks = manifest.Buildpacks → other.Stack = manifest.Stack →
      buildRequest packageGUID other = buildRequest packageGUID manifest) := by
  refine ⟨fun t pkg => ?_, fun zipFile r out hmem => ?_, fun other g h1 h2 => ?_⟩
  · rcases buildDroplet_cases p lib t pkg manifest with
      ⟨e, h⟩ | ⟨build, e, h⟩ | ⟨build, e, _, h⟩ | ⟨build, droplets, _, _, h⟩ |
        ⟨build, droplet, _, h⟩ <;> exact ⟨_, _, by rw [h]; rfl⟩
  · obtain ⟨v, hv⟩ := push_trace_places p lib manifest zipFile
    obtain ⟨i, rest, hi, hcall, _, _⟩ := hv _ hmem
    interval_cases i <;> simp [AppPushOperation.callAt, AppPushOperation.pipeline] at hcall
    rw [hcall]
    rfl
  · simp [buildRequest, h1, h2]

/-- C24, on the sample manifest, which names a docker image next to its
buildpack and its stack: the build of the sample run is asked for with the
buildpack lifecycle of `go_buildpack` on `cflinuxfs4`. -/
theorem build_has_buildpack_lifecycle_witness :
    sampleManifest.Docker.Image = "registry.example.org/one" ∧
      (⟨.BuildsCreate ⟨"pkg-1", some ⟨"buildpack", ⟨["go_buildpack"], "cflinuxfs4"⟩⟩⟩,
          .returned ["build-1"]⟩ : Event)
        ∈ ((samplePush sampleClient).Push sampleLibrary sampleManifest "zip").2 ∧
      (⟨"pkg-1", some ⟨"buildpack", ⟨["go_buildpack"], "cflinuxfs4"⟩⟩⟩ : BuildCreate).Lifecycle
        = some ⟨"buildpack", ⟨sampleManifest.Buildpacks, sampleManifest.Stack⟩⟩ :=
  ⟨rfl, by decide,
    (build_has_buildpack_lifecycle (samplePush sampleClient) sampleLibrary sampleManifest).2.1
      "zip" _ (.returned ["build-1"]) (by decide)⟩

/-- C23: within one run of `Push` the GUIDs flow from step to step. There are
one app, one package, one build and one droplet such that every invocation of
the run comes after exactly the invocations of the pipeline before its place,
which all succeeded, and: the package is created for the GUID the app lookup
returned; the upload and the package poll are for the GUID the package creation
returned; the build is created from that package GUID and polled by the GUID
the build creation returned; the droplets are listed for that package GUID; the
current droplet is set on, and the start is invoked on, the GUID of the app,
with the GUID of the droplet the droplet list returned. -/
theorem push_guids_flow (p : AppPushOperation) (lib : Library) (manifest : AppManifest)
    (zipFile : String) :
    ∃ (app : App) (pkg : Package) (build : Build) (droplet : Droplet),
      ∀ ev ∈ (p.Push lib manifest zipFile).2, ∃ before rest,
        (p.Push lib manifest zipFile).2 = before ++ ev :: rest ∧
        (∀ e ∈ before, e.good = true) ∧
        match ev.call with
        | .PackagesCreate r =>
          r = NewPackageCreate app.GUID ∧
          ∃ opts, (⟨.ApplicationsListAll opts, .returned [app.GUID]⟩ : Event) ∈ before
        | .PackagesUploadBits guid file =>
          guid = pkg.GUID ∧ file = zipFile ∧
          (⟨.PackagesCreate (NewPackageCreate app.GUID), .returned [pkg.GUID]⟩ : Event) ∈ before
        | .PackagesPollReady guid =>
          guid = pkg.GUID ∧
          (⟨.PackagesCreate (NewPackageCreate app.GUID), .returned [pkg.GUID]⟩ : Event) ∈ before
        | .BuildsCreate r =>
          r.PackageGUID = pkg.GUID ∧
          (⟨.PackagesCreate (NewPackageCreate app.GUID), .returned [pkg.GUID]⟩ : Event) ∈ before
        | .BuildsPollStaged guid =>
          guid = build.GUID ∧
          (⟨.BuildsCreate (buildRequest pkg.GUID manifest), .returned [build.GUID]⟩ : Event)
            ∈ before
        | .DropletsListForPackageAll guid _ =>
          guid = pkg.GUID ∧
          (⟨.PackagesCreate (NewPackageCreate app.GUID), .returned [pkg.GUID]⟩ : Event) ∈ before
        | .DropletsSetCurrentAssociationForApp appGUID dropletGUID =>
          appGUID = app.GUID ∧ dropletGUID = droplet.GUID ∧
          (∃ opts, (⟨.ApplicationsListAll opts, .returned [app.GUID]⟩ : Event) ∈ before) ∧
          ∃ opts, (⟨.DropletsListForPackageAll pkg.GUID opts, .returned [droplet.GUID]⟩ : Event)
            ∈ before
        | .ApplicationsStart guid =>
          guid = app.GUID ∧
          ∃ opts, (⟨.ApplicationsListAll opts, .returned [app.GUID]⟩ : Event) ∈ before
        | _ => True := by
  obtain ⟨v, hv⟩ := push_trace_places p lib manifest zipFile
  refine ⟨v.app, v.pkg, v.build, v.droplet, fun ev hev => ?_⟩
  obtain ⟨i, rest, hi, hcall, htrace, _⟩ := hv ev hev
  refine ⟨(p.pipeline lib manifest zipFile v).take i, rest, htrace,
    fun e he => pipeline_good p lib manifest zipFile v e (List.mem_of_mem_take he), ?_⟩
  rw [hcall]
  interval_cases i <;>
    simp [AppPushOperation.callAt, AppPushOperation.pipeline, buildRequest, NewPackageCreate]

/-- C23, on the sample client: the calls of the run, with the GUIDs `app-1`,
`pkg-1`, `build-1` and `droplet-1` handed from step to step. -/
theorem push_guids_flow_witness :
    ((samplePush sampleClient).Push sampleLibrary sampleManifest "zip").2.map
        (fun ev => ev.call)
      = [.OrganizationsListAll ((samplePush sampleClient).orgOptions sampleLibrary),
          .SpacesListAll ((samplePush sampleClient).spaceOptions sampleLibrary "org-1"),
          .ManifestsApplyManifest "space-1" "applications: one",
          .JobsPollComplete "job-1",
          .ApplicationsListAll (appOptions sampleLibrary "one" "space-1"),
          .PackagesCreate ⟨"app-1"⟩,
          .PackagesUploadBits "pkg-1" "zip",
          .PackagesPollReady "pkg-1",
          .BuildsCreate (buildRequest "pkg-1" sampleManifest),
          .BuildsPollStaged "build-1",
          .DropletsListForPackageAll "pkg-1" (stagedOptions sampleLibrary),
          .DropletsSetCurrentAssociationForApp "app-1" "droplet-1",
          .ApplicationsStart "app-1"] ∧
      ∃ (app : App) (pkg : Package) (build : Build) (droplet : Droplet),
        ∀ ev ∈ ((samplePush sampleClient).Push sampleLibrary sampleManifest "zip").2,
          ∃ before rest,
            ((samplePush sampleClient).Push sampleLibrary sampleManifest "zip").2
              = before ++ ev :: rest ∧
            (∀ e ∈ before, e.good = true) ∧
            (ev.call = .ApplicationsStart "app-1" → "app-1" = app.GUID) ∧
            (ev.call = .PackagesUploadBits "pkg-1" "zip" → "pkg-1" = pkg.GUID) ∧
            (ev.call = .BuildsPollStaged "build-1" → "build-1" = build.GUID) ∧
            (ev.call = .DropletsSetCurrentAssociationForApp "app-1" "droplet-1" →
              "droplet-1" = droplet.GUID) := by
  refine ⟨by decide, ?_⟩
  obtain ⟨app, pkg, build, droplet, h⟩ :=
    push_guids_flow (samplePush sampleClient) sampleLibrary sampleManifest "zip"
  refine ⟨app, pkg, build, droplet, fun ev hev => ?_⟩
  obtain ⟨before, rest, h1, h2, h3⟩ := h ev hev
  refine ⟨before, rest, h1, h2, fun hc => ?_, fun hc => ?_, fun hc => ?_, fun hc => ?_⟩
  · rw [hc] at h3
    exact h3.1
  · rw [hc] at h3
    exact h3.1
  · rw [hc] at h3
    exact h3.1
  · rw [hc] at h3
    exact h3.2.1

/-- The lookup of the app only adds to the trace. -/
theorem findApp_extends (p : AppPushOperation) (lib : Library) (t : Trace) (appName : String)
    (space : Space) : t <+: (p.findApp lib t appName space).2 := by
  rcases findApp_cases p lib t appName space with
    ⟨err, _, h⟩ | ⟨apps, _, _, h⟩ | ⟨app, _, h⟩ <;>
    (rw [h]; exact List.prefix_append _ _)

/-- The upload of the package only adds to the trace. -/
theorem uploadPackage_extends (p : AppPushOperation) (t : Trace) (app : App)
    (zipFile : String) : t <+: (p.uploadPackage t app zipFile).2 := by
  rcases uploadPackage_cases p t app zipFile with
    ⟨e, h⟩ | ⟨pkg, e, h⟩ | ⟨pkg, e, h⟩ | ⟨pkg, h⟩ <;>
    (rw [h]; exact List.prefix_append _ _)

/-- The build of the droplet only adds to the trace. -/
theorem buildDroplet_extends (p : AppPushOperation) (lib : Library) (t : Trace) (pkg : Package)
    (manifest : AppManifest) : t <+: (p.buildDroplet lib t pkg manifest).2 := by
  rcases buildDroplet_cases p lib t pkg manifest with
    ⟨e, h⟩ | ⟨build, e, h⟩ | ⟨build, e, _, h⟩ | ⟨build, droplets, _, _, h⟩ |
      ⟨build, droplet, _, h⟩ <;>
    (rw [h]; exact List.prefix_append _ _)

/-- What `pushApp` invokes begins with what `applySpaceManifest` invokes. -/
theorem pushApp_extends (p : AppPushOperation) (lib : Library) (t : Trace) (space : Space)
    (manifest : AppManifest) (zipFile : String) :
    (p.applySpaceManifest lib t space manifest).2
      <+: (p.pushApp lib t space manifest zipFile).2 := by
  unfold AppPushOperation.pushApp
  rcases h1 : p.applySpaceManifest lib t space manifest with ⟨_ | err, t1⟩
  · dsimp only
    have e2 := findApp_extends p lib t1 manifest.Name space
    rcases h2 : p.findApp lib t1 manifest.Name space with ⟨err | app, t2⟩
    · rw [h2] at e2; dsimp only at e2
      exact e2
    · rw [h2] at e2; dsimp only at e2
      dsimp only
      have e3 := uploadPackage_extends p t2 app zipFile
      rcases h3 : p.uploadPackage t2 app zipFile with ⟨err | pkg, t3⟩
      · rw [h3] at e3; dsimp only at e3
        exact e2.trans e3
      · rw [h3] at e3; dsimp only at e3
        dsimp only
        have e4 := buildDroplet_extends p lib t3 pkg manifest
        rcases h4 : p.buildDroplet lib t3 pkg manifest with ⟨err | droplet, t4⟩
        · rw [h4] at e4; dsimp only at e4
          exact (e2.trans e3).trans e4
        · rw [h4] at e4; dsimp only at e4
          dsimp only
          have e5 := (e2.trans e3).trans e4
          rcases h5 : p.client.DropletsSetCurrentAssociationForApp t4 app.GUID droplet.GUID
            with _ | err
          · dsimp only
            split
            · exact e5.trans ((List.prefix_append _ _).trans (List.prefix_append _ _))
            · exact e5.trans ((List.prefix_append _ _).trans (List.prefix_append _ _))
          · exact e5.trans (List.prefix_append _ _)
  · exact List.prefix_refl _

/-- C22: `applySpaceManifest` wraps the app manifest it is given in a manifest
whose applications are that one app manifest, marshals it, and applies the
marshalled document to the GUID of the space it is given; when the wrapping
manifest does not marshal nothing is applied. In a run of `Push`, every
application of a manifest applies the document marshalled from the manifest
whose applications are exactly the one manifest `Push` was given, and applies
it to the GUID of the space the space lookup returned. -/
theorem manifest_is_wrapped_and_applied (p : AppPushOperation) (lib : Library)
    (manifest : AppManifest) :
    (∀ (t : Trace) (space : Space),
      ((∃ e, lib.yamlMarshal ⟨[manifest]⟩ = .error e) ∧
        (p.applySpaceManifest lib t space manifest).2 = t) ∨
      (∃ (m : Manifest) (doc : String) (out : Outcome) (rest : List Event),
        m.Applications = [manifest] ∧ m.Applications.length = 1 ∧
        lib.yamlMarshal m = .ok doc ∧
        (p.applySpaceManifest lib t space manifest).2
          = t ++ ⟨.ManifestsApplyManifest space.GUID doc, out⟩ :: rest ∧
        ∀ e ∈ rest, e.call.step = 4)) ∧
    (∀ (zipFile spaceGUID doc : String) (out : Outcome),
      (⟨.ManifestsApplyManifest spaceGUID doc, out⟩ : Event) ∈ (p.Push lib manifest zipFile).2 →
      ∃ (org : Organization) (space : Space) (m : Manifest),
        m.Applications = [manifest] ∧ m.Applications.length = 1 ∧
        lib.yamlMarshal m = .ok doc ∧ spaceGUID = space.GUID ∧
        (p.findOrg lib []).1 = .ok org ∧
        (p.findSpace lib (p.findOrg lib []).2 org.GUID).1 = .ok space) := by
  constructor
  · intro t space
    rcases applySpaceManifest_cases p lib t space manifest with
      ⟨e, hm, h⟩ | ⟨bytes, e, hm, _, h⟩ | ⟨bytes, job, e, hm, _, h⟩ | ⟨bytes, job, hm, _, h⟩
    · exact Or.inl ⟨⟨e, hm⟩, by rw [h]⟩
    · exact Or.inr ⟨⟨[manifest]⟩, bytes, _, [], rfl, rfl, hm, by rw [h], by simp⟩
    · exact Or.inr ⟨⟨[manifest]⟩, bytes, _, [_], rfl, rfl, hm, by rw [h], by simp [Call.step]⟩
    · exact Or.inr ⟨⟨[manifest]⟩, bytes, _, [_], rfl, rfl, hm, by rw [h], by simp [Call.step]⟩
  · intro zipFile spaceGUID doc out hmem
    rcases findOrg_cases p lib [] with ⟨err, _, h⟩ | ⟨orgs, _, _, h⟩ | ⟨org, _, h⟩
    · simp [AppPushOperation.Push, h] at hmem
    · simp [AppPushOperation.Push, h] at hmem
    · rw [List.nil_append] at h
      rcases findSpace_cases p lib
          [⟨.OrganizationsListAll (p.orgOptions lib), .returned [org.GUID]⟩] org.GUID with
        ⟨err, _, h2⟩ | ⟨spaces, _, _, h2⟩ | ⟨space, _, h2⟩
      · simp [AppPushOperation.Push, h, h2] at hmem
      · simp [AppPushOperation.Push, h, h2] at hmem
      · have h4 : (p.Push lib manifest zipFile).2
            = (p.pushApp lib [⟨.OrganizationsListAll (p.orgOptions lib), .returned [org.GUID]⟩,
                ⟨.SpacesListAll (p.spaceOptions lib org.GUID), .returned [space.GUID]⟩]
              space manifest zipFile).2 := by
          simp only [AppPushOperation.Push, h, h2, List.singleton_append]
        obtain ⟨v, hv⟩ := push_trace_places p lib manifest zipFile
        obtain ⟨i, rest, hi, hcall, htrace, _⟩ := hv _ hmem
        have hi2 : i = 2 := by
          interval_cases i <;>
            simp [AppPushOperation.callAt, AppPushOperation.pipeline] at hcall
          rfl
        subst hi2
        have hthird : (p.Push lib manifest zipFile).2[2]?
            = some ⟨.ManifestsApplyManifest spaceGUID doc, out⟩ := by
          rw [htrace]
          simp [AppPushOperation.pipeline]
        have hext := pushApp_extends p lib
          [⟨.OrganizationsListAll (p.orgOptions lib), .returned [org.GUID]⟩,
            ⟨.SpacesListAll (p.spaceOptions lib org.GUID), .returned [space.GUID]⟩]
          space manifest zipFile
        rw [← h4] at hext
        obtain ⟨more, hmore⟩ := hext
        have hfound : (p.findOrg lib []).1 = .ok org ∧
            (p.findSpace lib (p.findOrg lib []).2 org.GUID).1 = .ok space := by
          rw [h]
          exact ⟨rfl, by rw [h2]⟩
        rcases applySpaceManifest_cases p lib
            [⟨.OrganizationsListAll (p.orgOptions lib), .returned [org.GUID]⟩,
              ⟨.SpacesListAll (p.spaceOptions lib org.GUID), .returned [space.GUID]⟩]
            space manifest with
          ⟨e, hm, ha⟩ | ⟨bytes, e, hm, _, ha⟩ | ⟨bytes, job, e, hm, _, ha⟩ |
            ⟨bytes, job, hm, _, ha⟩
        · have hp : (p.Push lib manifest zipFile).2
              = [⟨.OrganizationsListAll (p.orgOptions lib), .returned [org.GUID]⟩,
                ⟨.SpacesListAll (p.spaceOptions lib org.GUID), .returned [space.GUID]⟩] := by
            rw [h4]
            simp [AppPushOperation.pushApp, ha]
          rw [hp] at hthird
          simp at hthird
        all_goals
          rw [ha] at hmore
          rw [← hmore] at hthird
          simp at hthird
          exact ⟨org, space, ⟨[manifest]⟩, rfl, rfl, by rw [hm, hthird.1.2], hthird.1.1.symm,
            hfound.1, hfound.2⟩

/-- C22, on the sample client: the run applies to the space `space-1` the
document the sample marshaller makes of the manifest that wraps the sample
manifest. -/
theorem manifest_is_wrapped_and_applied_witness :
    (⟨.ManifestsApplyManifest "space-1" "applications: one", .returned ["job-1"]⟩ : Event)
        ∈ ((samplePush sampleClient).Push sampleLibrary sampleManifest "zip").2 ∧
      sampleLibrary.yamlMarshal ⟨[sampleManifest]⟩ = .ok "applications: one" ∧
      ∃ (org : Organization) (space : Space) (m : Manifest),
        m.Applications = [sampleManifest] ∧ m.Applications.length = 1 ∧
        sampleLibrary.yamlMarshal m = .ok "applications: one" ∧ "space-1" = space.GUID ∧
        ((samplePush sampleClient).findOrg sampleLibrary []).1 = .ok org ∧
        ((samplePush sampleClient).findSpace sampleLibrary
          ((samplePush sampleClient).findOrg sampleLibrary []).2 org.GUID).1 = .ok space :=
  ⟨by decide, rfl,
    (manifest_is_wrapped_and_applied (samplePush sampleClient) sampleLibrary sampleManifest).2
      "zip" "space-1" "applications: one" (.returned ["job-1"]) (by decide)⟩

end CfClient
